import Mathlib

/-!
# OpenVKL: interval iterator, macrocell accelerator and volume commit

A shallow embedding of the structured-regular volume of the ISPC driver
(`StructuredRegularVolume.cpp`) and of the ray-interval iterator it serves.

The iterator kernel, the slab test, the macrocell accelerator and the trilinear
sampler are ISPC code of the repository that is not among the source files;
their definitions below are modelled from the specification (sections 3, 4.1,
4.2 and 4.4) and say so in their doc comments.  Arithmetic is exact: parametric
values are rationals extended with the two infinities, where the kernel uses
IEEE-754 single precision.
-/

namespace OpenVKL

/-! ## Vectors and extended parametric values -/

/-- A parametric value along a ray: a rational, `⊥` for -inf or `⊤` for +inf. -/
abbrev ERat := WithBot (WithTop ℚ)

/-- The three grid axes. -/
inductive Axis where
  | x
  | y
  | z
deriving DecidableEq, Repr

/-- A three-component vector (`vec3f`, `vec3i`). -/
structure Vec3 (α : Type) where
  x : α
  y : α
  z : α
deriving DecidableEq, Repr

/-- Component of a vector along an axis. -/
def Vec3.get {α : Type} (v : Vec3 α) : Axis → α
  | Axis.x => v.x
  | Axis.y => v.y
  | Axis.z => v.z

/-- Replace the component of a vector along an axis. -/
def Vec3.set {α : Type} (v : Vec3 α) (a : Axis) (w : α) : Vec3 α :=
  match a with
  | Axis.x => { v with x := w }
  | Axis.y => { v with y := w }
  | Axis.z => { v with z := w }

/-- Smallest of the three components. -/
def Vec3.minComp (t : Vec3 ERat) : ERat := min t.x (min t.y t.z)

/-- Largest of the three components. -/
def Vec3.maxComp (t : Vec3 ERat) : ERat := max t.x (max t.y t.z)

/-- The axis whose component is smallest; on a tie the first of x, y, z. -/
def Vec3.minAxis (t : Vec3 ERat) : Axis :=
  if t.x ≤ t.y ∧ t.x ≤ t.z then Axis.x
  else if t.y ≤ t.z then Axis.y
  else Axis.z

/-- A closed range of scalar values (`range1f` over voxel values). -/
structure ValueRange where
  lower : ℚ
  upper : ℚ
deriving DecidableEq, Repr

/-- Two closed value ranges overlap (`rangesIntersect` of the tests). -/
def rangesIntersect (a b : ValueRange) : Prop :=
  a.lower ≤ b.upper ∧ b.lower ≤ a.upper

instance (a b : ValueRange) : Decidable (rangesIntersect a b) := by
  unfold rangesIntersect
  exact inferInstance

/-! ## Data model (specification section 3) -/

/-- Modelled from the spec: the structured volume of section 3 (the class
`StructuredVolume` and the ISPC-side `SharedStructuredVolume` are missing):
dimensions, origin, spacing and voxel buffer, with the macrocell side `B` that
builder and traversal share. -/
structure Volume where
  dims : Vec3 ℕ
  origin : Vec3 ℚ
  spacing : Vec3 ℚ
  voxels : List ℚ
  B : ℕ

/-- Modelled from the spec: the invariant of a committed volume (section 3):
`len(voxels) == ux*uy*uz` and `spacing > 0` componentwise; the macrocell side is
positive. -/
def Volume.Committed (V : Volume) : Prop :=
  V.voxels.length = V.dims.x * V.dims.y * V.dims.z ∧
  0 < V.spacing.x ∧ 0 < V.spacing.y ∧ 0 < V.spacing.z ∧ 0 < V.B

/-- Every axis has at least two voxels, so the bounding box has an interior and
the macrocell grid has at least one cell per axis. -/
def Volume.Proper (V : Volume) : Prop :=
  2 ≤ V.dims.x ∧ 2 ≤ V.dims.y ∧ 2 ≤ V.dims.z

/-- Modelled from the spec: lower corner of `bbox = [origin, origin + (dims-1)*spacing]`. -/
def Volume.bboxLower (V : Volume) (a : Axis) : ℚ := V.origin.get a

/-- Modelled from the spec: upper corner of `bbox = [origin, origin + (dims-1)*spacing]`. -/
def Volume.bboxUpper (V : Volume) (a : Axis) : ℚ :=
  V.origin.get a + ((V.dims.get a : ℚ) - 1) * V.spacing.get a

/-- Modelled from the spec: macrocells per axis, `ceil((dim-1)/B)` (section 3). -/
def Volume.cellCount (V : Volume) (a : Axis) : ℤ :=
  ⌈((V.dims.get a : ℚ) - 1) / (V.B : ℚ)⌉

/-- A macrocell index lies in the macrocell grid. -/
def Volume.inGrid (V : Volume) (c : Vec3 ℤ) : Prop :=
  (0 ≤ c.x ∧ c.x < V.cellCount Axis.x) ∧ (0 ≤ c.y ∧ c.y < V.cellCount Axis.y) ∧
    (0 ≤ c.z ∧ c.z < V.cellCount Axis.z)

instance (V : Volume) (c : Vec3 ℤ) : Decidable (V.inGrid c) := by
  unfold Volume.inGrid
  exact inferInstance

/-- Voxel value at integer index `(i, j, k)`, x running fastest in the buffer. -/
def Volume.voxel (V : Volume) (i j k : ℕ) : ℚ :=
  V.voxels.getD (i + V.dims.x * (j + V.dims.y * k)) 0

/-- A ray: origin, direction (not necessarily unit) and parametric range. -/
structure Ray where
  org : Vec3 ℚ
  dir : Vec3 ℚ
  t0 : ERat
  t1 : ERat

/-- Point of the ray at parameter `t`, along one axis: `org + t * dir`. -/
def Ray.point (r : Ray) (t : ℚ) (a : Axis) : ℚ := r.org.get a + t * r.dir.get a

/-- Modelled from the spec: a value selector (section 3): a sequence of closed
ranges; the intersection test is "any element overlaps". -/
structure ValueSelector where
  ranges : List ValueRange

/-- Modelled from the spec: the selector's intersection test, "any element overlaps". -/
def ValueSelector.overlaps (S : ValueSelector) (r : ValueRange) : Bool :=
  S.ranges.any fun s => decide (rangesIntersect s r)

/-- Modelled from the spec: the iterator output of section 3: parametric range,
value range and nominal sampling step. -/
structure Interval where
  tLower : ERat
  tUpper : ERat
  valueRange : ValueRange
  nominalDeltaT : ℚ
deriving DecidableEq

/-! ## Macrocell accelerator (specification section 4.2) -/

/-- Modelled from the spec: the voxel indices of macrocell `c` along one axis,
`[i0, min(i0+B, u-1)]` with `i0 = B*c`: the cell's own voxels and the one-voxel
halo in the positive direction. -/
def Volume.cellAxisIndices (V : Volume) (a : Axis) (c : ℕ) : List ℕ :=
  List.range' (V.B * c) (min (V.B * c + V.B) (V.dims.get a - 1) + 1 - V.B * c)

/-- Modelled from the spec: the voxel values a macrocell covers. -/
def Volume.cellVoxels (V : Volume) (c : Vec3 ℕ) : List ℚ :=
  (V.cellAxisIndices Axis.z c.z).flatMap fun k =>
    (V.cellAxisIndices Axis.y c.y).flatMap fun j =>
      (V.cellAxisIndices Axis.x c.x).map fun i => V.voxel i j k

/-- Exact minimum and maximum of a list of values (`[0, 0]` for no value). -/
def valueRangeOf : List ℚ → ValueRange
  | [] => ⟨0, 0⟩
  | v :: vs => ⟨vs.foldl min v, vs.foldl max v⟩

/-- Modelled from the spec: the macrocell grid (the ISPC-side `GridAccelerator`
is missing): cells per dimension and one value range per cell, x running
fastest. -/
structure Accelerator where
  bricksPerDimension : Vec3 ℕ
  cellValueRanges : List ValueRange

/-- Modelled from the spec: macrocells per dimension of a volume, as naturals. -/
def Volume.bricksPerDimension (V : Volume) : Vec3 ℕ :=
  ⟨(V.cellCount Axis.x).toNat, (V.cellCount Axis.y).toNat, (V.cellCount Axis.z).toNat⟩

/-- The macrocell a build task works on: task indices run x fastest. -/
def taskCell (b : Vec3 ℕ) (taskIndex : ℕ) : Vec3 ℕ :=
  ⟨taskIndex % b.x, (taskIndex / b.x) % b.y, taskIndex / (b.x * b.y)⟩

/-- Modelled from the spec: `GridAccelerator_build(accelerator, taskIndex)`: the
exact min and max over the voxels of the task's macrocell. -/
def GridAccelerator_build (V : Volume) (taskIndex : ℕ) : ValueRange :=
  valueRangeOf (V.cellVoxels (taskCell V.bricksPerDimension taskIndex))

/-- Modelled from the spec: the accelerator a commit builds, one task per macrocell. -/
def Volume.accelerator (V : Volume) : Accelerator :=
  let b := V.bricksPerDimension
  ⟨b, (List.range (b.x * b.y * b.z)).map (GridAccelerator_build V)⟩

/-- Modelled from the spec: `range_of(ci, cj, ck)`, a table lookup. -/
def Accelerator.rangeOf (A : Accelerator) (c : Vec3 ℤ) : ValueRange :=
  A.cellValueRanges.getD
    (c.x.toNat + A.bricksPerDimension.x * (c.y.toNat + A.bricksPerDimension.y * c.z.toNat))
    ⟨0, 0⟩

/-! ## Slab test (specification section 4.1) -/

/-- Modelled from the spec: one slab of `intersect_bbox`, the parametric range
in which the ray lies between `lo` and `hi` along an axis.  A zero direction
component contributes `[-inf, +inf]` when the origin lies in the slab and the
empty range otherwise (the sign-of-reciprocal convention). -/
def slab (lo hi o d : ℚ) : ERat × ERat :=
  if 0 < d then ((((lo - o) / d : ℚ) : ERat), (((hi - o) / d : ℚ) : ERat))
  else if d < 0 then ((((hi - o) / d : ℚ) : ERat), (((lo - o) / d : ℚ) : ERat))
  else if lo ≤ o ∧ o ≤ hi then (⊥, ⊤)
  else (⊤, ⊥)

/-- The slab of the volume's bounding box along one axis. -/
def Volume.slab (V : Volume) (r : Ray) (a : Axis) : ERat × ERat :=
  OpenVKL.slab (V.bboxLower a) (V.bboxUpper a) (r.org.get a) (r.dir.get a)

/-- Parameter at which the ray enters the bounding box (`t_bbox_enter`). -/
def Volume.tBoxEnter (V : Volume) (r : Ray) : ERat :=
  max (V.slab r Axis.x).1 (max (V.slab r Axis.y).1 (V.slab r Axis.z).1)

/-- Parameter at which the ray leaves the bounding box (`t_bbox_exit`). -/
def Volume.tBoxExit (V : Volume) (r : Ray) : ERat :=
  min (V.slab r Axis.x).2 (min (V.slab r Axis.y).2 (V.slab r Axis.z).2)

/-- Modelled from the spec: `intersect_bbox(ray)`: the slab test against the
bounding box intersected with the ray's `t_range`; a tie (enter = exit) is a
miss. -/
def intersect_bbox (V : Volume) (r : Ray) : Option (ERat × ERat) :=
  if max r.t0 (V.tBoxEnter r) < min r.t1 (V.tBoxExit r) then
    some (max r.t0 (V.tBoxEnter r), min r.t1 (V.tBoxExit r))
  else none

/-! ## Interval iterator (specification section 4.4) -/

/-- Modelled from the spec: the per-lane iterator state: current macrocell, the
DDA parameters per axis, entry parameter of the current cell, the ray's
parametric range as clipped to the bounding box at init, the nominal step and
the exhausted flag.  The exit parameter of the current cell is the smallest
`tNext`. -/
structure LaneState where
  cell : Vec3 ℤ
  tDelta : Vec3 ERat
  tNext : Vec3 ERat
  stepSign : Vec3 ℤ
  tEnter : ERat
  tLo : ERat
  tHi : ERat
  nominalDeltaT : ℚ
  exhausted : Bool

/-- Exit parameter of the current cell: the smallest `tNext`. -/
def LaneState.tExit (s : LaneState) : ERat := s.tNext.minComp

/-- The "done" state of a lane that never iterates. -/
def LaneState.done : LaneState :=
  { cell := ⟨0, 0, 0⟩, tDelta := ⟨⊤, ⊤, ⊤⟩, tNext := ⟨⊤, ⊤, ⊤⟩, stepSign := ⟨0, 0, 0⟩,
    tEnter := ⊤, tLo := ⊤, tHi := ⊥, nominalDeltaT := 0, exhausted := true }

/-- Modelled from the spec: the macrocell containing the entry point, along one
axis, in cell coordinates `u = (p - origin) / spacing / B`: a point on a cell
boundary goes to the cell in the direction of travel; without travel along the
axis the point on the upper face of the grid belongs to the last cell. -/
def Volume.entryCell (V : Volume) (r : Ray) (t : ℚ) (a : Axis) : ℤ :=
  let u := (r.point t a - V.origin.get a) / V.spacing.get a / (V.B : ℚ)
  if 0 < r.dir.get a then ⌊u⌋
  else if r.dir.get a < 0 then ⌈u⌉ - 1
  else min ⌊u⌋ (V.cellCount a - 1)

/-- Modelled from the spec: `step_sign` of the DDA along one axis. -/
def stepSignOf (d : ℚ) : ℤ := if 0 < d then 1 else if d < 0 then -1 else 0

/-- Modelled from the spec: `t_delta` of the DDA along one axis: the parametric
length of one macrocell, infinite without travel along the axis. -/
def Volume.tDeltaOf (V : Volume) (r : Ray) (a : Axis) : ERat :=
  if r.dir.get a = 0 then ⊤
  else ((((V.B : ℚ) * V.spacing.get a / |r.dir.get a| : ℚ)) : ERat)

/-- Modelled from the spec: `t_next` of the DDA along one axis for the cell
`c`: the parameter at which the ray crosses the cell's far boundary. -/
def Volume.tNextOf (V : Volume) (r : Ray) (a : Axis) (c : ℤ) : ERat :=
  if 0 < r.dir.get a then
    ((((V.origin.get a + (V.B : ℚ) * ((c : ℚ) + 1) * V.spacing.get a - r.org.get a) /
      r.dir.get a : ℚ)) : ERat)
  else if r.dir.get a < 0 then
    ((((V.origin.get a + (V.B : ℚ) * (c : ℚ) * V.spacing.get a - r.org.get a) /
      r.dir.get a : ℚ)) : ERat)
  else ⊤

/-- Modelled from the spec: `nominal_dt = min(spacing) / max(|dir_x|, |dir_y|, |dir_z|)`. -/
def Volume.nominalDt (V : Volume) (r : Ray) : ℚ :=
  min V.spacing.x (min V.spacing.y V.spacing.z) / max |r.dir.x| (max |r.dir.y| |r.dir.z|)

/-- The state of a lane whose ray enters the box at the finite parameter `e`
and whose clipped range is `[enter, exit]`. -/
def Volume.readyState (V : Volume) (r : Ray) (e : ℚ) (enter exit : ERat) : LaneState :=
  let c : Vec3 ℤ := ⟨V.entryCell r e Axis.x, V.entryCell r e Axis.y, V.entryCell r e Axis.z⟩
  { cell := c
    tDelta := ⟨V.tDeltaOf r Axis.x, V.tDeltaOf r Axis.y, V.tDeltaOf r Axis.z⟩
    tNext := ⟨V.tNextOf r Axis.x c.x, V.tNextOf r Axis.y c.y, V.tNextOf r Axis.z c.z⟩
    stepSign := ⟨stepSignOf r.dir.x, stepSignOf r.dir.y, stepSignOf r.dir.z⟩
    tEnter := enter
    tLo := enter
    tHi := exit
    nominalDeltaT := V.nominalDt r
    exhausted := false }

/-- Modelled from the spec: `init` for one lane.  A masked-off lane, a ray with
zero direction and a ray that misses the box are left "done"; a hit ray gets
its entry macrocell and DDA parameters, with `exhausted = false`. -/
def initLane (V : Volume) (active : Bool) (r : Ray) : LaneState :=
  if active = false then LaneState.done
  else if r.dir.x = 0 ∧ r.dir.y = 0 ∧ r.dir.z = 0 then LaneState.done
  else
    match intersect_bbox V r with
    | none => LaneState.done
    | some (enter, exit) =>
      match enter with
      | some (some e) => V.readyState r e enter exit
      | _ => LaneState.done

/-- Modelled from the spec: the interval of the current cell,
`[max(t_cell_enter, t0), min(t_cell_exit, t1)]` with the cell's value range,
where `[t0, t1]` is the range the lane keeps: the ray's range as `init` clipped
it to the bounding box. -/
def LaneState.interval (V : Volume) (s : LaneState) : Interval :=
  { tLower := max s.tEnter s.tLo
    tUpper := min s.tExit s.tHi
    valueRange := V.accelerator.rangeOf s.cell
    nominalDeltaT := s.nominalDeltaT }

/-- Modelled from the spec: one DDA step: advance one cell across the axis
whose `t_next` is smallest, `t_next += t_delta` for that axis and the cell index
by `step_sign`; the lane is exhausted if the new cell is outside the macrocell
grid or the new `t_enter` is greater than the upper end of the range. -/
def LaneState.advance (V : Volume) (s : LaneState) : LaneState :=
  let a := s.tNext.minAxis
  let c := s.cell.set a (s.cell.get a + s.stepSign.get a)
  { s with
    cell := c
    tNext := s.tNext.set a (s.tNext.get a + s.tDelta.get a)
    tEnter := s.tExit
    exhausted := !(decide (V.inGrid c)) || decide (s.tHi < s.tExit) }

/-- Modelled from the spec: stepping with a value selector: cells whose value
range misses the selector are passed without emission until a cell is emitted
or the lane is exhausted.  `fuel` bounds the number of cells visited. -/
def seekInterval (V : Volume) (S : ValueSelector) :
    ℕ → LaneState → LaneState × Option Interval
  | 0, s => (s, none)
  | fuel + 1, s =>
    if s.exhausted then (s, none)
    else if S.overlaps (V.accelerator.rangeOf s.cell) then (s.advance V, some (s.interval V))
    else seekInterval V S fuel (s.advance V)

/-- Number of cells a ray can visit at most, plus one. -/
def Volume.seekFuel (V : Volume) : ℕ :=
  V.bricksPerDimension.x + V.bricksPerDimension.y + V.bricksPerDimension.z + 1

/-- Modelled from the spec: `step` for one lane: a READY lane emits the interval
of its current cell and advances; an exhausted lane emits nothing. -/
def stepLane (V : Volume) (sel : Option ValueSelector) (s : LaneState) :
    LaneState × Option Interval :=
  if s.exhausted then (s, none)
  else
    match sel with
    | none => (s.advance V, some (s.interval V))
    | some S => seekInterval V S V.seekFuel s

/-- Modelled from the spec: the opaque iterator state of a lane group: the
volume and the selector it refers to and one state per lane. -/
structure IteratorState where
  volume : Volume
  selector : Option ValueSelector
  lanes : List LaneState

/-- Modelled from the spec: `init_interval_iterator_W(valid, state, vol, org,
dir, tRange, sel_or_null)`. -/
def initIntervalIterator (valid : List Bool) (V : Volume) (rays : List Ray)
    (sel : Option ValueSelector) : IteratorState :=
  { volume := V, selector := sel, lanes := List.zipWith (initLane V) valid rays }

/-- One lane of `iterate_interval_W`: a lane that is not active in the call is
not stepped. -/
def iterateLane (V : Volume) (sel : Option ValueSelector) (active : Bool) (s : LaneState) :
    LaneState × Option Interval :=
  if active then stepLane V sel s else (s, none)

/-- What one `iterate_interval_W` call returns: the new state, the interval
each lane emitted, if any, and the per-lane `result` flags. -/
structure IterateOut where
  state : IteratorState
  intervals : List (Option Interval)
  result : List ℕ

/-- Modelled from the spec: `iterate_interval_W(valid, state, &interval_out,
result)`: every lane is stepped on its own; `result[i]` is 1 for a lane that
emitted an interval in this call and 0 otherwise. -/
def iterateInterval (valid : List Bool) (st : IteratorState) : IterateOut :=
  let outs := List.zipWith (iterateLane st.volume st.selector) valid st.lanes
  { state := { st with lanes := outs.map Prod.fst }
    intervals := outs.map Prod.snd
    result := outs.map fun o => if o.2.isSome then 1 else 0 }

/-- The outputs of the first `n` calls of `iterate_interval_W` on a state. -/
def iterateCalls (valid : List Bool) : ℕ → IteratorState → List IterateOut
  | 0, _ => []
  | n + 1, st =>
    let o := iterateInterval valid st
    o :: iterateCalls valid n o.state

/-- The intervals lane `i` emitted over a sequence of calls, in order. -/
def emitted (outs : List IterateOut) (i : ℕ) : List Interval :=
  outs.filterMap fun o => (o.intervals.getD i none)

/-- The outputs of one lane over `n` calls: what `iterateCalls` yields for a
single lane. -/
def laneCalls (V : Volume) (sel : Option ValueSelector) (active : Bool) :
    ℕ → LaneState → List (Option Interval)
  | 0, _ => []
  | n + 1, s =>
    (iterateLane V sel active s).2 :: laneCalls V sel active n (iterateLane V sel active s).1

/-- Timing invariant of a lane: the clipped lower end is not after the entry
parameter of the current cell, which is not after any `tNext`; the `tDelta` are
not negative. -/
def LaneState.Timed (s : LaneState) : Prop :=
  s.tLo ≤ s.tEnter ∧ (∀ a, s.tEnter ≤ s.tNext.get a) ∧ ∀ a, 0 ≤ s.tDelta.get a

/-- The DDA parameters of a lane are those of the ray `r` at the lane's current
cell. -/
def LaneState.Tracks (V : Volume) (r : Ray) (s : LaneState) : Prop :=
  ∀ a, s.tNext.get a = V.tNextOf r a (s.cell.get a) ∧ s.tDelta.get a = V.tDeltaOf r a ∧
    s.stepSign.get a = stepSignOf (r.dir.get a)

instance (V : Volume) : Decidable V.Committed := by
  unfold Volume.Committed
  exact inferInstance

instance (V : Volume) : Decidable V.Proper := by
  unfold Volume.Proper
  exact inferInstance

/-! ## Example inputs -/

/-- A volume of 5 x 5 x 5 voxels over the unit cube, macrocell side 2 (two
macrocells per axis), whose voxel value is 0 up to the middle slice in z and 1
from slice 3 on. -/
def cubeVolume : Volume :=
  { dims := ⟨5, 5, 5⟩, origin := ⟨0, 0, 0⟩, spacing := ⟨1 / 4, 1 / 4, 1 / 4⟩,
    voxels := List.replicate 75 0 ++ List.replicate 50 1, B := 2 }

/-- The ray of scenario S1: from `z = -1` along `+z`, `t` in `[0, +inf)`. -/
def axisRay : Ray :=
  { org := ⟨1 / 2, 1 / 2, -1⟩, dir := ⟨0, 0, 1⟩, t0 := 0, t1 := ⊤ }

/-- Cells a lane can still visit along one axis, the current one included. -/
def LaneState.remAxis (V : Volume) (s : LaneState) (a : Axis) : ℕ :=
  if 0 < s.stepSign.get a then (V.cellCount a - s.cell.get a).toNat
  else if s.stepSign.get a < 0 then (s.cell.get a + 1).toNat
  else 0

/-- Cells a lane can still visit: the measure that bounds the number of calls
after which the lane is exhausted. -/
def LaneState.remaining (V : Volume) (s : LaneState) : ℕ :=
  s.remAxis V Axis.x + s.remAxis V Axis.y + s.remAxis V Axis.z

/-- The invariant of a lane that iterates the ray `r`: the timing invariant,
DDA parameters that are those of `r`, a current cell inside the grid while the
lane is READY, an upper end that is not after the exit from the bounding box,
and a direction that is not zero. -/
def LaneState.Good (V : Volume) (r : Ray) (s : LaneState) : Prop :=
  s.Timed ∧ s.Tracks V r ∧ (s.exhausted = false → V.inGrid s.cell) ∧
    s.tHi ≤ V.tBoxExit r ∧ ¬(r.dir.x = 0 ∧ r.dir.y = 0 ∧ r.dir.z = 0)

/-- The ray reaches the upper end `hi` of its range only after it has left the
macrocell grid: crossing into another cell of the grid happens at or before
`hi`. -/
def Volume.FullCross (V : Volume) (r : Ray) (hi : ERat) : Prop :=
  ∀ (a : Axis) (c : ℤ), r.dir.get a ≠ 0 → 0 ≤ c + stepSignOf (r.dir.get a) →
    c + stepSignOf (r.dir.get a) < V.cellCount a → V.tNextOf r a c ≤ hi

/-- The parameter at which an axis-aligned ray enters the box. -/
def Volume.alignedEnter (V : Volume) (r : Ray) (a : Axis) : ℚ :=
  if 0 < r.dir.get a then (V.bboxLower a - r.org.get a) / r.dir.get a
  else (V.bboxUpper a - r.org.get a) / r.dir.get a

/-- The parameter at which an axis-aligned ray leaves the box. -/
def Volume.alignedExit (V : Volume) (r : Ray) (a : Axis) : ℚ :=
  if 0 < r.dir.get a then (V.bboxUpper a - r.org.get a) / r.dir.get a
  else (V.bboxLower a - r.org.get a) / r.dir.get a


/-- A volume of 2 x 2 x 2 voxels with macrocell side 1: one macrocell per axis. -/
def unitSideVolume : Volume :=
  { dims := ⟨2, 2, 2⟩, origin := ⟨0, 0, 0⟩, spacing := ⟨1, 1, 1⟩,
    voxels := List.replicate 8 0, B := 1 }

/-- A volume of 4 x 4 x 4 voxels over the unit cube with macrocell side 2: two
macrocells per axis. -/
def evenVolume : Volume :=
  { dims := ⟨4, 4, 4⟩, origin := ⟨0, 0, 0⟩, spacing := ⟨1 / 3, 1 / 3, 1 / 3⟩,
    voxels := List.replicate 64 0, B := 2 }

/-- The x and y components of a macrocell index lie in the grid. -/
def Volume.inGridXY (V : Volume) (c : Vec3 ℤ) : Prop :=
  (0 ≤ c.x ∧ c.x < V.cellCount Axis.x) ∧ (0 ≤ c.y ∧ c.y < V.cellCount Axis.y)

/-- Two lanes that travel along z only and agree on everything but the x and y
components of their cell, which are either both inside the grid or both
outside: such lanes emit on the same calls. -/
def LaneState.Parallel (V : Volume) (s u : LaneState) : Prop :=
  s.exhausted = u.exhausted ∧ s.tNext = u.tNext ∧ s.tDelta = u.tDelta ∧ s.tHi = u.tHi ∧
    s.stepSign = u.stepSign ∧ s.stepSign.x = 0 ∧ s.stepSign.y = 0 ∧ s.cell.z = u.cell.z ∧
    (V.inGridXY s.cell ↔ V.inGridXY u.cell)

/-- The S1 ray cut at `t1 = 5/4`, inside the first macrocell of the cube. -/
def shortRay : Ray :=
  { org := ⟨1 / 2, 1 / 2, -1⟩, dir := ⟨0, 0, 1⟩, t0 := 0, t1 := ((5 / 4 : ℚ) : ERat) }

/-- What the rays of the axis-aligned test share: direction `(0, 0, 1)` from
`z = -1` at an `(x, y)` inside the bounding box, with the range `[t0, t1]`. -/
def Volume.TestRay (V : Volume) (t0 t1 : ERat) (r : Ray) : Prop :=
  r.dir = ⟨0, 0, 1⟩ ∧ r.org.z = -1 ∧
    (V.bboxLower Axis.x ≤ r.org.x ∧ r.org.x ≤ V.bboxUpper Axis.x) ∧
    (V.bboxLower Axis.y ≤ r.org.y ∧ r.org.y ≤ V.bboxUpper Axis.y) ∧ r.t0 = t0 ∧ r.t1 = t1

instance (V : Volume) (t0 t1 : ERat) (r : Ray) : Decidable (V.TestRay t0 t1 r) := by
  unfold Volume.TestRay
  exact inferInstance

/-- The class `Data` (missing): a typed buffer; `size()` is its number of items. -/
structure Data where
  data : List ℚ
  dataType : ℕ
deriving DecidableEq

/-- `Data::size()`. -/
def Data.size (d : Data) : ℕ := d.data.length

/-- What the ISPC-side functions return during one commit:
`SharedStructuredVolume_Constructor` (`none` is a null pointer),
`SharedStructuredVolume_set`, and the `GridAccelerator_getBricksPerDimension_*`
of the accelerator `SharedStructuredVolume_createAccelerator` returns. -/
structure Ispc where
  constructed : Option ℕ
  setSucceeds : Bool
  bricksPerDimension : Vec3 ℤ

/-- A call into the ISPC side. -/
inductive IspcCall where
  | construct (result : Option ℕ)
  | set (handle : ℕ) (data : Data) (dimensions : Vec3 ℤ) (gridOrigin gridSpacing : Vec3 ℚ)
      (success : Bool)
  | destruct (handle : ℕ)
  | createAccelerator (handle : ℕ)
  | build (taskIndex : ℕ)
deriving DecidableEq

/-- The object: its staged parameters (`getParam`), the fields of
`StructuredVolume` and `StructuredRegularVolume`, and the ISPC-side handle
(`none` is a null pointer). -/
structure StructuredRegularVolume where
  paramVoxelData : Option Data
  paramDimensions : Option (Vec3 ℤ)
  paramGridOrigin : Option (Vec3 ℚ)
  paramGridSpacing : Option (Vec3 ℚ)
  dimensions : Vec3 ℤ
  gridOrigin : Vec3 ℚ
  gridSpacing : Vec3 ℚ
  voxelData : Option Data
  ispcEquivalent : Option ℕ
deriving DecidableEq

/-- How a `commit` call ends: the exception it threw, if any, the object as
the call left it, and the ISPC-side calls it made. -/
structure CommitResult where
  error : Option String
  volume : StructuredRegularVolume
  calls : List IspcCall
deriving DecidableEq

/-- Modelled from the spec: `StructuredVolume<W>::commit()` (the base class is
missing): promotes the staged `dimensions`, `gridOrigin` and `gridSpacing`; a
missing required parameter is a fatal error (sections 4.6 and 6). -/
def StructuredVolume_commit (v : StructuredRegularVolume) :
    Except String StructuredRegularVolume :=
  match v.paramDimensions, v.paramGridOrigin, v.paramGridSpacing with
  | some d, some o, some s =>
    Except.ok { v with dimensions := d, gridOrigin := o, gridSpacing := s }
  | _, _, _ => Except.error "missing required parameter"

/-- A C `int` product, wrapped to 32 bits. -/
def wrapInt32 (n : ℤ) : ℤ := (n + 2 ^ 31) % 2 ^ 32 - 2 ^ 31

/-- Modelled from the spec: `longProduct(dimensions)` (missing): the product of
the three dimensions computed in 64 bits. -/
def longProduct (d : Vec3 ℤ) : ℤ := (d.x * d.y * d.z + 2 ^ 63) % 2 ^ 64 - 2 ^ 63

/-- `voxelData->size() != longProduct(this->dimensions)`: the `size_t` and the
`long` are compared as unsigned 64-bit values. -/
def sizeMismatch (size : ℕ) (d : Vec3 ℤ) : Prop :=
  (size : ℤ) % 2 ^ 64 ≠ longProduct d % 2 ^ 64

instance (size : ℕ) (d : Vec3 ℤ) : Decidable (sizeMismatch size d) := by
  unfold sizeMismatch
  exact inferInstance

/-- `StructuredRegularVolume<W>::buildAccelerator()`: create the accelerator,
read its bricks per dimension, and run `GridAccelerator_build` for every task
index below `numTasks` (`parallel_for`; the calls are listed by task index). -/
def buildAccelerator (env : Ispc) (handle : ℕ) : List IspcCall :=
  let numTasks : ℤ :=
    wrapInt32 (wrapInt32 (env.bricksPerDimension.x * env.bricksPerDimension.y) *
      env.bricksPerDimension.z)
  IspcCall.createAccelerator handle :: (List.range numTasks.toNat).map IspcCall.build

/-- The tail of `commit`, from `SharedStructuredVolume_set` on, for an object
whose ISPC-side handle is `handle`. -/
def commitSet (env : Ispc) (v : StructuredRegularVolume) (d : Data) (handle : ℕ)
    (before : List IspcCall) : CommitResult :=
  let setCall := IspcCall.set handle d v.dimensions v.gridOrigin v.gridSpacing env.setSucceeds
  if env.setSucceeds then
    { error := none, volume := v, calls := before ++ setCall :: buildAccelerator env handle }
  else
    { error := some "failed to commit StructuredRegularVolume"
      volume := { v with ispcEquivalent := none }
      calls := before ++ [setCall, IspcCall.destruct handle] }

/-- `StructuredRegularVolume<W>::commit()`. -/
def StructuredRegularVolume.commit (env : Ispc) (v : StructuredRegularVolume) :
    CommitResult :=
  match StructuredVolume_commit v with
  | Except.error e => { error := some e, volume := v, calls := [] }
  | Except.ok v1 =>
    let v2 := { v1 with voxelData := v1.paramVoxelData }
    match v2.voxelData with
    | none => { error := some "no voxelData set on volume", volume := v2, calls := [] }
    | some d =>
      if sizeMismatch d.size v2.dimensions then
        { error := some "incorrect voxelData size for provided volume dimensions"
          volume := v2, calls := [] }
      else
        match v2.ispcEquivalent with
        | some handle => commitSet env v2 d handle []
        | none =>
          match env.constructed with
          | none =>
            { error := some "could not create ISPC-side object for StructuredRegularVolume"
              volume := v2, calls := [IspcCall.construct none] }
          | some handle =>
            commitSet env { v2 with ispcEquivalent := some handle } d handle
              [IspcCall.construct (some handle)]

/-- `StructuredRegularVolume<W>::~StructuredRegularVolume()`. -/
def StructuredRegularVolume.destroy (v : StructuredRegularVolume) : List IspcCall :=
  match v.ispcEquivalent with
  | some handle => [IspcCall.destruct handle]
  | none => []

/-- A new volume on which `dimensions`, `gridOrigin` and `gridSpacing` are set
and `voxelData` is not. -/
def noDataVolume : StructuredRegularVolume :=
  { paramVoxelData := none, paramDimensions := some ⟨2, 2, 2⟩,
    paramGridOrigin := some ⟨0, 0, 0⟩, paramGridSpacing := some ⟨1, 1, 1⟩,
    dimensions := ⟨0, 0, 0⟩, gridOrigin := ⟨0, 0, 0⟩, gridSpacing := ⟨0, 0, 0⟩,
    voxelData := none, ispcEquivalent := none }

/-- An ISPC side on which every call succeeds, with one brick per dimension. -/
def okIspc : Ispc := { constructed := some 1, setSucceeds := true, bricksPerDimension := ⟨1, 1, 1⟩ }

/-! ## Grid sampler (specification section 4.1) -/

/-- A world position lies in the bounding box. -/
def Volume.inBBox (V : Volume) (p : Vec3 ℚ) : Prop :=
  (V.bboxLower Axis.x ≤ p.x ∧ p.x ≤ V.bboxUpper Axis.x) ∧
    (V.bboxLower Axis.y ≤ p.y ∧ p.y ≤ V.bboxUpper Axis.y) ∧
    (V.bboxLower Axis.z ≤ p.z ∧ p.z ≤ V.bboxUpper Axis.z)

instance (V : Volume) (p : Vec3 ℚ) : Decidable (V.inBBox p) := by
  unfold Volume.inBBox
  exact inferInstance

/-- The point of a ray at parameter `t`: `org + t * dir`. -/
def Ray.pointAt (r : Ray) (t : ℚ) : Vec3 ℚ :=
  ⟨r.point t Axis.x, r.point t Axis.y, r.point t Axis.z⟩

/-- A volume with `voxelData` of 8 items and dimensions `(2, 2, 2)` set. -/
def dataVolume : StructuredRegularVolume :=
  { noDataVolume with paramVoxelData := some ⟨List.replicate 8 0, 0⟩ }

/-- A volume with `voxelData` of 7 items and dimensions `(2, 2, 2)` set. -/
def shortDataVolume : StructuredRegularVolume :=
  { noDataVolume with paramVoxelData := some ⟨List.replicate 7 0, 0⟩ }

/-! ## SamplesMask (`src/volley/drivers/ispc/samples_mask/SamplesMask.h`) -/

/-- `SamplesMask`: the value selector of the volley ISPC driver; its one field
is `std::vector<range1f> ranges`. -/
structure SamplesMask where
  ranges : List ValueRange
deriving DecidableEq

/-- `SamplesMask() = default`: a new selector has no ranges. -/
def SamplesMask.new : SamplesMask := { ranges := [] }

/-- Inserts a range into a list of ranges ordered by their lower ends. -/
def insertRange (r : ValueRange) : List ValueRange → List ValueRange
  | [] => [r]
  | s :: rest => if r.lower ≤ s.lower then r :: s :: rest else s :: insertRange r rest

/-- Orders the ranges by their lower ends (insertion sort). -/
def sortRanges : List ValueRange → List ValueRange
  | [] => []
  | r :: rest => insertRange r (sortRanges rest)

/-- Coalesces ranges ordered by their lower ends into the running range `cur`:
a range that starts at or before the end of `cur` is merged into it, a range that
starts after it closes `cur`. -/
def coalesceInto (cur : ValueRange) : List ValueRange → List ValueRange
  | [] => [cur]
  | s :: rest =>
    if s.lower ≤ cur.upper then coalesceInto ⟨cur.lower, max cur.upper s.upper⟩ rest
    else cur :: coalesceInto s rest

/-- Coalesces a list of ranges ordered by their lower ends. -/
def coalesceRanges : List ValueRange → List ValueRange
  | [] => []
  | r :: rest => coalesceInto r rest

/-- Modelled from the spec: `SamplesMask::setRanges` (declared in the header, its
body is missing).  Section 4.3 has the ranges "sorted and coalesced (disjoint,
ascending)" after commit, and `commit` leaves `ranges` alone, so it is
`setRanges` that stores the given ranges sorted and coalesced. -/
def SamplesMask.setRanges (s : SamplesMask) (ranges : List ValueRange) : SamplesMask :=
  { s with ranges := coalesceRanges (sortRanges ranges) }

/-- `SamplesMask::commit()`: it calls `ManagedObject::commit()` and does nothing
else.  The base-class commit is missing: how it ends is a parameter (it has no
access to `ranges`, a member of the derived class). -/
def SamplesMask.commit (managedObjectCommit : Except String Unit) (s : SamplesMask) :
    Except String SamplesMask :=
  match managedObjectCommit with
  | Except.error e => Except.error e
  | Except.ok _ => Except.ok s

/-- A list of ranges is sorted ascending and pairwise disjoint: every range
ends before the next one starts. -/
def rangesAscending (rs : List ValueRange) : Prop :=
  rs.Chain' fun a b => a.upper < b.lower

/-- The scalar value `v` lies in one of the ranges. -/
def rangesCover (rs : List ValueRange) (v : ℚ) : Prop :=
  ∃ r ∈ rs, r.lower ≤ v ∧ v ≤ r.upper

/-! ## VolleyVolumeWrapper (`src/apps/ospray/devices/volume/VolleyVolumeWrapper.cpp`) -/

/-- A `float` as far as comparisons go: NaN or an extended rational. -/
inductive FloatVal where
  | nan
  | val (x : ERat)
deriving DecidableEq

/-- The `<` of two floats: false when either is NaN. -/
def FloatVal.lt : FloatVal → FloatVal → Bool
  | FloatVal.val x, FloatVal.val y => decide (x < y)
  | _, _ => false

/-- The fields of the renderer's `Ray` that the wrapper uses (its declaration
is missing): origin, direction and the parametric range `[t0, t]`. -/
structure WrapperRay where
  org : Vec3 ℚ
  dir : Vec3 ℚ
  t0 : FloatVal
  t : FloatVal
deriving DecidableEq

/-- The wrapper with the volley functions it calls, which are missing:
`vlyIntersectVolume` for one ray (the range it writes for an origin and a
direction) and the sample the volume's sampler gives for a sampling type and a
position. -/
structure VolleyVolumeWrapper where
  vlyIntersectVolume : Vec3 ℚ → Vec3 ℚ → FloatVal × FloatVal
  sampler : ℕ → Vec3 ℚ → ℚ
  vlySamplingType : ℕ

/-- `VolleyVolumeWrapper::intersect(Ray &ray)`: the returned flag and the ray as
the call leaves it. -/
def VolleyVolumeWrapper.intersect (w : VolleyVolumeWrapper) (ray : WrapperRay) :
    Bool × WrapperRay :=
  let range := w.vlyIntersectVolume ray.org ray.dir
  if range.1.lt range.2 then (true, { ray with t0 := range.1, t := range.2 })
  else (false, ray)

/-- Modelled from the spec: `vlySampleVolume(volume, samplingType, n, points,
out)` (missing): it writes the sample of the `i`-th point to `out[i]` for
`i < n` (section 4.1, `sample_many`) and leaves the rest of `out` alone. -/
def vlySampleVolume (sample : Vec3 ℚ → ℚ) (n : ℕ) (points : List (Vec3 ℚ)) (out : List ℚ) :
    List ℚ :=
  (points.take n).map sample ++ out.drop n

/-- `VolleyVolumeWrapper::computeSample(worldCoordinates)`; `garbage` is the value
of the uninitialised local `sample` before the call. -/
def VolleyVolumeWrapper.computeSample (w : VolleyVolumeWrapper) (garbage : ℚ)
    (worldCoordinates : Vec3 ℚ) : ℚ :=
  (vlySampleVolume (w.sampler w.vlySamplingType) 1 [worldCoordinates] [garbage]).headD garbage

/-- `VolleyVolumeWrapper::computeSamples(worldCoordinates)`: `samples.resize(n)`
and one batched call. -/
def VolleyVolumeWrapper.computeSamples (w : VolleyVolumeWrapper)
    (worldCoordinates : List (Vec3 ℚ)) : List ℚ :=
  vlySampleVolume (w.sampler w.vlySamplingType) worldCoordinates.length worldCoordinates
    (List.replicate worldCoordinates.length 0)

/-! ## Iterator state sizes (`src/openvkl/include/openvkl/iterator_size.h`) -/

/-- `ITERATOR_INTERNAL_STATE_ALIGNMENT`. -/
def ITERATOR_INTERNAL_STATE_ALIGNMENT : ℕ := 64

/-- `ITERATOR_INTERNAL_STATE_SIZE`. -/
def ITERATOR_INTERNAL_STATE_SIZE : ℕ := 2048

/-- `ITERATOR_INTERNAL_STATE_ALIGNMENT_4`. -/
def ITERATOR_INTERNAL_STATE_ALIGNMENT_4 : ℕ := 16

/-- `ITERATOR_INTERNAL_STATE_SIZE_4`. -/
def ITERATOR_INTERNAL_STATE_SIZE_4 : ℕ := 512

/-- `ITERATOR_INTERNAL_STATE_ALIGNMENT_8`. -/
def ITERATOR_INTERNAL_STATE_ALIGNMENT_8 : ℕ := 32

/-- `ITERATOR_INTERNAL_STATE_SIZE_8`. -/
def ITERATOR_INTERNAL_STATE_SIZE_8 : ℕ := 1024

/-- `ITERATOR_INTERNAL_STATE_ALIGNMENT_16`. -/
def ITERATOR_INTERNAL_STATE_ALIGNMENT_16 : ℕ := 64

/-- `ITERATOR_INTERNAL_STATE_SIZE_16`. -/
def ITERATOR_INTERNAL_STATE_SIZE_16 : ℕ := 2048

/-- Size and alignment in bytes of the opaque iterator state for a lane width;
width 1 is the scalar (unsuffixed) iterator.  Other widths have no iterator. -/
def iteratorStateLayout : ℕ → Option (ℕ × ℕ)
  | 1 => some (ITERATOR_INTERNAL_STATE_SIZE, ITERATOR_INTERNAL_STATE_ALIGNMENT)
  | 4 => some (ITERATOR_INTERNAL_STATE_SIZE_4, ITERATOR_INTERNAL_STATE_ALIGNMENT_4)
  | 8 => some (ITERATOR_INTERNAL_STATE_SIZE_8, ITERATOR_INTERNAL_STATE_ALIGNMENT_8)
  | 16 => some (ITERATOR_INTERNAL_STATE_SIZE_16, ITERATOR_INTERNAL_STATE_ALIGNMENT_16)
  | _ => none

/-! ## Bounding box query -/

/-- Modelled from the spec: `get_bounding_box(volume)` (`vklGetBoundingBox`,
missing): `bbox = [origin, origin + (dims-1)*spacing]`. -/
def Volume.boundingBox (V : Volume) : Vec3 ℚ × Vec3 ℚ :=
  (⟨V.bboxLower Axis.x, V.bboxLower Axis.y, V.bboxLower Axis.z⟩,
    ⟨V.bboxUpper Axis.x, V.bboxUpper Axis.y, V.bboxUpper Axis.z⟩)

/-- The ray of scenario S5: entirely outside the unit cube. -/
def outsideRay : Ray :=
  { org := ⟨-10, -10, -10⟩, dir := ⟨-1, 0, 0⟩, t0 := 0, t1 := ⊤ }

/-- The ray of scenario S4: zero direction, from inside the unit cube. -/
def zeroRay : Ray :=
  { org := ⟨1 / 2, 1 / 2, 1 / 2⟩, dir := ⟨0, 0, 0⟩, t0 := 0, t1 := ⊤ }

/-! ## Life of a structured-regular volume -/

/-- An ISPC side whose accelerator reports `65536 x 65536 x 1` bricks. -/
def wideIspc : Ispc :=
  { constructed := some 1, setSucceeds := true, bricksPerDimension := ⟨65536, 65536, 1⟩ }

/-- An ISPC side on which `SharedStructuredVolume_set` fails. -/
def failingSetIspc : Ispc :=
  { constructed := some 1, setSucceeds := false, bricksPerDimension := ⟨1, 1, 1⟩ }

/-- The task indices `GridAccelerator_build` is run for, in the order of the
call trace. -/
def buildTasks : List IspcCall → List ℕ
  | [] => []
  | IspcCall.build k :: cs => k :: buildTasks cs
  | _ :: cs => buildTasks cs

/-- The parameters an application has staged on the object when a commit
starts (`setParam`; `none` is a parameter that is not set). -/
structure Staged where
  voxelData : Option Data
  dimensions : Option (Vec3 ℤ)
  gridOrigin : Option (Vec3 ℚ)
  gridSpacing : Option (Vec3 ℚ)

/-- The object with the given parameters staged; its fields and its ISPC-side
handle are untouched. -/
def StructuredRegularVolume.stage (v : StructuredRegularVolume) (p : Staged) :
    StructuredRegularVolume :=
  { v with paramVoxelData := p.voxelData, paramDimensions := p.dimensions,
           paramGridOrigin := p.gridOrigin, paramGridSpacing := p.gridSpacing }

/-- A new object: nothing staged, `ispcEquivalent{nullptr}`. -/
def StructuredRegularVolume.new : StructuredRegularVolume :=
  { paramVoxelData := none, paramDimensions := none, paramGridOrigin := none,
    paramGridSpacing := none, dimensions := ⟨0, 0, 0⟩, gridOrigin := ⟨0, 0, 0⟩,
    gridSpacing := ⟨0, 0, 0⟩, voxelData := none, ispcEquivalent := none }

/-- The ISPC-side calls of a whole life of the object: a sequence of commits,
each with the parameters staged before it and with what the ISPC side answers
during it (a commit that throws leaves the object to the caller), and then the
destructor. -/
def lifecycle : List (Staged × Ispc) → StructuredRegularVolume → List IspcCall
  | [], v => v.destroy
  | (p, env) :: rest, v =>
    ((v.stage p).commit env).calls ++ lifecycle rest ((v.stage p).commit env).volume

/-- Follows the ISPC-side object through a call trace, starting with `live` (the
object alive at the start, if any), and gives the object alive at the end.  The
result is `none` when the trace constructs an object while another is alive (a
leak), destroys an object that is not the one alive (a double or stray
destruction), or sets or builds on an object that is not alive. -/
def trackObjects : Option ℕ → List IspcCall → Option (Option ℕ)
  | live, [] => some live
  | live, IspcCall.construct (some h) :: cs =>
    if live = none then trackObjects (some h) cs else none
  | live, IspcCall.construct none :: cs => trackObjects live cs
  | live, IspcCall.destruct h :: cs =>
    if live = some h then trackObjects none cs else none
  | live, IspcCall.set h _ _ _ _ _ :: cs =>
    if live = some h then trackObjects live cs else none
  | live, IspcCall.createAccelerator h :: cs =>
    if live = some h then trackObjects live cs else none
  | live, IspcCall.build _ :: cs => trackObjects live cs

/-- The number of objects a call trace constructs. -/
def constructions : List IspcCall → ℕ
  | [] => 0
  | IspcCall.construct (some _) :: cs => constructions cs + 1
  | _ :: cs => constructions cs

/-- The number of `SharedStructuredVolume_Destructor` calls in a call trace. -/
def destructions : List IspcCall → ℕ
  | [] => 0
  | IspcCall.destruct _ :: cs => destructions cs + 1
  | _ :: cs => destructions cs

/-- Eight items of voxel data. -/
def eightItems : Data := ⟨List.replicate 8 0, 0⟩

/-- Seven items of voxel data. -/
def sevenItems : Data := ⟨List.replicate 7 0, 0⟩

/-- The volume `dataVolume` after its first commit: committed, with an ISPC-side
object. -/
def committedVolume : StructuredRegularVolume := (dataVolume.commit okIspc).volume

/-! ## Accelerator build tasks -/

/-- Modelled from the spec: the accelerator `SharedStructuredVolume_createAccelerator`
allocates (missing): one slot per macrocell; `slots` is what the slots hold
before any task has run. -/
def Volume.createAccelerator (V : Volume) (slots : List ValueRange) : Accelerator :=
  ⟨V.bricksPerDimension, slots⟩

/-- Modelled from the spec: one build task run on the accelerator (the ISPC
`GridAccelerator_build` is missing): it stores the range of its own macrocell
and touches no other slot ("each task is independent"). -/
def Accelerator.runTask (V : Volume) (A : Accelerator) (taskIndex : ℕ) : Accelerator :=
  { A with cellValueRanges := A.cellValueRanges.set taskIndex (GridAccelerator_build V taskIndex) }

/-- The accelerator after the build tasks have run in the given order. -/
def Volume.buildInOrder (V : Volume) (slots : List ValueRange) (order : List ℕ) : Accelerator :=
  order.foldl (Accelerator.runTask V) (V.createAccelerator slots)

/-- The number of build tasks of a volume. -/
def Volume.numTasks (V : Volume) : ℕ :=
  V.bricksPerDimension.x * V.bricksPerDimension.y * V.bricksPerDimension.z

/-! ## Ray-marching renderer
(`src/apps/ospray/devices/scalar_volley/render/VolumeRendererRayIterator.cpp`) -/

/-- `vec4f`: a colour with its opacity in `w`. -/
structure Vec4 where
  x : ℚ
  y : ℚ
  z : ℚ
  w : ℚ
deriving DecidableEq

/-- `range1f`. -/
structure Range1f where
  lower : ℚ
  upper : ℚ
deriving DecidableEq

/-- `range1f::size()`. -/
def Range1f.size (r : Range1f) : ℚ := r.upper - r.lower

/-- `range1f::center()`. -/
def Range1f.center (r : Range1f) : ℚ := (r.lower + r.upper) / 2

/-- The fields of `VLYRayInterval` the renderer reads. -/
structure RayInterval where
  tRange : Range1f
  nominalDeltaT : ℚ
deriving DecidableEq

/-- What `renderTile` calls and is missing: `volume->computeSample`, the transfer
function's `getColorAndOpacity`, the one-argument `clamp`, and
`volume->getSamplingRate()`. -/
structure VolumeRenderer where
  computeSample : Vec3 ℚ → ℚ
  getColorAndOpacity : ℚ → Vec4
  clamp : ℚ → ℚ
  samplingRate : ℚ

/-- The constant `0.99f` of the two loop conditions. -/
def opaqueThreshold : ℚ := 99 / 100

/-- The body of the inner loop up to `color += ...`: the colour after the
contribution of one sub-interval. -/
def VolumeRenderer.accumulate (R : VolumeRenderer) (org dir : Vec3 ℚ) (subInterval : Range1f)
    (color : Vec4) : Vec4 :=
  let t := subInterval.center
  let dt := subInterval.size
  let sample := R.computeSample ⟨org.x + t * dir.x, org.y + t * dir.y, org.z + t * dir.z⟩
  let sampleColor := R.getColorAndOpacity sample
  let clampedOpacity := R.clamp (10 * sampleColor.w * dt)
  let scaled : Vec4 := ⟨sampleColor.x * clampedOpacity, sampleColor.y * clampedOpacity,
    sampleColor.z * clampedOpacity, clampedOpacity⟩
  ⟨color.x + (1 - color.w) * scaled.x, color.y + (1 - color.w) * scaled.y,
    color.z + (1 - color.w) * scaled.z, color.w + (1 - color.w) * scaled.w⟩

/-- How a loop of the renderer ends: the colour, the sub-intervals it
integrated with the colour after each, and whether the loop condition became
false within the iterations allowed. -/
structure Integration where
  color : Vec4
  steps : List (Range1f × Vec4)
  finished : Bool
deriving DecidableEq

/-- The inner loop `while (subInterval.size() > 0.f && color.w < 0.99f)`, run for
at most the given number of iterations. -/
def VolumeRenderer.subIntervalLoop (R : VolumeRenderer) (org dir : Vec3 ℚ)
    (nominalSamplingDt upper : ℚ) : ℕ → Range1f → Vec4 → Integration
  | 0, subInterval, color =>
    ⟨color, [], !(decide (subInterval.size > 0 ∧ color.w < opaqueThreshold))⟩
  | fuel + 1, subInterval, color =>
    if subInterval.size > 0 ∧ color.w < opaqueThreshold then
      let color2 := R.accumulate org dir subInterval color
      let next : Range1f :=
        ⟨subInterval.upper, min (subInterval.upper + nominalSamplingDt) upper⟩
      let r := VolumeRenderer.subIntervalLoop R org dir nominalSamplingDt upper fuel next color2
      ⟨r.color, (subInterval, color2) :: r.steps, r.finished⟩
    else ⟨color, [], true⟩

/-- The body of the outer loop for one ray interval: the nominal sampling step,
the initial sub-interval and the inner loop. -/
def VolumeRenderer.integrateInterval (R : VolumeRenderer) (org dir : Vec3 ℚ) (fuel : ℕ)
    (rayInterval : RayInterval) (color : Vec4) : Integration :=
  let nominalSamplingDt := rayInterval.nominalDeltaT / R.samplingRate
  let subInterval : Range1f :=
    ⟨rayInterval.tRange.lower,
      min (rayInterval.tRange.lower + nominalSamplingDt) rayInterval.tRange.upper⟩
  R.subIntervalLoop org dir nominalSamplingDt rayInterval.tRange.upper fuel subInterval color

/-- The outer loop `while (vlyIterateInterval(...) && color.w < 0.99f)` over the
ray intervals the iterator yields (the iterator is missing: its intervals are a
list); each inner loop may run for at most `fuel` iterations. -/
def VolumeRenderer.integrateRay (R : VolumeRenderer) (org dir : Vec3 ℚ) (fuel : ℕ) :
    List RayInterval → Vec4 → Integration
  | [], color => ⟨color, [], true⟩
  | rayInterval :: rest, color =>
    if color.w < opaqueThreshold then
      let r := R.integrateInterval org dir fuel rayInterval color
      if r.finished then
        let r2 := VolumeRenderer.integrateRay R org dir fuel rest r.color
        ⟨r2.color, r.steps ++ r2.steps, r2.finished⟩
      else r
    else ⟨color, [], true⟩

/-- One pixel of `renderTile`: the integration of the pixel's ray from
`vec4f color{0.f, 0.f, 0.f, 0.f}`. -/
def VolumeRenderer.renderPixel (R : VolumeRenderer) (org dir : Vec3 ℚ) (fuel : ℕ)
    (intervals : List RayInterval) : Integration :=
  R.integrateRay org dir fuel intervals ⟨0, 0, 0, 0⟩

/-- The opacities rise from `w0` to `wend` and stay at or below 1. -/
def Rising : ℚ → List ℚ → ℚ → Prop
  | w0, [], wend => wend = w0
  | w0, w :: ws, wend => w0 ≤ w ∧ w ≤ 1 ∧ Rising w ws wend

/-- A renderer for the examples: the sample is the height `z`, the transfer
function gives white with opacity 1/100 per unit length, `clamp` clamps to
`[0, 1]`, sampling rate 1. -/
def demoRenderer : VolumeRenderer :=
  { computeSample := fun p => p.z
    getColorAndOpacity := fun _ => ⟨1, 1, 1, 1 / 100⟩
    clamp := fun x => max 0 (min x 1)
    samplingRate := 1 }

/-- A ray interval `[1, 2]` with nominal step 1/4. -/
def demoInterval : RayInterval := ⟨⟨1, 2⟩, 1 / 4⟩

/-! ## IEEE-754 single precision -/

/-- The binade of a positive rational: the `e` with `2^e <= x < 2^(e+1)`, kept
between -126 and 127 (the exponents of normal single-precision numbers). -/
def binade (x : ℚ) : ℤ :=
  (((List.range 127).filter fun k => decide ((2 : ℚ) ^ (k + 1) ≤ x)).length : ℤ) -
    (((List.range 126).filter fun k => decide (x < 1 / (2 : ℚ) ^ k)).length : ℤ)

/-- Rounds a rational to the nearest integer, a tie to the even one. -/
def roundHalfEven (q : ℚ) : ℤ :=
  if q - ⌊q⌋ < 1 / 2 then ⌊q⌋
  else if 1 / 2 < q - ⌊q⌋ then ⌊q⌋ + 1
  else if ⌊q⌋ % 2 = 0 then ⌊q⌋ else ⌊q⌋ + 1

/-- The spacing of single-precision numbers in the binade `e`: `2^(e - 23)`. -/
def ulpOf (e : ℤ) : ℚ :=
  if 23 ≤ e then (2 : ℚ) ^ (e - 23).toNat else 1 / (2 : ℚ) ^ (23 - e).toNat

/-- Modelled from the spec ("use IEEE-754 single precision throughout"): a
rational rounded to the nearest single-precision number, ties to even.  Values
beyond the largest finite single-precision number are not treated. -/
def float32 (x : ℚ) : ℚ :=
  if x = 0 then 0 else (roundHalfEven (x / ulpOf (binade |x|)) : ℚ) * ulpOf (binade |x|)

/-- Modelled from the spec: the upper corner of the bounding box along an axis
as single precision computes `origin + (dims - 1) * spacing`. -/
def Volume.bboxUpperF32 (V : Volume) (a : Axis) : ℚ :=
  float32 (V.origin.get a + float32 (((V.dims.get a : ℚ) - 1) * V.spacing.get a))

/-- The grid of the iterator test with `N` voxels per axis: origin 0 and the
spacing `1.f / (N - 1.f)` as single precision computes it. -/
def unitGrid (N : ℕ) : Volume :=
  { dims := ⟨N, N, N⟩, origin := ⟨0, 0, 0⟩,
    spacing := ⟨float32 (1 / ((N : ℚ) - 1)), float32 (1 / ((N : ℚ) - 1)),
      float32 (1 / ((N : ℚ) - 1))⟩,
    voxels := List.replicate (N * N * N) 0, B := 16 }

/-! ## The renderer's loop in single precision -/

/-- `range1f::size()` with its subtraction rounded by `fl`. -/
def Range1f.sizeFl (fl : ℚ → ℚ) (r : Range1f) : ℚ := fl (r.upper - r.lower)

/-- `range1f::center()` with its operations rounded by `fl`. -/
def Range1f.centerFl (fl : ℚ → ℚ) (r : Range1f) : ℚ := fl (fl (r.lower + r.upper) / 2)

/-- The body of the inner loop up to `color += ...`, every arithmetic operation
rounded by `fl`. -/
def VolumeRenderer.accumulateFl (fl : ℚ → ℚ) (R : VolumeRenderer) (org dir : Vec3 ℚ)
    (subInterval : Range1f) (color : Vec4) : Vec4 :=
  let t := subInterval.centerFl fl
  let dt := subInterval.sizeFl fl
  let sample := R.computeSample
    ⟨fl (org.x + fl (t * dir.x)), fl (org.y + fl (t * dir.y)), fl (org.z + fl (t * dir.z))⟩
  let sampleColor := R.getColorAndOpacity sample
  let clampedOpacity := R.clamp (fl (fl (10 * sampleColor.w) * dt))
  let scaled : Vec4 := ⟨fl (sampleColor.x * clampedOpacity), fl (sampleColor.y * clampedOpacity),
    fl (sampleColor.z * clampedOpacity), clampedOpacity⟩
  ⟨fl (color.x + fl (fl (1 - color.w) * scaled.x)), fl (color.y + fl (fl (1 - color.w) * scaled.y)),
    fl (color.z + fl (fl (1 - color.w) * scaled.z)),
    fl (color.w + fl (fl (1 - color.w) * scaled.w))⟩

/-- The inner loop of `renderTile` with every arithmetic operation rounded by
`fl`, run for at most the given number of iterations; `fl = float32` is the
`float` arithmetic of the source, `fl = id` is exact arithmetic. -/
def VolumeRenderer.subIntervalLoopFl (fl : ℚ → ℚ) (R : VolumeRenderer) (org dir : Vec3 ℚ)
    (nominalSamplingDt upper : ℚ) : ℕ → Range1f → Vec4 → Integration
  | 0, subInterval, color =>
    ⟨color, [], !(decide (subInterval.sizeFl fl > 0 ∧ color.w < fl opaqueThreshold))⟩
  | fuel + 1, subInterval, color =>
    if subInterval.sizeFl fl > 0 ∧ color.w < fl opaqueThreshold then
      let color2 := R.accumulateFl fl org dir subInterval color
      let next : Range1f :=
        ⟨subInterval.upper, min (fl (subInterval.upper + nominalSamplingDt)) upper⟩
      let r := VolumeRenderer.subIntervalLoopFl fl R org dir nominalSamplingDt upper fuel next
        color2
      ⟨r.color, (subInterval, color2) :: r.steps, r.finished⟩
    else ⟨color, [], true⟩

/-- The body of the outer loop for one ray interval, every arithmetic operation
rounded by `fl`. -/
def VolumeRenderer.integrateIntervalFl (fl : ℚ → ℚ) (R : VolumeRenderer) (org dir : Vec3 ℚ)
    (fuel : ℕ) (rayInterval : RayInterval) (color : Vec4) : Integration :=
  let nominalSamplingDt := fl (rayInterval.nominalDeltaT / R.samplingRate)
  let subInterval : Range1f :=
    ⟨rayInterval.tRange.lower,
      min (fl (rayInterval.tRange.lower + nominalSamplingDt)) rayInterval.tRange.upper⟩
  R.subIntervalLoopFl fl org dir nominalSamplingDt rayInterval.tRange.upper fuel subInterval color

/-! ## Inputs at the edge of the iterator -/

theorem Vec3.get_set_same {α : Type} (v : Vec3 α) (a : Axis) (w : α) :
    (v.set a w).get a = w := by
  cases a <;> rfl

theorem Vec3.get_set_other {α : Type} (v : Vec3 α) (a b : Axis) (w : α) (h : b ≠ a) :
    (v.set a w).get b = v.get b := by
  cases a <;> cases b <;> first | rfl | exact absurd rfl h

theorem Vec3.minComp_le (t : Vec3 ERat) (a : Axis) : t.minComp ≤ t.get a := by
  cases a
  · exact min_le_left _ _
  · exact le_trans (min_le_right _ _) (min_le_left _ _)
  · exact le_trans (min_le_right _ _) (min_le_right _ _)

theorem Vec3.get_minAxis (t : Vec3 ERat) : t.get t.minAxis = t.minComp := by
  unfold Vec3.minAxis Vec3.minComp
  by_cases h1 : t.x ≤ t.y ∧ t.x ≤ t.z
  · rw [if_pos h1]
    show t.x = _
    rw [min_eq_left (le_min h1.1 h1.2)]
  · rw [if_neg h1]
    by_cases h2 : t.y ≤ t.z
    · rw [if_pos h2]
      show t.y = _
      rw [min_eq_left h2]
      have : t.y ≤ t.x := by
        by_contra hc
        exact h1 ⟨le_of_not_le hc, le_trans (le_of_not_le hc) h2⟩
      rw [min_eq_right this]
    · rw [if_neg h2]
      show t.z = _
      rw [min_eq_right (le_of_not_le h2)]
      have : t.z ≤ t.x := by
        by_contra hc
        exact h1 ⟨le_trans (le_of_not_le hc) (le_of_not_le h2), le_of_not_le hc⟩
      rw [min_eq_right this]

theorem Vec3.le_minComp (t : Vec3 ERat) (b : ERat) (h : ∀ a, b ≤ t.get a) : b ≤ t.minComp :=
  le_min (h Axis.x) (le_min (h Axis.y) (h Axis.z))

/-! ## From the lane group to a single lane -/

theorem stepLane_exhausted (V : Volume) (sel : Option ValueSelector) (s : LaneState)
    (h : s.exhausted = true) : stepLane V sel s = (s, none) := by
  unfold stepLane
  rw [if_pos h]

theorem iterateLane_exhausted (V : Volume) (sel : Option ValueSelector) (b : Bool)
    (s : LaneState) (h : s.exhausted = true) : iterateLane V sel b s = (s, none) := by
  unfold iterateLane
  cases b
  · rfl
  · simp only [if_true]
    exact stepLane_exhausted V sel s h

theorem iterateLane_inactive (V : Volume) (sel : Option ValueSelector) (s : LaneState) :
    iterateLane V sel false s = (s, none) := rfl

theorem iterateLane_done (V : Volume) (sel : Option ValueSelector) (b : Bool) :
    iterateLane V sel b LaneState.done = (LaneState.done, none) :=
  iterateLane_exhausted V sel b LaneState.done rfl

theorem zipWith_snd_getD (V : Volume) (sel : Option ValueSelector) :
    ∀ (valid : List Bool) (lanes : List LaneState) (i : ℕ),
      ((List.zipWith (iterateLane V sel) valid lanes).map Prod.snd).getD i none =
        (iterateLane V sel (valid.getD i false) (lanes.getD i LaneState.done)).2
  | [], lanes, i => by simp [iterateLane_inactive]
  | v :: vs, [], i => by simp [iterateLane_done]
  | v :: vs, l :: ls, 0 => by simp
  | v :: vs, l :: ls, i + 1 => by
    simpa using zipWith_snd_getD V sel vs ls i

theorem zipWith_fst_getD (V : Volume) (sel : Option ValueSelector) :
    ∀ (valid : List Bool) (lanes : List LaneState) (i : ℕ), valid.getD i false = true →
      ((List.zipWith (iterateLane V sel) valid lanes).map Prod.fst).getD i LaneState.done =
        (iterateLane V sel true (lanes.getD i LaneState.done)).1
  | [], lanes, i, h => by simp at h
  | v :: vs, [], i, _ => by simp [iterateLane_done]
  | v :: vs, l :: ls, 0, h => by
    have hv : v = true := by simpa using h
    simp [hv]
  | v :: vs, l :: ls, i + 1, h => by
    have h2 : vs.getD i false = true := by simpa using h
    simpa using zipWith_fst_getD V sel vs ls i h2

theorem laneCalls_inactive (V : Volume) (sel : Option ValueSelector) :
    ∀ (n : ℕ) (s : LaneState), laneCalls V sel false n s = List.replicate n none
  | 0, _ => rfl
  | n + 1, s => by
    simp only [laneCalls, iterateLane_inactive, List.replicate_succ]
    rw [laneCalls_inactive V sel n s]

theorem iterateInterval_volume (valid : List Bool) (st : IteratorState) :
    (iterateInterval valid st).state.volume = st.volume := rfl

theorem iterateInterval_selector (valid : List Bool) (st : IteratorState) :
    (iterateInterval valid st).state.selector = st.selector := rfl

/-- The intervals of lane `i` in a sequence of group calls are those of the
lane stepped on its own. -/
theorem iterateCalls_lane (valid : List Bool) (i : ℕ) :
    ∀ (n : ℕ) (st : IteratorState),
      (iterateCalls valid n st).map (fun o => o.intervals.getD i none) =
        laneCalls st.volume st.selector (valid.getD i false) n (st.lanes.getD i LaneState.done)
  | 0, _ => rfl
  | n + 1, st => by
    simp only [iterateCalls, List.map_cons, laneCalls]
    rw [iterateCalls_lane valid i n (iterateInterval valid st).state]
    have hhead : (iterateInterval valid st).intervals.getD i none =
        (iterateLane st.volume st.selector (valid.getD i false)
          (st.lanes.getD i LaneState.done)).2 :=
      zipWith_snd_getD st.volume st.selector valid st.lanes i
    rw [hhead, iterateInterval_volume, iterateInterval_selector]
    congr 1
    cases hv : valid.getD i false
    · rw [laneCalls_inactive, laneCalls_inactive]
    · have := zipWith_fst_getD st.volume st.selector valid st.lanes i hv
      show laneCalls _ _ _ n
        (((List.zipWith (iterateLane st.volume st.selector) valid st.lanes).map
          Prod.fst).getD i LaneState.done) = _
      rw [this]

theorem emitted_eq_lane (valid : List Bool) (i n : ℕ) (st : IteratorState) :
    emitted (iterateCalls valid n st) i =
      (laneCalls st.volume st.selector (valid.getD i false) n
        (st.lanes.getD i LaneState.done)).filterMap id := by
  rw [← iterateCalls_lane valid i n st, List.filterMap_map]
  rfl

theorem initLane_getD (V : Volume) (sel : Option ValueSelector) :
    ∀ (valid : List Bool) (rays : List Ray) (i : ℕ),
      (initIntervalIterator valid V rays sel).lanes.getD i LaneState.done = LaneState.done ∨
        ∃ r, rays.get? i = some r ∧
          (initIntervalIterator valid V rays sel).lanes.getD i LaneState.done =
            initLane V (valid.getD i false) r
  | [], rays, i => by simp [initIntervalIterator]
  | v :: vs, [], i => by simp [initIntervalIterator]
  | v :: vs, r :: rs, 0 => by
    right
    exact ⟨r, rfl, rfl⟩
  | v :: vs, r :: rs, i + 1 => by
    have := initLane_getD V sel vs rs i
    simpa [initIntervalIterator] using this

/-! ## Init and the DDA invariants -/

theorem Volume.Committed.spacing_pos {V : Volume} (h : V.Committed) (a : Axis) :
    0 < V.spacing.get a := by
  obtain ⟨_, hx, hy, hz, _⟩ := h
  cases a
  · exact hx
  · exact hy
  · exact hz

theorem Volume.Committed.B_pos {V : Volume} (h : V.Committed) : (0 : ℚ) < (V.B : ℚ) := by
  obtain ⟨_, _, _, _, hB⟩ := h
  exact_mod_cast hB

theorem le_tNextOf_entryCell {V : Volume} (hV : V.Committed) (r : Ray) (e : ℚ) (a : Axis) :
    ((e : ℚ) : ERat) ≤ V.tNextOf r a (V.entryCell r e a) := by
  have hs := hV.spacing_pos a
  have hB := hV.B_pos
  have hBs : 0 < (V.B : ℚ) * V.spacing.get a := mul_pos hB hs
  unfold Volume.tNextOf Volume.entryCell
  simp only []
  have hu : r.point e a - V.origin.get a =
      (r.point e a - V.origin.get a) / V.spacing.get a / (V.B : ℚ) *
        ((V.B : ℚ) * V.spacing.get a) := by
    rw [div_div, mul_comm (V.B : ℚ), div_mul_cancel₀]
    exact (mul_pos hs hB).ne'
  set u := (r.point e a - V.origin.get a) / V.spacing.get a / (V.B : ℚ) with hudef
  by_cases hd : 0 < r.dir.get a
  · simp only [if_pos hd]
    norm_cast
    rw [le_div_iff₀ hd]
    have h1 : u < (⌊u⌋ : ℚ) + 1 := Int.lt_floor_add_one u
    have h2 : u * ((V.B : ℚ) * V.spacing.get a) <
        ((⌊u⌋ : ℚ) + 1) * ((V.B : ℚ) * V.spacing.get a) := mul_lt_mul_of_pos_right h1 hBs
    rw [← hu] at h2
    unfold Ray.point at h2
    push_cast
    linarith
  · simp only [if_neg hd]
    by_cases hn : r.dir.get a < 0
    · simp only [if_pos hn]
      norm_cast
      rw [le_div_iff_of_neg hn]
      have h1 : (⌈u⌉ : ℚ) - 1 < u := by
        have := Int.ceil_lt_add_one u
        linarith
      have h2 : ((⌈u⌉ : ℚ) - 1) * ((V.B : ℚ) * V.spacing.get a) <
          u * ((V.B : ℚ) * V.spacing.get a) := mul_lt_mul_of_pos_right h1 hBs
      rw [← hu] at h2
      unfold Ray.point at h2
      push_cast
      linarith
    · simp only [if_neg hn]
      exact le_top

theorem intersect_bbox_some {V : Volume} {r : Ray} {enter exit : ERat}
    (h : intersect_bbox V r = some (enter, exit)) :
    enter = max r.t0 (V.tBoxEnter r) ∧ exit = min r.t1 (V.tBoxExit r) ∧ enter < exit := by
  unfold intersect_bbox at h
  by_cases hc : max r.t0 (V.tBoxEnter r) < min r.t1 (V.tBoxExit r)
  · rw [if_pos hc] at h
    injection h with h
    injection h with h1 h2
    subst h1 h2
    exact ⟨rfl, rfl, hc⟩
  · rw [if_neg hc] at h
    exact absurd h (by simp)

/-- The two outcomes of `init` for a lane. -/
theorem initLane_cases (V : Volume) (b : Bool) (r : Ray) :
    initLane V b r = LaneState.done ∨
      ∃ (e : ℚ) (exit : ERat), b = true ∧ ¬(r.dir.x = 0 ∧ r.dir.y = 0 ∧ r.dir.z = 0) ∧
        intersect_bbox V r = some (((e : ℚ) : ERat), exit) ∧
        initLane V b r = V.readyState r e ((e : ℚ) : ERat) exit := by
  unfold initLane
  cases b
  · left; rfl
  · by_cases hd : r.dir.x = 0 ∧ r.dir.y = 0 ∧ r.dir.z = 0
    · left
      simp [hd]
    · cases hi : intersect_bbox V r with
      | none => left; simp [hd]
      | some p =>
        obtain ⟨enter, exit⟩ := p
        match enter, hi with
        | some (some e), hi =>
          right
          refine ⟨e, exit, rfl, hd, rfl, ?_⟩
          simp [hd]
          rfl
        | some none, hi => left; simp [hd]
        | none, hi => left; simp [hd]


theorem tDeltaOf_nonneg {V : Volume} (hV : V.Committed) (r : Ray) (a : Axis) :
    0 ≤ V.tDeltaOf r a := by
  unfold Volume.tDeltaOf
  by_cases h : r.dir.get a = 0
  · rw [if_pos h]
    exact le_top
  · rw [if_neg h]
    have : (0 : ℚ) ≤ (V.B : ℚ) * V.spacing.get a / |r.dir.get a| :=
      div_nonneg (mul_nonneg hV.B_pos.le (hV.spacing_pos a).le) (abs_nonneg _)
    exact_mod_cast this

theorem readyState_get_tNext (V : Volume) (r : Ray) (e : ℚ) (enter exit : ERat) (a : Axis) :
    (V.readyState r e enter exit).tNext.get a = V.tNextOf r a (V.entryCell r e a) := by
  cases a <;> rfl

theorem readyState_get_cell (V : Volume) (r : Ray) (e : ℚ) (enter exit : ERat) (a : Axis) :
    (V.readyState r e enter exit).cell.get a = V.entryCell r e a := by
  cases a <;> rfl

theorem readyState_get_tDelta (V : Volume) (r : Ray) (e : ℚ) (enter exit : ERat) (a : Axis) :
    (V.readyState r e enter exit).tDelta.get a = V.tDeltaOf r a := by
  cases a <;> rfl

theorem readyState_get_stepSign (V : Volume) (r : Ray) (e : ℚ) (enter exit : ERat)
    (a : Axis) :
    (V.readyState r e enter exit).stepSign.get a = stepSignOf (r.dir.get a) := by
  cases a <;> rfl

theorem readyState_timed {V : Volume} (hV : V.Committed) (r : Ray) (e : ℚ) (exit : ERat) :
    (V.readyState r e ((e : ℚ) : ERat) exit).Timed := by
  refine ⟨le_refl _, fun a => ?_, fun a => ?_⟩
  · rw [readyState_get_tNext]
    exact le_tNextOf_entryCell hV r e a
  · rw [readyState_get_tDelta]
    exact tDeltaOf_nonneg hV r a

theorem readyState_tracks (V : Volume) (r : Ray) (e : ℚ) (enter exit : ERat) :
    (V.readyState r e enter exit).Tracks V r := by
  intro a
  rw [readyState_get_tNext, readyState_get_tDelta, readyState_get_stepSign,
    readyState_get_cell]
  exact ⟨rfl, rfl, rfl⟩

theorem advance_tExit_eq (V : Volume) (s : LaneState) : (s.advance V).tEnter = s.tExit := rfl

theorem advance_timed (V : Volume) (s : LaneState) (h : s.Timed) : (s.advance V).Timed := by
  obtain ⟨h1, h2, h3⟩ := h
  have hx : s.tEnter ≤ s.tExit := Vec3.le_minComp _ _ h2
  refine ⟨le_trans h1 hx, fun b => ?_, h3⟩
  show s.tExit ≤ (s.tNext.set s.tNext.minAxis
    (s.tNext.get s.tNext.minAxis + s.tDelta.get s.tNext.minAxis)).get b
  by_cases hb : b = s.tNext.minAxis
  · subst hb
    rw [Vec3.get_set_same, Vec3.get_minAxis]
    exact le_add_of_nonneg_right (h3 _)
  · rw [Vec3.get_set_other _ _ _ _ hb]
    exact Vec3.minComp_le _ _

/-! ## Stepping one lane without a selector -/

theorem laneCalls_exhausted (V : Volume) (sel : Option ValueSelector) (b : Bool) :
    ∀ (n : ℕ) (s : LaneState), s.exhausted = true →
      laneCalls V sel b n s = List.replicate n none
  | 0, _, _ => rfl
  | n + 1, s, h => by
    simp only [laneCalls, iterateLane_exhausted V sel b s h, List.replicate_succ]
    rw [laneCalls_exhausted V sel b n s h]

theorem filterMap_replicate_none (n : ℕ) :
    (List.replicate n (none : Option Interval)).filterMap id = [] := by
  induction n with
  | zero => rfl
  | succ n ih => simp [List.replicate_succ]

theorem laneCalls_ready (V : Volume) (n : ℕ) (s : LaneState) (h : s.exhausted = false) :
    laneCalls V none true (n + 1) s =
      some (s.interval V) :: laneCalls V none true n (s.advance V) := by
  simp [laneCalls, iterateLane, stepLane, h]

theorem advance_ready_le (V : Volume) (s : LaneState) (h : (s.advance V).exhausted = false) :
    s.tExit ≤ s.tHi ∧ V.inGrid (s.advance V).cell := by
  have h2 : (!(decide (V.inGrid (s.advance V).cell)) || decide (s.tHi < s.tExit)) = false := h
  simp only [Bool.or_eq_false_iff, Bool.not_eq_false', decide_eq_true_eq,
    decide_eq_false_iff_not, not_lt] at h2
  exact ⟨h2.2, h2.1⟩

/-- Without a selector the intervals of a lane chain, and the first one is the
interval of the lane's current cell. -/
theorem lane_chain (V : Volume) :
    ∀ (n : ℕ) (s : LaneState), s.Timed →
      List.Chain' (fun I J : Interval => J.tLower = I.tUpper)
          ((laneCalls V none true n s).filterMap id) ∧
        ∀ I, ((laneCalls V none true n s).filterMap id).head? = some I →
          s.exhausted = false ∧ I = s.interval V
  | 0, s, _ => by simp [laneCalls]
  | n + 1, s, hT => by
    cases hex : s.exhausted
    · rw [laneCalls_ready V n s hex]
      have ih := lane_chain V n (s.advance V) (advance_timed V s hT)
      simp only [List.filterMap_cons_some, id_eq, List.head?_cons, Option.some.injEq]
      refine ⟨?_, fun I hI => ⟨trivial, hI.symm⟩⟩
      rw [List.chain'_cons']
      refine ⟨fun y hy => ?_, ih.1⟩
      obtain ⟨hr, hy2⟩ := ih.2 y hy
      obtain ⟨hle, _⟩ := advance_ready_le V s hr
      subst hy2
      show max s.tExit s.tLo = min s.tExit s.tHi
      have h1 : s.tLo ≤ s.tExit := le_trans hT.1 (Vec3.le_minComp _ _ hT.2.1)
      rw [max_eq_left h1, min_eq_left hle]
    · rw [laneCalls_exhausted V none true (n + 1) s hex, filterMap_replicate_none]
      simp

theorem initLane_timed {V : Volume} (hV : V.Committed) (b : Bool) (r : Ray) :
    (initLane V b r).exhausted = true ∨ (initLane V b r).Timed := by
  rcases initLane_cases V b r with h | ⟨e, exit, _, _, _, h⟩
  · left; rw [h]; rfl
  · right; rw [h]; exact readyState_timed hV r e exit

theorem init_lane_timed {V : Volume} (hV : V.Committed) (valid : List Bool) (rays : List Ray)
    (sel : Option ValueSelector) (i : ℕ) :
    ((initIntervalIterator valid V rays sel).lanes.getD i LaneState.done).exhausted = true ∨
      ((initIntervalIterator valid V rays sel).lanes.getD i LaneState.done).Timed := by
  rcases initLane_getD V sel valid rays i with h | ⟨r, _, h⟩
  · left; rw [h]; rfl
  · rw [h]; exact initLane_timed hV _ r

theorem chain_getElem? {α : Type} (R : α → α → Prop) :
    ∀ (l : List α), List.Chain' R l →
      ∀ (k : ℕ) (a b : α), l[k]? = some a → l[k + 1]? = some b → R a b
  | [], _, k, a, b, h, _ => by simp at h
  | [x], _, k, a, b, _, h => by simp at h
  | x :: y :: l, hc, 0, a, b, h1, h2 => by
    simp only [List.getElem?_cons_zero, Option.some.injEq, zero_add,
      List.getElem?_cons_succ] at h1 h2
    subst h1 h2
    exact (List.chain'_cons.mp hc).1
  | x :: y :: l, hc, k + 1, a, b, h1, h2 => by
    simp only [List.getElem?_cons_succ] at h1 h2
    exact chain_getElem? R (y :: l) (List.chain'_cons.mp hc).2 k a b h1 (by simpa using h2)

theorem init_lane_eq (V : Volume) (sel : Option ValueSelector) :
    ∀ (valid : List Bool) (rays : List Ray) (i : ℕ) (b : Bool) (r : Ray),
      valid[i]? = some b → rays[i]? = some r →
        (initIntervalIterator valid V rays sel).lanes.getD i LaneState.done = initLane V b r
  | [], _, i, b, r, h, _ => by simp at h
  | v :: vs, [], i, b, r, _, h => by simp at h
  | v :: vs, x :: xs, 0, b, r, h1, h2 => by
    simp only [List.getElem?_cons_zero, Option.some.injEq] at h1 h2
    subst h1 h2
    rfl
  | v :: vs, x :: xs, i + 1, b, r, h1, h2 => by
    simp only [List.getElem?_cons_succ] at h1 h2
    have := init_lane_eq V sel vs xs i b r h1 h2
    simpa [initIntervalIterator] using this

theorem getD_of_getElem? {α : Type} (l : List α) (i : ℕ) (a d : α) (h : l[i]? = some a) :
    l.getD i d = a := by
  simp [List.getD, h]

/-! ## C1: continuity -/

/-- C1. With no value selector, in every lane of every committed volume the
intervals emitted over any number of iterate calls chain: the interval emitted
after `I` begins exactly where `I` ended. -/
theorem interval_continuity_no_selector (V : Volume) (hV : V.Committed) (valid : List Bool)
    (rays : List Ray) (n i k : ℕ) (I J : Interval)
    (hI : (emitted (iterateCalls valid n (initIntervalIterator valid V rays none)) i)[k]? =
      some I)
    (hJ : (emitted (iterateCalls valid n (initIntervalIterator valid V rays none)) i)[k + 1]? =
      some J) :
    J.tLower = I.tUpper := by
  refine chain_getElem? (fun I J : Interval => J.tLower = I.tUpper) _ ?_ k I J hI hJ
  rw [emitted_eq_lane]
  show List.Chain' _ ((laneCalls V none (valid.getD i false) n _).filterMap id)
  cases hv : valid.getD i false
  · rw [laneCalls_inactive, filterMap_replicate_none]
    exact List.chain'_nil
  · rcases init_lane_timed hV valid rays none i with h | h
    · rw [laneCalls_exhausted V none true n _ h, filterMap_replicate_none]
      exact List.chain'_nil
    · exact (lane_chain V n _ h).1

/-- Witness of C1: the two intervals of the S1 ray through the 5 x 5 x 5 cube. -/
theorem interval_continuity_witness :
    cubeVolume.Committed ∧
      emitted (iterateCalls [true] 4 (initIntervalIterator [true] cubeVolume [axisRay] none)) 0 =
        [⟨1, ((3 / 2 : ℚ) : ERat), ⟨0, 0⟩, 1 / 4⟩, ⟨((3 / 2 : ℚ) : ERat), 2, ⟨0, 1⟩, 1 / 4⟩] ∧
      (⟨((3 / 2 : ℚ) : ERat), 2, ⟨0, 1⟩, 1 / 4⟩ : Interval).tLower =
        (⟨1, ((3 / 2 : ℚ) : ERat), ⟨0, 0⟩, 1 / 4⟩ : Interval).tUpper :=
  ⟨by decide!, by decide!,
    interval_continuity_no_selector cubeVolume (by decide!) [true] [axisRay] 4 0 0 _ _
      (by decide!) (by decide!)⟩

/-! ## C3: selector gating -/

theorem seekInterval_overlaps (V : Volume) (S : ValueSelector) :
    ∀ (fuel : ℕ) (s : LaneState) (I : Interval), (seekInterval V S fuel s).2 = some I →
      S.overlaps I.valueRange = true
  | 0, s, I, h => by simp [seekInterval] at h
  | fuel + 1, s, I, h => by
    unfold seekInterval at h
    cases hex : s.exhausted
    · rw [hex] at h
      simp only [Bool.false_eq_true, if_false] at h
      cases hov : S.overlaps (V.accelerator.rangeOf s.cell)
      · rw [hov] at h
        simp only [Bool.false_eq_true, if_false] at h
        exact seekInterval_overlaps V S fuel _ I h
      · rw [hov] at h
        simp only [if_true, Option.some.injEq] at h
        subst h
        exact hov
    · rw [hex] at h
      simp at h

theorem iterateLane_overlaps (V : Volume) (S : ValueSelector) (b : Bool) (s : LaneState)
    (I : Interval) (h : (iterateLane V (some S) b s).2 = some I) :
    S.overlaps I.valueRange = true := by
  unfold iterateLane at h
  cases b
  · simp at h
  · simp only [if_true] at h
    unfold stepLane at h
    cases hex : s.exhausted
    · rw [hex] at h
      simp only [Bool.false_eq_true, if_false] at h
      exact seekInterval_overlaps V S _ s I h
    · rw [hex] at h
      simp at h

theorem laneCalls_overlaps (V : Volume) (S : ValueSelector) (b : Bool) :
    ∀ (n : ℕ) (s : LaneState) (I : Interval), some I ∈ laneCalls V (some S) b n s →
      S.overlaps I.valueRange = true
  | 0, s, I, h => by simp [laneCalls] at h
  | n + 1, s, I, h => by
    simp only [laneCalls, List.mem_cons] at h
    rcases h with h | h
    · exact iterateLane_overlaps V S b s I h.symm
    · exact laneCalls_overlaps V S b n _ I h

/-- C3. With a value selector, every interval the iterator emits has a value
range that overlaps at least one range of the selector. -/
theorem selector_gating (V : Volume) (S : ValueSelector) (valid : List Bool) (rays : List Ray)
    (n i : ℕ) (I : Interval)
    (h : I ∈ emitted (iterateCalls valid n (initIntervalIterator valid V rays (some S))) i) :
    ∃ r ∈ S.ranges, rangesIntersect r I.valueRange := by
  rw [emitted_eq_lane] at h
  have h2 : some I ∈ laneCalls V (some S) (valid.getD i false) n
      ((initIntervalIterator valid V rays (some S)).lanes.getD i LaneState.done) := by
    simpa [List.mem_filterMap] using h
  have h3 := laneCalls_overlaps V S _ n _ I h2
  unfold ValueSelector.overlaps at h3
  rw [List.any_eq_true] at h3
  obtain ⟨r, hr, hd⟩ := h3
  exact ⟨r, hr, of_decide_eq_true hd⟩

/-- Witness of C3: with the selector `[1, 1]` the S1 ray through the cube emits
only the interval of the second macrocell, whose value range is `[0, 1]`. -/
theorem selector_gating_witness :
    emitted (iterateCalls [true] 4
        (initIntervalIterator [true] cubeVolume [axisRay] (some ⟨[⟨1, 1⟩]⟩))) 0 =
        [⟨((3 / 2 : ℚ) : ERat), 2, ⟨0, 1⟩, 1 / 4⟩] ∧
      ∃ r ∈ (⟨[⟨1, 1⟩]⟩ : ValueSelector).ranges,
        rangesIntersect r (⟨((3 / 2 : ℚ) : ERat), 2, ⟨0, 1⟩, 1 / 4⟩ : Interval).valueRange :=
  ⟨by decide!,
    selector_gating cubeVolume ⟨[⟨1, 1⟩]⟩ [true] [axisRay] 4 0 _ (by decide!)⟩

/-! ## Result flags -/

theorem result_flag_getD :
    ∀ (l : List (LaneState × Option Interval)) (i : ℕ),
      ((l.map fun o => if o.2.isSome then 1 else 0).getD i 0 = 1 ↔
          ((l.map Prod.snd).getD i none).isSome = true) ∧
        ((l.map fun o => if o.2.isSome then 1 else 0).getD i 0 = 0 ↔
          (l.map Prod.snd).getD i none = none)
  | [], i => by simp
  | o :: l, 0 => by
    cases h : o.2 <;> simp [h]
  | o :: l, i + 1 => by
    simpa using result_flag_getD l i

theorem iterateCalls_mem (valid : List Bool) :
    ∀ (n : ℕ) (st : IteratorState) (o : IterateOut), o ∈ iterateCalls valid n st →
      ∃ st2, o = iterateInterval valid st2
  | 0, st, o, h => by simp [iterateCalls] at h
  | n + 1, st, o, h => by
    simp only [iterateCalls, List.mem_cons] at h
    rcases h with h | h
    · exact ⟨st, h⟩
    · exact iterateCalls_mem valid n _ o h

theorem initLane_masked (V : Volume) (r : Ray) : initLane V false r = LaneState.done := rfl

/-! ## C4: first emission -/

theorem readyState_interval_tLower (V : Volume) (r : Ray) (e : ℚ) (enter exit : ERat) :
    ((V.readyState r e enter exit).interval V).tLower = enter :=
  max_self enter

theorem slab_zero_dir_of_ne_top {lo hi o : ℚ} (h : (slab lo hi o 0).1 ≠ ⊤) :
    (slab lo hi o 0).1 = ⊥ := by
  unfold slab at h ⊢
  simp only [lt_self_iff_false, if_false] at h ⊢
  by_cases hc : lo ≤ o ∧ o ≤ hi
  · rw [if_pos hc]
  · rw [if_neg hc] at h
    exact absurd rfl h

/-- C4 as stated fails with a value selector: with the selector `[1, 1]` the
first macrocell of the S1 ray through the cube (value range `[0, 0]`) is
culled, and the first interval emitted starts at 3/2, not at
`max(t0, t_bbox_enter) = 1`. -/
theorem first_emission_selector_counterexample :
    intersect_bbox cubeVolume axisRay = some (1, 2) ∧
      max axisRay.t0 (cubeVolume.tBoxEnter axisRay) = 1 ∧
      ∃ I, (emitted (iterateCalls [true] 4
          (initIntervalIterator [true] cubeVolume [axisRay] (some ⟨[⟨1, 1⟩]⟩))) 0).head? =
            some I ∧
        I.tLower = ((3 / 2 : ℚ) : ERat) ∧
        I.tLower ≠ max axisRay.t0 (cubeVolume.tBoxEnter axisRay) :=
  ⟨by decide!, by decide!, ⟨((3 / 2 : ℚ) : ERat), 2, ⟨0, 1⟩, 1 / 4⟩, by decide!, rfl,
    by decide!⟩

theorem initLane_ready_of_hit (V : Volume) (r : Ray)
    (hd : ¬(r.dir.x = 0 ∧ r.dir.y = 0 ∧ r.dir.z = 0)) (hh : intersect_bbox V r ≠ none) :
    ∃ (e : ℚ) (exit : ERat), intersect_bbox V r = some (((e : ℚ) : ERat), exit) ∧
      initLane V true r = V.readyState r e ((e : ℚ) : ERat) exit := by
  rcases initLane_cases V true r with h | ⟨e, exit, _, _, hib, h⟩
  · exfalso
    unfold initLane at h
    simp only [Bool.true_eq_false, if_false, if_neg hd] at h
    cases hi : intersect_bbox V r with
    | none => exact hh hi
    | some p =>
      obtain ⟨enter, exit⟩ := p
      obtain ⟨he, _, hlt⟩ := intersect_bbox_some hi
      rw [hi] at h
      match enter, h, hlt, he with
      | some (some e), h, _, _ =>
        have : (V.readyState r e (some (some e)) exit).exhausted = LaneState.done.exhausted := by
          rw [← h]
        exact Bool.noConfusion (show false = true from this)
      | some none, _, hlt, _ => exact not_top_lt hlt
      | none, _, _, he =>
        have h0 : max r.t0 (V.tBoxEnter r) = ⊥ := he.symm
        have h1 : V.tBoxEnter r = ⊥ := le_bot_iff.mp (h0 ▸ le_max_right _ _)
        unfold Volume.tBoxEnter at h1
        have hx : (V.slab r Axis.x).1 = ⊥ := le_bot_iff.mp (h1 ▸ le_max_left _ _)
        have hyz : max (V.slab r Axis.y).1 (V.slab r Axis.z).1 = ⊥ :=
          le_bot_iff.mp (h1 ▸ le_max_right _ _)
        have hy : (V.slab r Axis.y).1 = ⊥ := le_bot_iff.mp (hyz ▸ le_max_left _ _)
        have hz : (V.slab r Axis.z).1 = ⊥ := le_bot_iff.mp (hyz ▸ le_max_right _ _)
        have key : ∀ a, (V.slab r a).1 = ⊥ → r.dir.get a = 0 := by
          intro a ha
          unfold Volume.slab slab at ha
          by_contra hne
          rcases lt_or_gt_of_ne hne with hneg | hpos
          · rw [if_neg (not_lt.mpr hneg.le), if_pos hneg] at ha
            exact absurd ha (by simp)
          · rw [if_pos hpos] at ha
            exact absurd ha (by simp)
        exact hd ⟨key Axis.x hx, key Axis.y hy, key Axis.z hz⟩
  · exact ⟨e, exit, hib, h⟩

theorem lane_first_emission (V : Volume) (b : Bool) (r : Ray) (n : ℕ) (I : Interval)
    (h : ((laneCalls V none b n (initLane V b r)).filterMap id).head? = some I) :
    I.tLower = max r.t0 (V.tBoxEnter r) := by
  rcases initLane_cases V b r with hdone | ⟨e, exit, hb, _, hib, hs⟩
  · rw [hdone, laneCalls_exhausted V none b n _ rfl, filterMap_replicate_none] at h
    simp at h
  · subst hb
    obtain ⟨he, _, _⟩ := intersect_bbox_some hib
    cases n with
    | zero => simp [laneCalls] at h
    | succ n =>
      rw [hs, laneCalls_ready V n _ rfl] at h
      simp only [List.filterMap_cons_some, id_eq, List.head?_cons, Option.some.injEq] at h
      rw [← h, readyState_interval_tLower]
      exact he

theorem unit_cube_enter (V : Volume) (r : Ray) (hh : intersect_bbox V r ≠ none)
    (hb : ∀ a, V.bboxLower a = 0 ∧ V.bboxUpper a = 1) (hoz : r.org.z = -1)
    (hdir : r.dir = ⟨0, 0, 1⟩) (ht0 : r.t0 = 0) : max r.t0 (V.tBoxEnter r) = 1 := by
  have hzs : (V.slab r Axis.z).1 = 1 := by
    unfold Volume.slab slab
    rw [(hb Axis.z).1, (hb Axis.z).2, hdir]
    show (if (0 : ℚ) < 1 then _ else _ : ERat × ERat).1 = 1
    rw [if_pos one_pos]
    show (((0 - r.org.z) / 1 : ℚ) : ERat) = 1
    rw [hoz]
    norm_num
  have hne : V.tBoxEnter r ≠ ⊤ := by
    intro htop
    cases hi : intersect_bbox V r with
    | none => exact hh hi
    | some p =>
      obtain ⟨he, _, hlt⟩ := intersect_bbox_some hi
      rw [he, htop, max_eq_right le_top] at hlt
      exact not_top_lt hlt
  have hxs : (V.slab r Axis.x).1 = ⊥ := by
    have h1 : (V.slab r Axis.x).1 ≠ ⊤ := fun h1 =>
      hne (top_le_iff.mp (h1 ▸ le_max_left _ _))
    unfold Volume.slab at h1 ⊢
    rw [hdir] at h1 ⊢
    exact slab_zero_dir_of_ne_top h1
  have hys : (V.slab r Axis.y).1 = ⊥ := by
    have h1 : (V.slab r Axis.y).1 ≠ ⊤ := fun h1 =>
      hne (top_le_iff.mp (h1 ▸ (le_trans (le_max_left _ _) (le_max_right _ _))))
    unfold Volume.slab at h1 ⊢
    rw [hdir] at h1 ⊢
    exact slab_zero_dir_of_ne_top h1
  unfold Volume.tBoxEnter
  rw [hxs, hys, hzs, ht0]
  decide!

/-- C4, amended. With no value selector, for every lane and its ray the first
interval emitted over any number of iterate calls starts at
`max(ray.t0, t_bbox_enter)`; an active lane whose ray is not degenerate and
hits the bounding box emits it at the first call; for a ray that hits a
bounding box that is the unit cube, from `z = -1` along `+z` with `t0 = 0`,
that start is exactly 1. -/
theorem first_emission_no_selector (V : Volume) (valid : List Bool) (rays : List Ray) (i : ℕ)
    (r : Ray) (hr : rays[i]? = some r) :
    (∀ n I,
        (emitted (iterateCalls valid n (initIntervalIterator valid V rays none)) i).head? =
          some I → I.tLower = max r.t0 (V.tBoxEnter r)) ∧
      (valid[i]? = some true → ¬(r.dir.x = 0 ∧ r.dir.y = 0 ∧ r.dir.z = 0) →
        intersect_bbox V r ≠ none →
        ∀ n, (emitted (iterateCalls valid (n + 1)
          (initIntervalIterator valid V rays none)) i).head? ≠ none) ∧
      (intersect_bbox V r ≠ none → (∀ a, V.bboxLower a = 0 ∧ V.bboxUpper a = 1) →
        r.org.z = -1 → r.dir = ⟨0, 0, 1⟩ → r.t0 = 0 → max r.t0 (V.tBoxEnter r) = 1) := by
  refine ⟨fun n I h => ?_, fun hv hd hh n => ?_, unit_cube_enter V r⟩
  · rw [emitted_eq_lane] at h
    change ((laneCalls V none (valid.getD i false) n _).filterMap id).head? = _ at h
    rcases initLane_getD V none valid rays i with hdone | ⟨r2, hr2, hs⟩
    · rw [hdone, laneCalls_exhausted V none _ n _ rfl, filterMap_replicate_none] at h
      simp at h
    · have : r2 = r := by
        rw [List.get?_eq_getElem?, hr] at hr2
        exact (Option.some.inj hr2).symm
      subst this
      rw [hs] at h
      exact lane_first_emission V _ r2 n I h
  · have hs := init_lane_eq V none valid rays i true r hv hr
    have hg : valid.getD i false = true := getD_of_getElem? valid i true false hv
    obtain ⟨e, exit, _, hrs⟩ := initLane_ready_of_hit V r hd hh
    rw [emitted_eq_lane]
    show ((laneCalls V none (valid.getD i false) (n + 1) _).filterMap id).head? ≠ none
    rw [hg, hs, hrs, laneCalls_ready V n _ rfl]
    simp

/-- Witness of C4 (amended): the S1 ray through the cube, no selector: its first
interval starts at 1. -/
theorem first_emission_witness :
    intersect_bbox cubeVolume axisRay ≠ none ∧
      (emitted (iterateCalls [true] 4
          (initIntervalIterator [true] cubeVolume [axisRay] none)) 0).head? =
        some ⟨1, ((3 / 2 : ℚ) : ERat), ⟨0, 0⟩, 1 / 4⟩ ∧
      (⟨1, ((3 / 2 : ℚ) : ERat), ⟨0, 0⟩, 1 / 4⟩ : Interval).tLower =
        max axisRay.t0 (cubeVolume.tBoxEnter axisRay) ∧
      max axisRay.t0 (cubeVolume.tBoxEnter axisRay) = 1 :=
  ⟨by decide!, by decide!,
    (first_emission_no_selector cubeVolume [true] [axisRay] 0 axisRay rfl).1 4 _ (by decide!),
    (first_emission_no_selector cubeVolume [true] [axisRay] 0 axisRay rfl).2.2 (by decide!)
      (by intro a; cases a <;> decide!) rfl rfl rfl⟩

/-! ## The DDA follows the ray -/

theorem tNextOf_step (V : Volume) (r : Ray) (a : Axis) (c : ℤ) :
    V.tNextOf r a (c + stepSignOf (r.dir.get a)) = V.tNextOf r a c + V.tDeltaOf r a := by
  unfold Volume.tNextOf Volume.tDeltaOf stepSignOf
  by_cases hd : 0 < r.dir.get a
  · simp only [if_pos hd, if_neg hd.ne']
    norm_cast
    rw [abs_of_pos hd]
    push_cast
    field_simp
    ring
  · by_cases hn : r.dir.get a < 0
    · simp only [if_neg hd, if_pos hn, if_neg hn.ne]
      norm_cast
      rw [abs_of_neg hn]
      push_cast
      rw [div_neg, ← neg_div, ← add_div]
      congr 1
      ring
    · have h0 : r.dir.get a = 0 := le_antisymm (not_lt.mp hd) (not_lt.mp hn)
      simp only [if_neg hd, if_neg hn, if_pos h0]
      rfl

theorem advance_tracks (V : Volume) (r : Ray) (s : LaneState) (h : s.Tracks V r) :
    (s.advance V).Tracks V r := by
  intro b
  obtain ⟨hb1, hb2, hb3⟩ := h b
  refine ⟨?_, hb2, hb3⟩
  show (s.tNext.set s.tNext.minAxis
      (s.tNext.get s.tNext.minAxis + s.tDelta.get s.tNext.minAxis)).get b =
    V.tNextOf r b ((s.cell.set s.tNext.minAxis
      (s.cell.get s.tNext.minAxis + s.stepSign.get s.tNext.minAxis)).get b)
  by_cases hb : b = s.tNext.minAxis
  · subst hb
    rw [Vec3.get_set_same, Vec3.get_set_same, hb1, hb2, hb3, tNextOf_step]
  · rw [Vec3.get_set_other _ _ _ _ hb, Vec3.get_set_other _ _ _ _ hb, hb1]

theorem advance_tLo (V : Volume) (s : LaneState) : (s.advance V).tLo = s.tLo := rfl

theorem advance_stepSign (V : Volume) (s : LaneState) : (s.advance V).stepSign = s.stepSign :=
  rfl

theorem advance_good (V : Volume) (r : Ray) (s : LaneState) (h : s.Good V r) :
    (s.advance V).Good V r := by
  obtain ⟨h1, h2, _, h4, h5⟩ := h
  exact ⟨advance_timed V s h1, advance_tracks V r s h2,
    fun hr => (advance_ready_le V s hr).2, h4, h5⟩

theorem tNextOf_eq_top_iff (V : Volume) (r : Ray) (a : Axis) (c : ℤ) :
    V.tNextOf r a c = ⊤ ↔ r.dir.get a = 0 := by
  unfold Volume.tNextOf
  by_cases hd : 0 < r.dir.get a
  · rw [if_pos hd]
    constructor
    · intro h
      exact absurd h (by simp)
    · intro h
      exact absurd h hd.ne'
  · by_cases hn : r.dir.get a < 0
    · rw [if_neg hd, if_pos hn]
      constructor
      · intro h
        exact absurd h (by simp)
      · intro h
        exact absurd h hn.ne
    · rw [if_neg hd, if_neg hn]
      exact ⟨fun _ => le_antisymm (not_lt.mp hd) (not_lt.mp hn), fun _ => rfl⟩

/-- The axis a good lane advances across is one the ray travels along. -/
theorem good_minAxis_dir (V : Volume) (r : Ray) (s : LaneState) (h : s.Good V r) :
    r.dir.get s.tNext.minAxis ≠ 0 := by
  obtain ⟨_, h2, _, _, h5⟩ := h
  intro h0
  have htop : s.tNext.minComp = ⊤ := by
    rw [← Vec3.get_minAxis, (h2 _).1]
    exact (tNextOf_eq_top_iff V r _ _).mpr h0
  have hall : ∀ b, r.dir.get b = 0 := by
    intro b
    have : s.tNext.get b = ⊤ := top_le_iff.mp (htop ▸ Vec3.minComp_le s.tNext b)
    rw [(h2 b).1] at this
    exact (tNextOf_eq_top_iff V r b _).mp this
  exact h5 ⟨hall Axis.x, hall Axis.y, hall Axis.z⟩

theorem inGrid_get (V : Volume) (c : Vec3 ℤ) (h : V.inGrid c) (a : Axis) :
    0 ≤ c.get a ∧ c.get a < V.cellCount a := by
  cases a
  · exact h.1
  · exact h.2.1
  · exact h.2.2

theorem inGrid_of_get (V : Volume) (c : Vec3 ℤ)
    (h : ∀ a, 0 ≤ c.get a ∧ c.get a < V.cellCount a) : V.inGrid c :=
  ⟨h Axis.x, h Axis.y, h Axis.z⟩

theorem remaining_set (V : Volume) (s t : LaneState) (a : Axis)
    (hne : ∀ b, b ≠ a → t.remAxis V b = s.remAxis V b)
    (ha : t.remAxis V a + 1 = s.remAxis V a) : t.remaining V + 1 = s.remaining V := by
  unfold LaneState.remaining
  cases a
  · rw [hne Axis.y (by decide), hne Axis.z (by decide)]
    omega
  · rw [hne Axis.x (by decide), hne Axis.z (by decide)]
    omega
  · rw [hne Axis.x (by decide), hne Axis.y (by decide)]
    omega

/-- A READY good lane has one cell less to visit after each step. -/
theorem advance_remaining (V : Volume) (r : Ray) (s : LaneState) (h : s.Good V r)
    (hr : s.exhausted = false) : (s.advance V).remaining V + 1 = s.remaining V := by
  have hdir := good_minAxis_dir V r s h
  obtain ⟨_, h2, h3, _, _⟩ := h
  have hg := inGrid_get V s.cell (h3 hr) s.tNext.minAxis
  have hsign := (h2 s.tNext.minAxis).2.2
  refine remaining_set V s (s.advance V) s.tNext.minAxis (fun b hb => ?_) ?_
  · unfold LaneState.remAxis
    rw [advance_stepSign]
    show (if 0 < s.stepSign.get b then (V.cellCount b - (s.cell.set s.tNext.minAxis
      (s.cell.get s.tNext.minAxis + s.stepSign.get s.tNext.minAxis)).get b).toNat
      else if s.stepSign.get b < 0 then ((s.cell.set s.tNext.minAxis
      (s.cell.get s.tNext.minAxis + s.stepSign.get s.tNext.minAxis)).get b + 1).toNat else 0) = _
    rw [Vec3.get_set_other _ _ _ _ hb]
  · unfold LaneState.remAxis
    rw [advance_stepSign]
    show (if 0 < s.stepSign.get s.tNext.minAxis then
      (V.cellCount s.tNext.minAxis - (s.cell.set s.tNext.minAxis
      (s.cell.get s.tNext.minAxis + s.stepSign.get s.tNext.minAxis)).get s.tNext.minAxis).toNat
      else if s.stepSign.get s.tNext.minAxis < 0 then ((s.cell.set s.tNext.minAxis
      (s.cell.get s.tNext.minAxis + s.stepSign.get s.tNext.minAxis)).get s.tNext.minAxis
        + 1).toNat else 0) + 1 = _
    rw [Vec3.get_set_same, hsign]
    unfold stepSignOf
    rcases lt_or_gt_of_ne hdir with hneg | hpos
    · rw [if_neg (not_lt.mpr hneg.le), if_pos hneg]
      simp only [Int.reduceNeg, Left.neg_pos_iff, Int.neg_neg_iff_pos]
      norm_num
      omega
    · rw [if_pos hpos]
      norm_num
      omega

/-! ## Entry cell and exit from the grid -/

theorem erat_le {a b : ℚ} : ((a : ℚ) : ERat) ≤ ((b : ℚ) : ERat) ↔ a ≤ b := by
  rw [WithBot.coe_le_coe, WithTop.coe_le_coe]

theorem erat_lt {a b : ℚ} : ((a : ℚ) : ERat) < ((b : ℚ) : ERat) ↔ a < b := by
  rw [WithBot.coe_lt_coe, WithTop.coe_lt_coe]

theorem Volume.Committed.Bsp_pos {V : Volume} (h : V.Committed) (a : Axis) :
    0 < (V.B : ℚ) * V.spacing.get a := mul_pos h.B_pos (h.spacing_pos a)

theorem cellCount_ge (V : Volume) (a : Axis) :
    ((V.dims.get a : ℚ) - 1) / (V.B : ℚ) ≤ (V.cellCount a : ℚ) :=
  Int.le_ceil _

theorem Volume.Proper.dims_ge {V : Volume} (h : V.Proper) (a : Axis) : 2 ≤ V.dims.get a := by
  cases a
  · exact h.1
  · exact h.2.1
  · exact h.2.2

theorem cellCount_pos {V : Volume} (hV : V.Committed) (hP : V.Proper) (a : Axis) :
    0 < V.cellCount a := by
  unfold Volume.cellCount
  rw [Int.ceil_pos]
  have h2 : (2 : ℚ) ≤ (V.dims.get a : ℚ) := by exact_mod_cast hP.dims_ge a
  exact div_pos (by linarith) hV.B_pos

theorem tBoxEnter_ge_slab (V : Volume) (r : Ray) (a : Axis) :
    (V.slab r a).1 ≤ V.tBoxEnter r := by
  unfold Volume.tBoxEnter
  cases a
  · exact le_max_left _ _
  · exact le_trans (le_max_left _ _) (le_max_right _ _)
  · exact le_trans (le_max_right _ _) (le_max_right _ _)

theorem tBoxExit_le_slab (V : Volume) (r : Ray) (a : Axis) :
    V.tBoxExit r ≤ (V.slab r a).2 := by
  unfold Volume.tBoxExit
  cases a
  · exact min_le_left _ _
  · exact le_trans (min_le_right _ _) (min_le_left _ _)
  · exact le_trans (min_le_right _ _) (min_le_right _ _)

/-- The cell coordinate of a point of the ray, along one axis. -/
theorem cellCoord_eq (V : Volume) (hV : V.Committed) (r : Ray) (e : ℚ) (a : Axis) :
    r.point e a - V.origin.get a =
      (r.point e a - V.origin.get a) / V.spacing.get a / (V.B : ℚ) *
        ((V.B : ℚ) * V.spacing.get a) := by
  rw [div_div, mul_comm (V.B : ℚ), div_mul_cancel₀]
  exact (mul_pos (hV.spacing_pos a) hV.B_pos).ne'

theorem entryCell_inGrid {V : Volume} (hV : V.Committed) (hP : V.Proper) (r : Ray) (e : ℚ)
    (a : Axis) (h1 : (V.slab r a).1 ≤ ((e : ℚ) : ERat)) (h2 : ((e : ℚ) : ERat) < (V.slab r a).2) :
    0 ≤ V.entryCell r e a ∧ V.entryCell r e a < V.cellCount a := by
  have hBs := hV.Bsp_pos a
  have hcnt := cellCount_ge V a
  have hcp := cellCount_pos hV hP a
  have hu := cellCoord_eq V hV r e a
  have hdimB : (V.dims.get a : ℚ) - 1 = ((V.dims.get a : ℚ) - 1) / (V.B : ℚ) * (V.B : ℚ) := by
    rw [div_mul_cancel₀]
    exact hV.B_pos.ne'
  unfold Volume.entryCell
  simp only []
  set u := (r.point e a - V.origin.get a) / V.spacing.get a / (V.B : ℚ) with hudef
  unfold Volume.slab slab Volume.bboxLower Volume.bboxUpper at h1 h2
  have hpt : r.point e a = r.org.get a + e * r.dir.get a := rfl
  by_cases hd : 0 < r.dir.get a
  · rw [if_pos hd] at h1 h2 ⊢
    have h1q : (V.origin.get a - r.org.get a) / r.dir.get a ≤ e := erat_le.mp h1
    have h2q : e < (V.origin.get a + ((V.dims.get a : ℚ) - 1) * V.spacing.get a -
        r.org.get a) / r.dir.get a := erat_lt.mp h2
    rw [div_le_iff₀ hd] at h1q
    rw [lt_div_iff₀ hd] at h2q
    have hu0 : 0 ≤ u := by
      have : 0 ≤ u * ((V.B : ℚ) * V.spacing.get a) := by rw [← hu, hpt]; linarith
      exact nonneg_of_mul_nonneg_left this hBs
    have hu1 : u < (V.cellCount a : ℚ) := by
      have : u * ((V.B : ℚ) * V.spacing.get a) <
          (V.cellCount a : ℚ) * ((V.B : ℚ) * V.spacing.get a) := by
        rw [← hu, hpt]
        have h3 : ((V.dims.get a : ℚ) - 1) * V.spacing.get a ≤
            (V.cellCount a : ℚ) * ((V.B : ℚ) * V.spacing.get a) := by
          rw [← mul_assoc]
          refine mul_le_mul_of_nonneg_right ?_ (hV.spacing_pos a).le
          rw [hdimB]
          exact mul_le_mul_of_nonneg_right hcnt hV.B_pos.le
        linarith
      exact lt_of_mul_lt_mul_right this hBs.le
    exact ⟨Int.floor_nonneg.mpr hu0, Int.floor_lt.mpr hu1⟩
  · by_cases hn : r.dir.get a < 0
    · rw [if_neg hd, if_pos hn] at h1 h2 ⊢
      have h1q : (V.origin.get a + ((V.dims.get a : ℚ) - 1) * V.spacing.get a -
          r.org.get a) / r.dir.get a ≤ e := erat_le.mp h1
      have h2q : e < (V.origin.get a - r.org.get a) / r.dir.get a := erat_lt.mp h2
      rw [div_le_iff_of_neg hn] at h1q
      rw [lt_div_iff_of_neg hn] at h2q
      have hu0 : 0 < u := by
        have : 0 < u * ((V.B : ℚ) * V.spacing.get a) := by rw [← hu, hpt]; linarith
        exact pos_of_mul_pos_left this hBs.le
      have hu1 : u ≤ (V.cellCount a : ℚ) := by
        have : u * ((V.B : ℚ) * V.spacing.get a) ≤
            (V.cellCount a : ℚ) * ((V.B : ℚ) * V.spacing.get a) := by
          rw [← hu, hpt]
          have h3 : ((V.dims.get a : ℚ) - 1) * V.spacing.get a ≤
              (V.cellCount a : ℚ) * ((V.B : ℚ) * V.spacing.get a) := by
            rw [← mul_assoc]
            refine mul_le_mul_of_nonneg_right ?_ (hV.spacing_pos a).le
            rw [hdimB]
            exact mul_le_mul_of_nonneg_right hcnt hV.B_pos.le
          linarith
        exact le_of_mul_le_mul_right this hBs
      have hc0 : 0 < ⌈u⌉ := Int.ceil_pos.mpr hu0
      have hc1 : ⌈u⌉ ≤ V.cellCount a := Int.ceil_le.mpr hu1
      constructor <;> omega
    · rw [if_neg hd, if_neg hn] at h1 h2 ⊢
      have h0 : r.dir.get a = 0 := le_antisymm (not_lt.mp hd) (not_lt.mp hn)
      by_cases hin : V.origin.get a ≤ r.org.get a ∧
          r.org.get a ≤ V.origin.get a + ((V.dims.get a : ℚ) - 1) * V.spacing.get a
      · have hu0 : 0 ≤ u := by
          have : 0 ≤ u * ((V.B : ℚ) * V.spacing.get a) := by
            rw [← hu, hpt, h0]; linarith [hin.1]
          exact nonneg_of_mul_nonneg_left this hBs
        have hf : 0 ≤ ⌊u⌋ := Int.floor_nonneg.mpr hu0
        constructor
        · exact le_min hf (by omega)
        · exact lt_of_le_of_lt (min_le_right _ _) (by omega)
      · rw [if_neg hin] at h2
        exact absurd h2 (by simp)

theorem readyState_good {V : Volume} (hV : V.Committed) (hP : V.Proper) (r : Ray) (e : ℚ)
    (exit : ERat) (hd : ¬(r.dir.x = 0 ∧ r.dir.y = 0 ∧ r.dir.z = 0))
    (hi : intersect_bbox V r = some (((e : ℚ) : ERat), exit)) :
    (V.readyState r e ((e : ℚ) : ERat) exit).Good V r := by
  obtain ⟨he, hx, hlt⟩ := intersect_bbox_some hi
  have hxle : exit ≤ V.tBoxExit r := hx ▸ min_le_right _ _
  refine ⟨readyState_timed hV r e exit, readyState_tracks V r e _ exit, fun _ => ?_, hxle, hd⟩
  refine inGrid_of_get V _ fun a => ?_
  rw [readyState_get_cell]
  refine entryCell_inGrid hV hP r e a ?_ ?_
  · rw [he]
    exact le_trans (tBoxEnter_ge_slab V r a) (le_max_right _ _)
  · exact lt_of_lt_of_le hlt (le_trans hxle (tBoxExit_le_slab V r a))

theorem stepSignOf_zero : stepSignOf 0 = 0 := by
  unfold stepSignOf
  simp

theorem aligned_remaining (V : Volume) (r : Ray) (s : LaneState) (a : Axis)
    (ht : s.Tracks V r) (hal : ∀ b, b ≠ a → r.dir.get b = 0) :
    s.remaining V = s.remAxis V a := by
  have hz : ∀ b, b ≠ a → s.remAxis V b = 0 := by
    intro b hb
    unfold LaneState.remAxis
    rw [(ht b).2.2, hal b hb, stepSignOf_zero]
    simp
  unfold LaneState.remaining
  cases a
  · rw [hz Axis.y (by decide), hz Axis.z (by decide)]
    omega
  · rw [hz Axis.x (by decide), hz Axis.z (by decide)]
    omega
  · rw [hz Axis.x (by decide), hz Axis.y (by decide)]
    omega

/-- With the whole crossing inside the range, a step of a good lane exhausts
it only by leaving the grid. -/
theorem fullCross_exhausted (V : Volume) (r : Ray) (s : LaneState) (h : s.Good V r)
    (hr : s.exhausted = false) (hf : V.FullCross r s.tHi)
    (hx : (s.advance V).exhausted = true) :
    ¬(0 ≤ s.cell.get s.tNext.minAxis + stepSignOf (r.dir.get s.tNext.minAxis) ∧
        s.cell.get s.tNext.minAxis + stepSignOf (r.dir.get s.tNext.minAxis) <
          V.cellCount s.tNext.minAxis) := by
  intro hin
  have hdir := good_minAxis_dir V r s h
  obtain ⟨_, h2, h3, _, _⟩ := h
  have hle : s.tExit ≤ s.tHi := by
    have := hf s.tNext.minAxis (s.cell.get s.tNext.minAxis) hdir hin.1 hin.2
    rw [← (h2 _).1, Vec3.get_minAxis] at this
    exact this
  have hg : V.inGrid (s.advance V).cell := by
    refine inGrid_of_get V _ fun b => ?_
    show 0 ≤ (s.cell.set s.tNext.minAxis
        (s.cell.get s.tNext.minAxis + s.stepSign.get s.tNext.minAxis)).get b ∧
      (s.cell.set s.tNext.minAxis
        (s.cell.get s.tNext.minAxis + s.stepSign.get s.tNext.minAxis)).get b < V.cellCount b
    by_cases hb : b = s.tNext.minAxis
    · subst hb
      rw [Vec3.get_set_same, (h2 _).2.2]
      exact hin
    · rw [Vec3.get_set_other _ _ _ _ hb]
      exact inGrid_get V s.cell (h3 hr) b
  have hx2 : (!(decide (V.inGrid (s.advance V).cell)) || decide (s.tHi < s.tExit)) = true := hx
  simp only [Bool.or_eq_true, Bool.not_eq_true', decide_eq_false_iff_not,
    decide_eq_true_eq] at hx2
  rcases hx2 with hng | hlt
  · exact hng hg
  · exact absurd hle (not_le.mpr hlt)

theorem remAxis_last (V : Volume) (r : Ray) (s : LaneState) (a : Axis) (ht : s.Tracks V r)
    (hd : r.dir.get a ≠ 0) (hg : 0 ≤ s.cell.get a ∧ s.cell.get a < V.cellCount a)
    (hout : ¬(0 ≤ s.cell.get a + stepSignOf (r.dir.get a) ∧
        s.cell.get a + stepSignOf (r.dir.get a) < V.cellCount a)) :
    s.remAxis V a = 1 := by
  unfold LaneState.remAxis
  rw [(ht a).2.2]
  unfold stepSignOf at hout ⊢
  rcases lt_or_gt_of_ne hd with hneg | hpos
  · simp only [if_neg (not_lt.mpr hneg.le), if_pos hneg] at hout ⊢
    norm_num
    omega
  · simp only [if_pos hpos] at hout ⊢
    norm_num
    omega

/-- An axis-aligned ray whose whole crossing lies inside its range emits one
interval per macrocell left along its axis. -/
theorem lane_count {V : Volume} (r : Ray) (a : Axis)
    (hal : ∀ b, b ≠ a → r.dir.get b = 0) :
    ∀ (m : ℕ) (s : LaneState), s.Good V r → s.remaining V ≤ m → V.FullCross r s.tHi →
      ∀ n, m ≤ n → ((laneCalls V none true n s).filterMap id).length =
        if s.exhausted then 0 else s.remAxis V a
  | m, s, hg, hm, hf, n, hn => by
    cases hex : s.exhausted
    · have hdec := advance_remaining V r s hg hex
      obtain ⟨m2, rfl⟩ : ∃ m2, m = m2 + 1 := ⟨m - 1, by omega⟩
      obtain ⟨n2, rfl⟩ : ∃ n2, n = n2 + 1 := ⟨n - 1, by omega⟩
      have ih := lane_count r a hal m2 (s.advance V) (advance_good V r s hg) (by omega)
        hf n2 (by omega)
      rw [laneCalls_ready V n2 s hex]
      show (s.interval V :: (laneCalls V none true n2 (s.advance V)).filterMap id).length = _
      rw [List.length_cons, ih]
      have hmin : s.tNext.minAxis = a := by
        by_contra hne
        exact good_minAxis_dir V r s hg (hal _ hne)
      have hra := aligned_remaining V r s a hg.2.1 hal
      have hra2 := aligned_remaining V r (s.advance V) a (advance_good V r s hg).2.1 hal
      cases hx : (s.advance V).exhausted
      · simp only [Bool.false_eq_true, if_false]
        omega
      · simp only [if_true, Bool.false_eq_true, if_false]
        have hout := fullCross_exhausted V r s hg hex hf hx
        rw [hmin] at hout
        have hd : r.dir.get a ≠ 0 := hmin ▸ good_minAxis_dir V r s hg
        rw [remAxis_last V r s a hg.2.1 hd (inGrid_get V s.cell (hg.2.2.1 hex) a) hout]
    · rw [laneCalls_exhausted V none true n s hex, filterMap_replicate_none]
      simp

theorem cellCount_of_dvd (V : Volume) (a : Axis) (hB : 2 ≤ V.B) (hdiv : V.B ∣ V.dims.get a)
    (hpos : 0 < V.dims.get a) : V.cellCount a = ((V.dims.get a / V.B : ℕ) : ℤ) := by
  obtain ⟨k, hk⟩ := hdiv
  have hBpos : 0 < V.B := by omega
  have hkpos : 0 < k := by
    rcases Nat.eq_zero_or_pos k with h0 | h0
    · rw [h0, Nat.mul_zero] at hk
      omega
    · exact h0
  unfold Volume.cellCount
  rw [hk, Nat.mul_div_cancel_left k hBpos, Int.ceil_eq_iff]
  have hBq : (2 : ℚ) ≤ (V.B : ℚ) := by exact_mod_cast hB
  have hBq0 : (0 : ℚ) < (V.B : ℚ) := by linarith
  push_cast
  constructor
  · rw [lt_div_iff₀ hBq0]
    nlinarith
  · rw [div_le_iff₀ hBq0]
    nlinarith

theorem tBoxEnter_aligned (V : Volume) (r : Ray) (a : Axis)
    (h : ∀ b, b ≠ a → (V.slab r b).1 = ⊥) : V.tBoxEnter r = (V.slab r a).1 := by
  unfold Volume.tBoxEnter
  cases a
  · rw [h Axis.y (by decide), h Axis.z (by decide)]
    simp
  · rw [h Axis.x (by decide), h Axis.z (by decide)]
    simp
  · rw [h Axis.x (by decide), h Axis.y (by decide)]
    simp

theorem tBoxExit_aligned (V : Volume) (r : Ray) (a : Axis)
    (h : ∀ b, b ≠ a → (V.slab r b).2 = ⊤) : V.tBoxExit r = (V.slab r a).2 := by
  unfold Volume.tBoxExit
  cases a
  · rw [h Axis.y (by decide), h Axis.z (by decide)]
    simp
  · rw [h Axis.x (by decide), h Axis.z (by decide)]
    simp
  · rw [h Axis.x (by decide), h Axis.y (by decide)]
    simp

theorem slab_inside (V : Volume) (r : Ray) (b : Axis) (hd : r.dir.get b = 0)
    (hin : V.bboxLower b ≤ r.org.get b ∧ r.org.get b ≤ V.bboxUpper b) :
    V.slab r b = (⊥, ⊤) := by
  unfold Volume.slab slab
  rw [hd]
  simp only [lt_self_iff_false, if_false]
  rw [if_pos hin]

theorem slab_travel (V : Volume) (r : Ray) (a : Axis) (hd : r.dir.get a ≠ 0) :
    V.slab r a = (((V.alignedEnter r a : ℚ) : ERat), ((V.alignedExit r a : ℚ) : ERat)) := by
  unfold Volume.slab slab Volume.alignedEnter Volume.alignedExit
  rcases lt_or_gt_of_ne hd with hneg | hpos
  · simp only [if_neg (not_lt.mpr hneg.le), if_pos hneg]
  · simp only [if_pos hpos]

theorem bbox_extent {V : Volume} (hV : V.Committed) (hP : V.Proper) (a : Axis) :
    V.bboxLower a < V.bboxUpper a := by
  unfold Volume.bboxLower Volume.bboxUpper
  have h2 : (2 : ℚ) ≤ (V.dims.get a : ℚ) := by exact_mod_cast hP.dims_ge a
  have := mul_pos (show (0 : ℚ) < (V.dims.get a : ℚ) - 1 by linarith) (hV.spacing_pos a)
  linarith

theorem alignedEnter_lt_exit {V : Volume} (hV : V.Committed) (hP : V.Proper) (r : Ray)
    (a : Axis) (hd : r.dir.get a ≠ 0) : V.alignedEnter r a < V.alignedExit r a := by
  have hb := bbox_extent hV hP a
  unfold Volume.alignedEnter Volume.alignedExit
  rcases lt_or_gt_of_ne hd with hneg | hpos
  · simp only [if_neg (not_lt.mpr hneg.le)]
    rw [div_lt_div_right_of_neg hneg]
    linarith
  · simp only [if_pos hpos]
    rw [div_lt_div_iff_of_pos_right hpos]
    linarith

/-- An axis-aligned ray that crosses the whole box hits it from its entry into
the axis slab to its exit from it. -/
theorem intersect_bbox_aligned {V : Volume} (hV : V.Committed) (hP : V.Proper) (r : Ray)
    (a : Axis) (hd : r.dir.get a ≠ 0)
    (hal : ∀ b, b ≠ a → r.dir.get b = 0 ∧ V.bboxLower b ≤ r.org.get b ∧
      r.org.get b ≤ V.bboxUpper b)
    (ht0 : r.t0 ≤ V.tBoxEnter r) (ht1 : V.tBoxExit r ≤ r.t1) :
    intersect_bbox V r =
      some (((V.alignedEnter r a : ℚ) : ERat), ((V.alignedExit r a : ℚ) : ERat)) := by
  have he : V.tBoxEnter r = ((V.alignedEnter r a : ℚ) : ERat) := by
    rw [tBoxEnter_aligned V r a fun b hb => by rw [slab_inside V r b (hal b hb).1 (hal b hb).2],
      slab_travel V r a hd]
  have hx : V.tBoxExit r = ((V.alignedExit r a : ℚ) : ERat) := by
    rw [tBoxExit_aligned V r a fun b hb => by rw [slab_inside V r b (hal b hb).1 (hal b hb).2],
      slab_travel V r a hd]
  unfold intersect_bbox
  rw [max_eq_right ht0, min_eq_right ht1, he, hx,
    if_pos (erat_lt.mpr (alignedEnter_lt_exit hV hP r a hd))]

theorem fullCross_aligned {V : Volume} (hV : V.Committed) (r : Ray) (a : Axis)
    (hal : ∀ b, b ≠ a → r.dir.get b = 0) :
    V.FullCross r ((V.alignedExit r a : ℚ) : ERat) := by
  intro b c hdb h0 h1
  have hba : b = a := by
    by_contra hne
    exact hdb (hal b hne)
  subst hba
  have hs := hV.spacing_pos b
  have hB := hV.B_pos
  unfold Volume.tNextOf Volume.alignedExit Volume.bboxLower Volume.bboxUpper
  unfold stepSignOf at h0 h1
  rcases lt_or_gt_of_ne hdb with hneg | hpos
  · simp only [if_neg (not_lt.mpr hneg.le), if_pos hneg] at h0 h1 ⊢
    refine erat_le.mpr ?_
    rw [div_le_div_right_of_neg hneg]
    have hc : (1 : ℚ) ≤ (c : ℚ) := by exact_mod_cast (show (1 : ℤ) ≤ c by omega)
    have := mul_nonneg (mul_nonneg hB.le (show (0 : ℚ) ≤ (c : ℚ) by linarith)) hs.le
    linarith
  · simp only [if_pos hpos] at h0 h1 ⊢
    refine erat_le.mpr ?_
    rw [div_le_div_iff_of_pos_right hpos]
    have hlt : ((c + 1 : ℤ) : ℚ) < ((V.dims.get b : ℚ) - 1) / (V.B : ℚ) := by
      have : c + 1 < ⌈((V.dims.get b : ℚ) - 1) / (V.B : ℚ)⌉ := h1
      exact Int.lt_ceil.mp this
    rw [lt_div_iff₀ hB] at hlt
    push_cast at hlt
    have := mul_le_mul_of_nonneg_right hlt.le hs.le
    linarith

theorem entryCell_aligned {V : Volume} (hV : V.Committed) (r : Ray) (a : Axis)
    (hd : r.dir.get a ≠ 0) :
    V.entryCell r (V.alignedEnter r a) a =
      if 0 < r.dir.get a then 0 else V.cellCount a - 1 := by
  have hs := hV.spacing_pos a
  have hB := hV.B_pos
  unfold Volume.entryCell Volume.alignedEnter Ray.point Volume.bboxLower Volume.bboxUpper
    Volume.cellCount
  rcases lt_or_gt_of_ne hd with hneg | hpos
  · simp only [if_neg (not_lt.mpr hneg.le), if_pos hneg]
    rw [div_mul_cancel₀ _ hd]
    congr 2
    field_simp
  · simp only [if_pos hpos]
    rw [div_mul_cancel₀ _ hd]
    simp

theorem erat_inj {a b : ℚ} (h : ((a : ℚ) : ERat) = ((b : ℚ) : ERat)) : a = b :=
  WithTop.coe_injective (WithBot.coe_injective h)

theorem remAxis_aligned {V : Volume} (hV : V.Committed) (r : Ray) (a : Axis) (exit : ERat)
    (hd : r.dir.get a ≠ 0) :
    (V.readyState r (V.alignedEnter r a) ((V.alignedEnter r a : ℚ) : ERat) exit).remAxis V a =
      (V.cellCount a).toNat := by
  unfold LaneState.remAxis
  rw [readyState_get_stepSign, readyState_get_cell, entryCell_aligned hV r a hd]
  unfold stepSignOf
  rcases lt_or_gt_of_ne hd with hneg | hpos
  · simp only [if_neg (not_lt.mpr hneg.le), if_pos hneg]
    norm_num
  · simp only [if_pos hpos]
    norm_num

/-- C6 as stated fails for macrocell side 1: a 2 x 2 x 2 volume has
`ceil((2-1)/1) = 1` macrocell per axis, so the axis-aligned ray that crosses its
whole box emits one interval, not `N/B = 2`. -/
theorem interval_count_counterexample :
    unitSideVolume.Committed ∧ unitSideVolume.dims = ⟨2, 2, 2⟩ ∧ unitSideVolume.B ∣ 2 ∧
      intersect_bbox unitSideVolume axisRay = some (1, 2) ∧
      (iterateCalls [true] 4 (initIntervalIterator [true] unitSideVolume [axisRay] none)).map
        (fun o => o.result) = [[1], [0], [0], [0]] ∧
      (emitted (iterateCalls [true] 4
        (initIntervalIterator [true] unitSideVolume [axisRay] none)) 0).length = 1 ∧
      2 / unitSideVolume.B = 2 :=
  ⟨by decide!, rfl, by decide!, by decide!, by decide!, by decide!, by decide!⟩

/-- C6, amended. For every committed volume of `N x N x N` voxels with
macrocell side `B >= 2`, `B` dividing `N`, and no value selector, an active
lane whose ray is axis-aligned and crosses the whole bounding box (it travels
along one axis, lies inside the box in the two others, and its range contains
the whole crossing) emits exactly `N/B` intervals: after finitely many calls
the list of emitted intervals has that length for good (8 for `N = 128`,
`B = 16`). -/
theorem interval_count_axis_aligned (V : Volume) (hV : V.Committed) (N : ℕ)
    (hdims : V.dims = ⟨N, N, N⟩) (hB : 2 ≤ V.B) (hdiv : V.B ∣ N) (hN : 0 < N)
    (valid : List Bool) (rays : List Ray) (i : ℕ) (r : Ray) (hv : valid[i]? = some true)
    (hr : rays[i]? = some r) (a : Axis) (hd : r.dir.get a ≠ 0)
    (hal : ∀ b, b ≠ a → r.dir.get b = 0 ∧ V.bboxLower b ≤ r.org.get b ∧
      r.org.get b ≤ V.bboxUpper b)
    (ht0 : r.t0 ≤ V.tBoxEnter r) (ht1 : V.tBoxExit r ≤ r.t1) :
    (∃ M, ∀ n, M ≤ n →
      (emitted (iterateCalls valid n (initIntervalIterator valid V rays none)) i).length =
        N / V.B) ∧
      (N = 128 → V.B = 16 → N / V.B = 8) := by
  refine ⟨?_, fun h1 h2 => by rw [h1, h2]⟩
  have hdim : ∀ b, V.dims.get b = N := by
    intro b
    rw [hdims]
    cases b <;> rfl
  have hBN : V.B ≤ N := Nat.le_of_dvd hN hdiv
  have hP : V.Proper := by
    have := hdim Axis.x
    have := hdim Axis.y
    have := hdim Axis.z
    refine ⟨?_, ?_, ?_⟩
    · show 2 ≤ V.dims.get Axis.x
      omega
    · show 2 ≤ V.dims.get Axis.y
      omega
    · show 2 ≤ V.dims.get Axis.z
      omega
  have hdeg : ¬(r.dir.x = 0 ∧ r.dir.y = 0 ∧ r.dir.z = 0) := by
    intro h
    apply hd
    cases a
    · exact h.1
    · exact h.2.1
    · exact h.2.2
  have hib := intersect_bbox_aligned hV hP r a hd hal ht0 ht1
  obtain ⟨e, exit, hib2, hrs⟩ := initLane_ready_of_hit V r hdeg (by rw [hib]; simp)
  rw [hib] at hib2
  have he : e = V.alignedEnter r a := by
    have := congrArg Prod.fst (Option.some.inj hib2)
    exact (erat_inj this).symm
  have hx : exit = ((V.alignedExit r a : ℚ) : ERat) := by
    have := congrArg Prod.snd (Option.some.inj hib2)
    exact this.symm
  subst he
  have hg := readyState_good hV hP r _ exit hdeg (hx ▸ hib)
  have hcount := cellCount_of_dvd V a hB (by rw [hdim a]; exact hdiv) (by rw [hdim a]; exact hN)
  rw [hdim a] at hcount
  have hf : V.FullCross r (V.readyState r (V.alignedEnter r a)
      ((V.alignedEnter r a : ℚ) : ERat) exit).tHi := by
    show V.FullCross r exit
    rw [hx]
    exact fullCross_aligned hV r a fun b hb => (hal b hb).1
  refine ⟨(V.readyState r (V.alignedEnter r a)
      ((V.alignedEnter r a : ℚ) : ERat) exit).remaining V, fun n hn => ?_⟩
  rw [emitted_eq_lane]
  show ((laneCalls V none (valid.getD i false) n
    ((initIntervalIterator valid V rays none).lanes.getD i LaneState.done)).filterMap
      id).length = _
  rw [getD_of_getElem? valid i true false hv, init_lane_eq V none valid rays i true r hv hr, hrs,
    lane_count r a (fun b hb => (hal b hb).1) _ _ hg (le_refl _) hf n hn]
  show (if false = true then 0 else _) = _
  rw [if_neg (by simp), remAxis_aligned hV r a exit hd, hcount]
  exact Int.toNat_natCast _

/-- Witness of C6 (amended): the S1 ray through a 4 x 4 x 4 volume with macrocell
side 2 emits 4 / 2 = 2 intervals. -/
theorem interval_count_witness :
    evenVolume.Committed ∧
      emitted (iterateCalls [true] 4 (initIntervalIterator [true] evenVolume [axisRay] none)) 0 =
        [⟨1, ((5 / 3 : ℚ) : ERat), ⟨0, 0⟩, 1 / 3⟩, ⟨((5 / 3 : ℚ) : ERat), 2, ⟨0, 0⟩, 1 / 3⟩] ∧
      ∃ M, ∀ n, M ≤ n →
        (emitted (iterateCalls [true] n
          (initIntervalIterator [true] evenVolume [axisRay] none)) 0).length = 4 / evenVolume.B :=
  ⟨by decide!, by decide!,
    (interval_count_axis_aligned evenVolume (by decide!) 4 rfl (by decide!) (by decide!)
      (by decide!) [true] [axisRay] 0 axisRay rfl rfl Axis.z (by decide!)
      (by intro b hb; cases b <;> first | exact absurd rfl hb | decide!)
      (by decide!) (by decide!)).1⟩

/-! ## C8: lane uniformity -/

theorem inGrid_iff_XY (V : Volume) (c : Vec3 ℤ) :
    V.inGrid c ↔ V.inGridXY c ∧ (0 ≤ c.z ∧ c.z < V.cellCount Axis.z) := by
  unfold Volume.inGrid Volume.inGridXY
  tauto

theorem advance_cell_of_sign_zero (V : Volume) (s : LaneState) (hx : s.stepSign.x = 0)
    (hy : s.stepSign.y = 0) :
    (s.advance V).cell.x = s.cell.x ∧ (s.advance V).cell.y = s.cell.y ∧
      (s.advance V).cell.z = s.cell.z +
        (if s.tNext.minAxis = Axis.z then s.stepSign.z else 0) := by
  show (s.cell.set s.tNext.minAxis
      (s.cell.get s.tNext.minAxis + s.stepSign.get s.tNext.minAxis)).x = s.cell.x ∧
    (s.cell.set s.tNext.minAxis
      (s.cell.get s.tNext.minAxis + s.stepSign.get s.tNext.minAxis)).y = s.cell.y ∧
    (s.cell.set s.tNext.minAxis
      (s.cell.get s.tNext.minAxis + s.stepSign.get s.tNext.minAxis)).z = _
  cases s.tNext.minAxis
  · simp [Vec3.set, Vec3.get, hx]
  · simp [Vec3.set, Vec3.get, hy]
  · simp [Vec3.set, Vec3.get]

theorem advance_parallel (V : Volume) (s u : LaneState) (h : s.Parallel V u) :
    (s.advance V).Parallel V (u.advance V) := by
  obtain ⟨_, h2, h3, h4, h5, h6, h7, h8, h9⟩ := h
  have hux : u.stepSign.x = 0 := h5 ▸ h6
  have huy : u.stepSign.y = 0 := h5 ▸ h7
  obtain ⟨sx, sy, sz⟩ := advance_cell_of_sign_zero V s h6 h7
  obtain ⟨ux, uy, uz⟩ := advance_cell_of_sign_zero V u hux huy
  have hz : (s.advance V).cell.z = (u.advance V).cell.z := by
    rw [sz, uz, h2, h5, h8]
  have hxy : V.inGridXY (s.advance V).cell ↔ V.inGridXY (u.advance V).cell := by
    unfold Volume.inGridXY
    rw [sx, sy, ux, uy]
    exact h9
  have hg : V.inGrid (s.advance V).cell ↔ V.inGrid (u.advance V).cell := by
    rw [inGrid_iff_XY, inGrid_iff_XY, hxy, hz]
  refine ⟨?_, ?_, h3, h4, h5, h6, h7, hz, hxy⟩
  · show (!(decide (V.inGrid (s.advance V).cell)) || decide (s.tHi < s.tExit)) =
      (!(decide (V.inGrid (u.advance V).cell)) || decide (u.tHi < u.tExit))
    have hte : s.tExit = u.tExit := by
      unfold LaneState.tExit
      rw [h2]
    rw [h4, hte, decide_eq_decide.mpr hg]
  · show s.tNext.set s.tNext.minAxis (s.tNext.get s.tNext.minAxis + s.tDelta.get s.tNext.minAxis) =
      u.tNext.set u.tNext.minAxis (u.tNext.get u.tNext.minAxis + u.tDelta.get u.tNext.minAxis)
    rw [h2, h3]

/-- Parallel lanes emit on the same calls. -/
theorem laneCalls_parallel (V : Volume) :
    ∀ (n : ℕ) (s u : LaneState), s.Parallel V u →
      (laneCalls V none true n s).map Option.isSome =
        (laneCalls V none true n u).map Option.isSome
  | 0, _, _, _ => rfl
  | n + 1, s, u, h => by
    cases hs : s.exhausted
    · have hu : u.exhausted = false := h.1 ▸ hs
      rw [laneCalls_ready V n s hs, laneCalls_ready V n u hu]
      simp only [List.map_cons, Option.isSome_some]
      rw [laneCalls_parallel V n _ _ (advance_parallel V s u h)]
    · have hu : u.exhausted = true := h.1 ▸ hs
      rw [laneCalls_exhausted V none true _ s hs, laneCalls_exhausted V none true _ u hu]

theorem entryCell_zero_dir {V : Volume} (hV : V.Committed) (r : Ray) (e : ℚ) (a : Axis)
    (hd : r.dir.get a = 0) (hlo : V.bboxLower a ≤ r.org.get a) :
    (0 ≤ V.entryCell r e a ∧ V.entryCell r e a < V.cellCount a) ↔ 1 ≤ V.cellCount a := by
  have hBs := hV.Bsp_pos a
  have hu := cellCoord_eq V hV r e a
  unfold Volume.entryCell
  simp only []
  set u := (r.point e a - V.origin.get a) / V.spacing.get a / (V.B : ℚ) with hudef
  rw [hd]
  simp only [lt_self_iff_false, if_false]
  have hu0 : 0 ≤ u := by
    have : 0 ≤ u * ((V.B : ℚ) * V.spacing.get a) := by
      rw [← hu]
      unfold Ray.point
      rw [hd]
      unfold Volume.bboxLower at hlo
      linarith
    exact nonneg_of_mul_nonneg_left this hBs
  have hf : 0 ≤ ⌊u⌋ := Int.floor_nonneg.mpr hu0
  constructor
  · rintro ⟨h1, h2⟩
    omega
  · intro h
    exact ⟨le_min hf (by omega), lt_of_le_of_lt (min_le_right _ _) (by omega)⟩

theorem testRay_slabs (V : Volume) (t0 t1 : ERat) (r : Ray) (h : V.TestRay t0 t1 r) :
    V.slab r Axis.x = (⊥, ⊤) ∧ V.slab r Axis.y = (⊥, ⊤) ∧
      V.slab r Axis.z = slab (V.bboxLower Axis.z) (V.bboxUpper Axis.z) (-1) 1 := by
  obtain ⟨hd, hz, hx, hy, _, _⟩ := h
  refine ⟨slab_inside V r Axis.x (by rw [hd]; rfl) hx, slab_inside V r Axis.y (by rw [hd]; rfl) hy,
    ?_⟩
  unfold Volume.slab
  rw [hd]
  show slab _ _ r.org.z 1 = _
  rw [hz]

theorem testRay_intersect (V : Volume) (t0 t1 : ERat) (r u : Ray) (hr : V.TestRay t0 t1 r)
    (hu : V.TestRay t0 t1 u) : intersect_bbox V r = intersect_bbox V u := by
  obtain ⟨rx, ry, rz⟩ := testRay_slabs V t0 t1 r hr
  obtain ⟨ux, uy, uz⟩ := testRay_slabs V t0 t1 u hu
  unfold intersect_bbox Volume.tBoxEnter Volume.tBoxExit
  rw [rx, ry, rz, ux, uy, uz, hr.2.2.2.2.1, hr.2.2.2.2.2, hu.2.2.2.2.1, hu.2.2.2.2.2]

theorem testRay_ready_parallel {V : Volume} (hV : V.Committed) (t0 t1 : ERat) (r u : Ray)
    (hr : V.TestRay t0 t1 r) (hu : V.TestRay t0 t1 u) (e : ℚ) (enter exit : ERat) :
    (V.readyState r e enter exit).Parallel V (V.readyState u e enter exit) := by
  obtain ⟨rd, rz, rx, ry, _, _⟩ := hr
  obtain ⟨ud, uz, ux, uy, _, _⟩ := hu
  have hcz : V.entryCell r e Axis.z = V.entryCell u e Axis.z := by
    unfold Volume.entryCell Ray.point
    simp only [Vec3.get, rd, ud, rz, uz]
  have hnx : ∀ c d : ℤ, V.tNextOf r Axis.x c = V.tNextOf u Axis.x d := by
    intro c d
    unfold Volume.tNextOf
    rw [rd, ud]
    simp [Vec3.get]
  have hny : ∀ c d : ℤ, V.tNextOf r Axis.y c = V.tNextOf u Axis.y d := by
    intro c d
    unfold Volume.tNextOf
    rw [rd, ud]
    simp [Vec3.get]
  have hnz : ∀ c : ℤ, V.tNextOf r Axis.z c = V.tNextOf u Axis.z c := by
    intro c
    unfold Volume.tNextOf
    simp only [Vec3.get, rd, ud, rz, uz]
  have hdl : ∀ a, V.tDeltaOf r a = V.tDeltaOf u a := by
    intro a
    unfold Volume.tDeltaOf
    rw [rd, ud]
  have hxy : ∀ w : Ray, w.dir = ⟨0, 0, 1⟩ → V.bboxLower Axis.x ≤ w.org.x →
      V.bboxLower Axis.y ≤ w.org.y →
      (V.inGridXY (V.readyState w e enter exit).cell ↔
        1 ≤ V.cellCount Axis.x ∧ 1 ≤ V.cellCount Axis.y) := by
    intro w hw h1 h2
    unfold Volume.inGridXY
    show (0 ≤ V.entryCell w e Axis.x ∧ V.entryCell w e Axis.x < V.cellCount Axis.x) ∧
      (0 ≤ V.entryCell w e Axis.y ∧ V.entryCell w e Axis.y < V.cellCount Axis.y) ↔ _
    rw [entryCell_zero_dir hV w e Axis.x (by rw [hw]; rfl) h1,
      entryCell_zero_dir hV w e Axis.y (by rw [hw]; rfl) h2]
  refine ⟨rfl, ?_, ?_, rfl, ?_, ?_, ?_, hcz, ?_⟩
  · show (⟨V.tNextOf r Axis.x _, V.tNextOf r Axis.y _, V.tNextOf r Axis.z _⟩ : Vec3 ERat) =
      ⟨V.tNextOf u Axis.x _, V.tNextOf u Axis.y _, V.tNextOf u Axis.z _⟩
    rw [hnx _ (V.entryCell u e Axis.x), hny _ (V.entryCell u e Axis.y), hnz, hcz]
  · show (⟨V.tDeltaOf r Axis.x, V.tDeltaOf r Axis.y, V.tDeltaOf r Axis.z⟩ : Vec3 ERat) =
      ⟨V.tDeltaOf u Axis.x, V.tDeltaOf u Axis.y, V.tDeltaOf u Axis.z⟩
    rw [hdl, hdl, hdl]
  · show (⟨stepSignOf r.dir.x, stepSignOf r.dir.y, stepSignOf r.dir.z⟩ : Vec3 ℤ) =
      ⟨stepSignOf u.dir.x, stepSignOf u.dir.y, stepSignOf u.dir.z⟩
    rw [rd, ud]
  · show stepSignOf r.dir.x = 0
    rw [rd]
    exact stepSignOf_zero
  · show stepSignOf r.dir.y = 0
    rw [rd]
    exact stepSignOf_zero
  · rw [hxy r rd rx.1 ry.1, hxy u ud ux.1 uy.1]

theorem done_parallel (V : Volume) : LaneState.done.Parallel V LaneState.done :=
  ⟨rfl, rfl, rfl, rfl, rfl, rfl, rfl, rfl, Iff.rfl⟩

theorem testRay_init_parallel {V : Volume} (hV : V.Committed) (t0 t1 : ERat) (r u : Ray)
    (hr : V.TestRay t0 t1 r) (hu : V.TestRay t0 t1 u) :
    (initLane V true r).Parallel V (initLane V true u) := by
  have hi := testRay_intersect V t0 t1 r u hr hu
  have hdr : ¬(r.dir.x = 0 ∧ r.dir.y = 0 ∧ r.dir.z = 0) := by
    rw [hr.1]
    simp
  have hdu : ¬(u.dir.x = 0 ∧ u.dir.y = 0 ∧ u.dir.z = 0) := by
    rw [hu.1]
    simp
  unfold initLane
  simp only [Bool.true_eq_false, if_false, if_neg hdr, if_neg hdu]
  rw [hi]
  cases intersect_bbox V u with
  | none => exact done_parallel V
  | some p =>
    obtain ⟨enter, exit⟩ := p
    match enter with
    | some (some e) => exact testRay_ready_parallel hV t0 t1 r u hr hu e _ exit
    | some none => exact done_parallel V
    | none => exact done_parallel V

theorem lane_flag_eq (valid : List Bool) (V : Volume) (rays : List Ray) (n i : ℕ) (r : Ray)
    (hv : valid[i]? = some true) (hr : rays[i]? = some r) (k : ℕ) (o : IterateOut)
    (hk : (iterateCalls valid n (initIntervalIterator valid V rays none))[k]? = some o) :
    ((laneCalls V none true n (initLane V true r)).map Option.isSome)[k]? =
      some (o.intervals.getD i none).isSome := by
  have h := iterateCalls_lane valid i n (initIntervalIterator valid V rays none)
  have h2 : laneCalls V none true n (initLane V true r) =
      (iterateCalls valid n (initIntervalIterator valid V rays none)).map
        (fun o => o.intervals.getD i none) := by
    rw [h]
    show _ = laneCalls V none (valid.getD i false) n _
    rw [getD_of_getElem? valid i true false hv, init_lane_eq V none valid rays i true r hv hr]
  rw [h2, List.map_map, List.getElem?_map, hk]
  rfl

/-- C8 as stated fails when the lanes' ranges differ: two lanes with the same
S1 origin and direction, one with `t` in `[0, +inf)` and one with `t` in
`[0, 5/4]`: the second call reports result 1 for the first lane and 0 for the
second. -/
theorem lane_uniformity_counterexample :
    (axisRay.dir = ⟨0, 0, 1⟩ ∧ axisRay.org = ⟨1 / 2, 1 / 2, -1⟩) ∧
      (shortRay.dir = ⟨0, 0, 1⟩ ∧ shortRay.org = ⟨1 / 2, 1 / 2, -1⟩) ∧
      (∀ a, cubeVolume.bboxLower a = 0 ∧ cubeVolume.bboxUpper a = 1) ∧
      (iterateCalls [true, true] 3
        (initIntervalIterator [true, true] cubeVolume [axisRay, shortRay] none)).map
          (fun o => o.result) = [[1, 1], [1, 0], [0, 0]] :=
  ⟨⟨rfl, rfl⟩, ⟨rfl, rfl⟩, by intro a; cases a <;> decide!, by decide!⟩

/-- C8, amended. With no value selector, when every active lane holds a ray
with direction `(0, 0, 1)` from `z = -1` at some `(x, y)` inside the bounding
box and all these rays have the same range `[t0, t1]`, then in every iterate
call either all active lanes report result 1 or all report result 0. -/
theorem lane_uniformity (V : Volume) (hV : V.Committed) (t0 t1 : ERat) (valid : List Bool)
    (rays : List Ray)
    (hall : ∀ i : ℕ, valid[i]? = some true → ∃ r, rays[i]? = some r ∧ V.TestRay t0 t1 r)
    (n : ℕ) (o : IterateOut)
    (ho : o ∈ iterateCalls valid n (initIntervalIterator valid V rays none)) :
    (∀ i : ℕ, valid[i]? = some true → o.result.getD i 0 = 1) ∨
      (∀ i : ℕ, valid[i]? = some true → o.result.getD i 0 = 0) := by
  obtain ⟨k, hk⟩ := List.getElem?_of_mem ho
  obtain ⟨st2, rfl⟩ := iterateCalls_mem valid n _ o ho
  have hflag : ∀ i, ((iterateInterval valid st2).result.getD i 0 = 1 ↔
        ((iterateInterval valid st2).intervals.getD i none).isSome = true) ∧
      ((iterateInterval valid st2).result.getD i 0 = 0 ↔
        (iterateInterval valid st2).intervals.getD i none = none) :=
    fun i => result_flag_getD _ i
  have hpair : ∀ i j, valid[i]? = some true → valid[j]? = some true →
      ((iterateInterval valid st2).intervals.getD i none).isSome =
        ((iterateInterval valid st2).intervals.getD j none).isSome := by
    intro i j hi hj
    obtain ⟨ri, hri, hti⟩ := hall i hi
    obtain ⟨rj, hrj, htj⟩ := hall j hj
    have h1 := lane_flag_eq valid V rays n i ri hi hri k _ hk
    have h2 := lane_flag_eq valid V rays n j rj hj hrj k _ hk
    rw [laneCalls_parallel V n _ _ (testRay_init_parallel hV t0 t1 ri rj hti htj), h2] at h1
    exact (Option.some.inj h1).symm
  by_cases hex : ∃ i : ℕ, valid[i]? = some true ∧
      ((iterateInterval valid st2).intervals.getD i none).isSome = true
  · obtain ⟨i, hi, hsome⟩ := hex
    left
    intro j hj
    rw [(hflag j).1, ← hpair i j hi hj]
    exact hsome
  · right
    intro j hj
    rw [(hflag j).2]
    cases hc : (iterateInterval valid st2).intervals.getD j none with
    | none => rfl
    | some I =>
      exfalso
      exact hex ⟨j, hj, by rw [hc]; rfl⟩

/-- Witness of C8 (amended): two lanes of the axis-aligned test on the cube, both
with `t` in `[0, +inf)`: results `[1, 1]`, `[1, 1]`, then `[0, 0]`. -/
theorem lane_uniformity_witness :
    cubeVolume.Committed ∧
      (iterateCalls [true, true] 3
        (initIntervalIterator [true, true] cubeVolume
          [axisRay, { axisRay with org := ⟨1 / 4, 1, -1⟩ }] none)).map
          (fun o => o.result) = [[1, 1], [1, 1], [0, 0]] ∧
      ((∀ i : ℕ, [true, true][i]? = some true →
          (iterateInterval [true, true] (initIntervalIterator [true, true] cubeVolume
            [axisRay, { axisRay with org := ⟨1 / 4, 1, -1⟩ }] none)).result.getD i 0 = 1) ∨
        (∀ i : ℕ, [true, true][i]? = some true →
          (iterateInterval [true, true] (initIntervalIterator [true, true] cubeVolume
            [axisRay, { axisRay with org := ⟨1 / 4, 1, -1⟩ }] none)).result.getD i 0 = 0)) :=
  ⟨by decide!, by decide!,
    lane_uniformity cubeVolume (by decide!) 0 ⊤ [true, true]
      [axisRay, { axisRay with org := ⟨1 / 4, 1, -1⟩ }]
      (fun i hi => by
        match i, hi with
        | 0, _ => exact ⟨_, rfl, by decide!⟩
        | 1, _ => exact ⟨_, rfl, by decide!⟩
        | i + 2, hi => simp at hi)
      1 (iterateInterval [true, true]
        (initIntervalIterator [true, true] cubeVolume
          [axisRay, { axisRay with org := ⟨1 / 4, 1, -1⟩ }] none))
      (by simp [iterateCalls])⟩

/-! ## Weak monotonicity, with or without a selector -/

theorem StructuredVolume_commit_keeps {v v1 : StructuredRegularVolume}
    (h : StructuredVolume_commit v = Except.ok v1) :
    v1.paramVoxelData = v.paramVoxelData ∧ v1.ispcEquivalent = v.ispcEquivalent ∧
      v1.voxelData = v.voxelData := by
  unfold StructuredVolume_commit at h
  split at h
  · injection h with h
    subst h
    exact ⟨rfl, rfl, rfl⟩
  · exact Except.noConfusion h

/-- C10. For every structured-regular volume on which no `voxelData` parameter
is set, `commit` ends with an error (the exception "no voxelData set on
volume" once the base-class commit has passed), it makes no call into the ISPC
side (no object is constructed or set, no accelerator is created and no build
task runs), and the ISPC-side handle is what it was. -/
theorem commit_without_voxelData (env : Ispc) (v : StructuredRegularVolume)
    (h : v.paramVoxelData = none) :
    (v.commit env).error ≠ none ∧
      (∀ v1, StructuredVolume_commit v = Except.ok v1 →
        (v.commit env).error = some "no voxelData set on volume") ∧
      (v.commit env).calls = [] ∧
      (v.commit env).volume.ispcEquivalent = v.ispcEquivalent := by
  unfold StructuredRegularVolume.commit
  cases hb : StructuredVolume_commit v with
  | error e => exact ⟨by simp, fun v1 h1 => Except.noConfusion h1, rfl, rfl⟩
  | ok v1 =>
    obtain ⟨hp, hi, _⟩ := StructuredVolume_commit_keeps hb
    have hnone : v1.paramVoxelData = none := by rw [hp, h]
    dsimp only
    simp only [hnone]
    simp [hi]

/-- Witness of C10: a new volume with dimensions, origin and spacing set and no
`voxelData`. -/
theorem commit_without_voxelData_witness :
    noDataVolume.paramVoxelData = none ∧
      noDataVolume.commit okIspc =
        { error := some "no voxelData set on volume"
          volume := { noDataVolume with dimensions := ⟨2, 2, 2⟩, gridSpacing := ⟨1, 1, 1⟩ }
          calls := [] } ∧
      (noDataVolume.commit okIspc).error ≠ none ∧
      (noDataVolume.commit okIspc).calls = [] :=
  ⟨rfl, by decide!, (commit_without_voxelData okIspc noDataVolume rfl).1,
    (commit_without_voxelData okIspc noDataVolume rfl).2.2.1⟩

/-! ## Value range of a macrocell -/

/-- Between the entry into the box and the exit from it the ray lies in the
bounding box, along every axis. -/
theorem point_in_slab (V : Volume) (r : Ray) (t : ℚ) (a : Axis)
    (h1 : (V.slab r a).1 ≤ ((t : ℚ) : ERat)) (h2 : ((t : ℚ) : ERat) ≤ (V.slab r a).2) :
    V.bboxLower a ≤ r.point t a ∧ r.point t a ≤ V.bboxUpper a := by
  unfold Volume.slab slab at h1 h2
  unfold Ray.point
  by_cases hd : 0 < r.dir.get a
  · rw [if_pos hd] at h1 h2
    have e1 := erat_le.mp h1
    have e2 := erat_le.mp h2
    rw [div_le_iff₀ hd] at e1
    rw [le_div_iff₀ hd] at e2
    constructor <;> linarith
  · by_cases hn : r.dir.get a < 0
    · rw [if_neg hd, if_pos hn] at h1 h2
      have e1 := erat_le.mp h1
      have e2 := erat_le.mp h2
      rw [div_le_iff_of_neg hn] at e1
      rw [le_div_iff_of_neg hn] at e2
      constructor <;> linarith
    · have h0 : r.dir.get a = 0 := le_antisymm (not_lt.mp hd) (not_lt.mp hn)
      rw [if_neg hd, if_neg hn] at h2
      by_cases hin : V.bboxLower a ≤ r.org.get a ∧ r.org.get a ≤ V.bboxUpper a
      · rw [h0, mul_zero, add_zero]
        exact hin
      · rw [if_neg hin] at h2
        exact absurd (le_bot_iff.mp h2) (by simp)

/-! ## Soundness of the value range -/

/-- C12, counterexample. With the base-class commit succeeding, a selector whose
only range has `lo > hi` and a new selector, which has no ranges, both commit
without error. -/
theorem selector_commit_counterexample :
    ((2 : ℚ) > 1 ∧
      SamplesMask.commit (Except.ok ()) ⟨[⟨2, 1⟩]⟩ = Except.ok ⟨[⟨2, 1⟩]⟩) ∧
    SamplesMask.new.ranges = [] ∧
    SamplesMask.commit (Except.ok ()) SamplesMask.new = Except.ok SamplesMask.new :=
  ⟨⟨by norm_num, rfl⟩, rfl, rfl⟩

/-- C12, amended. `SamplesMask::commit` looks at no range: it fails exactly when
the base-class commit fails, with that error, whatever the ranges are, and a
commit that succeeds leaves the selector as it was. -/
theorem selector_commit_ignores_ranges (m : Except String Unit) (s : SamplesMask) :
    (∀ e, SamplesMask.commit m s = Except.error e ↔ m = Except.error e) ∧
    (∀ s2, SamplesMask.commit m s = Except.ok s2 ↔ m = Except.ok () ∧ s2 = s) := by
  cases m with
  | error e0 =>
    refine ⟨fun e => ?_, fun s2 => ?_⟩
    · simp [SamplesMask.commit]
    · simp [SamplesMask.commit]
  | ok u =>
    refine ⟨fun e => ?_, fun s2 => ?_⟩
    · simp [SamplesMask.commit]
    · simp [SamplesMask.commit, eq_comm]

theorem mem_insertRange (r t : ValueRange) : ∀ l : List ValueRange,
    t ∈ insertRange r l ↔ t = r ∨ t ∈ l
  | [] => by simp [insertRange]
  | s :: rest => by
    unfold insertRange
    by_cases h : r.lower ≤ s.lower
    · rw [if_pos h]
      simp
    · rw [if_neg h, List.mem_cons, mem_insertRange r t rest, List.mem_cons]
      constructor
      · rintro (h1 | h1 | h1)
        · exact Or.inr (Or.inl h1)
        · exact Or.inl h1
        · exact Or.inr (Or.inr h1)
      · rintro (h1 | h1 | h1)
        · exact Or.inr (Or.inl h1)
        · exact Or.inl h1
        · exact Or.inr (Or.inr h1)

theorem mem_sortRanges (t : ValueRange) : ∀ l : List ValueRange, t ∈ sortRanges l ↔ t ∈ l
  | [] => Iff.rfl
  | r :: rest => by
    unfold sortRanges
    rw [mem_insertRange, mem_sortRanges t rest, List.mem_cons]

theorem insertRange_sorted (r : ValueRange) : ∀ l : List ValueRange,
    l.Pairwise (fun a b => a.lower ≤ b.lower) →
      (insertRange r l).Pairwise (fun a b => a.lower ≤ b.lower)
  | [], _ => by simp [insertRange]
  | s :: rest, h => by
    unfold insertRange
    obtain ⟨h1, h2⟩ := List.pairwise_cons.mp h
    by_cases hc : r.lower ≤ s.lower
    · rw [if_pos hc]
      refine List.pairwise_cons.mpr ⟨fun t ht => ?_, h⟩
      rcases List.mem_cons.mp ht with rfl | ht
      · exact hc
      · exact le_trans hc (h1 t ht)
    · rw [if_neg hc]
      refine List.pairwise_cons.mpr ⟨fun t ht => ?_, insertRange_sorted r rest h2⟩
      rcases (mem_insertRange r t rest).mp ht with rfl | ht
      · exact le_of_lt (not_le.mp hc)
      · exact h1 t ht

theorem sortRanges_sorted : ∀ l : List ValueRange,
    (sortRanges l).Pairwise (fun a b => a.lower ≤ b.lower)
  | [] => List.Pairwise.nil
  | r :: rest => insertRange_sorted r _ (sortRanges_sorted rest)

/-- What coalescing into `cur` gives for ranges ordered by their lower ends, none
of which starts before `cur`: a first range that starts where `cur` starts and
ends at or after its end, followed by ranges each of which starts after the end
of every range before it; no range starts before `cur`. -/
theorem coalesceInto_spec : ∀ (rest : List ValueRange) (cur : ValueRange),
    (cur :: rest).Pairwise (fun a b => a.lower ≤ b.lower) →
    ∃ h tl, coalesceInto cur rest = h :: tl ∧ h.lower = cur.lower ∧ cur.upper ≤ h.upper ∧
      (∀ t ∈ tl, h.upper < t.lower ∧ cur.lower ≤ t.lower) ∧
      tl.Pairwise (fun a b => a.upper < b.lower) ∧
      tl.Pairwise (fun a b => a.lower ≤ b.lower)
  | [], cur, _ => ⟨cur, [], rfl, rfl, le_refl _, fun t ht => absurd ht (List.not_mem_nil t),
      List.Pairwise.nil, List.Pairwise.nil⟩
  | s :: rest, cur, hs => by
    obtain ⟨h1, h2⟩ := List.pairwise_cons.mp hs
    obtain ⟨h3, h4⟩ := List.pairwise_cons.mp h2
    unfold coalesceInto
    by_cases hc : s.lower ≤ cur.upper
    · rw [if_pos hc]
      have hs2 : ((⟨cur.lower, max cur.upper s.upper⟩ : ValueRange) :: rest).Pairwise
          (fun a b => a.lower ≤ b.lower) :=
        List.pairwise_cons.mpr ⟨fun t ht => h1 t (List.mem_cons_of_mem _ ht), h4⟩
      obtain ⟨h, tl, e, g1, g2, g3, g4, g5⟩ := coalesceInto_spec rest _ hs2
      exact ⟨h, tl, e, g1, le_trans (le_max_left _ _) g2, g3, g4, g5⟩
    · rw [if_neg hc]
      obtain ⟨h, tl, e, g1, g2, g3, g4, g5⟩ := coalesceInto_spec rest s h2
      have hlt : cur.upper < s.lower := not_le.mp hc
      have hcs : cur.lower ≤ s.lower := h1 s (List.mem_cons_self _ _)
      refine ⟨cur, h :: tl, by rw [e], rfl, le_refl _, fun t ht => ?_, ?_, ?_⟩
      · rcases List.mem_cons.mp ht with rfl | ht
        · exact ⟨by rw [g1]; exact hlt, by rw [g1]; exact hcs⟩
        · exact ⟨lt_of_lt_of_le hlt (g3 t ht).2, le_trans hcs (g3 t ht).2⟩
      · exact List.pairwise_cons.mpr ⟨fun t ht => (g3 t ht).1, g4⟩
      · refine List.pairwise_cons.mpr ⟨fun t ht => ?_, g5⟩
        rw [g1]
        exact (g3 t ht).2

/-- Coalescing ranges ordered by their lower ends keeps the values covered. -/
theorem coalesceInto_cover (v : ℚ) : ∀ (rest : List ValueRange) (cur : ValueRange),
    (cur :: rest).Pairwise (fun a b => a.lower ≤ b.lower) →
    (rangesCover (coalesceInto cur rest) v ↔ rangesCover (cur :: rest) v)
  | [], cur, _ => Iff.rfl
  | s :: rest, cur, hs => by
    obtain ⟨h1, h2⟩ := List.pairwise_cons.mp hs
    obtain ⟨h3, h4⟩ := List.pairwise_cons.mp h2
    have hcs : cur.lower ≤ s.lower := h1 s (List.mem_cons_self _ _)
    unfold coalesceInto
    by_cases hc : s.lower ≤ cur.upper
    · rw [if_pos hc]
      have hs2 : ((⟨cur.lower, max cur.upper s.upper⟩ : ValueRange) :: rest).Pairwise
          (fun a b => a.lower ≤ b.lower) :=
        List.pairwise_cons.mpr ⟨fun t ht => h1 t (List.mem_cons_of_mem _ ht), h4⟩
      rw [coalesceInto_cover v rest _ hs2]
      unfold rangesCover
      simp only [List.mem_cons, exists_eq_or_imp]
      constructor
      · rintro (⟨a1, a2⟩ | h5)
        · rcases le_max_iff.mp a2 with a3 | a3
          · exact Or.inl ⟨a1, a3⟩
          · by_cases hv : v ≤ cur.upper
            · exact Or.inl ⟨a1, hv⟩
            · exact Or.inr (Or.inl ⟨le_trans hc (le_of_lt (not_le.mp hv)), a3⟩)
        · exact Or.inr (Or.inr h5)
      · rintro (⟨a1, a2⟩ | ⟨a1, a2⟩ | h5)
        · exact Or.inl ⟨a1, le_trans a2 (le_max_left _ _)⟩
        · exact Or.inl ⟨le_trans hcs a1, le_trans a2 (le_max_right _ _)⟩
        · exact Or.inr h5
    · rw [if_neg hc]
      have ih := coalesceInto_cover v rest s h2
      unfold rangesCover at ih ⊢
      simp only [List.mem_cons, exists_eq_or_imp] at ih ⊢
      rw [ih]

theorem coalesceRanges_spec (l : List ValueRange)
    (hs : l.Pairwise (fun a b => a.lower ≤ b.lower)) :
    (coalesceRanges l).Pairwise (fun a b => a.upper < b.lower) ∧
    (coalesceRanges l).Pairwise (fun a b => a.lower ≤ b.lower) ∧
    ∀ v, rangesCover (coalesceRanges l) v ↔ rangesCover l v := by
  cases l with
  | nil => exact ⟨List.Pairwise.nil, List.Pairwise.nil, fun _ => Iff.rfl⟩
  | cons r rest =>
    obtain ⟨h, tl, e, g1, g2, g3, g4, g5⟩ := coalesceInto_spec rest r hs
    refine ⟨?_, ?_, fun v => coalesceInto_cover v rest r hs⟩
    · show (coalesceInto r rest).Pairwise _
      rw [e]
      exact List.pairwise_cons.mpr ⟨fun t ht => (g3 t ht).1, g4⟩
    · show (coalesceInto r rest).Pairwise _
      rw [e]
      refine List.pairwise_cons.mpr ⟨fun t ht => ?_, g5⟩
      rw [g1]
      exact (g3 t ht).2

/-- C13. After a successful commit, for every list of ranges given to
`setRanges`, the stored ranges are sorted ascending (by their lower ends) and
pairwise disjoint, every range ending before each later one starts, so that
overlapping input ranges have been coalesced, and they cover exactly the same
scalar values as the ranges given. -/
theorem stored_ranges_normalised (m : Except String Unit) (s s2 : SamplesMask)
    (rs : List ValueRange)
    (h : SamplesMask.commit m (s.setRanges rs) = Except.ok s2) :
    s2.ranges.Pairwise (fun a b => a.lower ≤ b.lower) ∧
    s2.ranges.Pairwise (fun a b => a.upper < b.lower) ∧
    rangesAscending s2.ranges ∧
    (∀ v, rangesCover s2.ranges v ↔ rangesCover rs v) := by
  have h2 : s2 = s.setRanges rs := by
    cases m with
    | error e0 => simp [SamplesMask.commit] at h
    | ok u => simpa [SamplesMask.commit, eq_comm] using h
  have h3 : s2.ranges = coalesceRanges (sortRanges rs) := by rw [h2]; rfl
  obtain ⟨g1, g2, g3⟩ := coalesceRanges_spec (sortRanges rs) (sortRanges_sorted rs)
  rw [h3]
  refine ⟨g2, g1, List.Pairwise.chain' g1, fun v => ?_⟩
  rw [g3 v]
  unfold rangesCover
  constructor
  · rintro ⟨r, hr, hv⟩
    exact ⟨r, (mem_sortRanges r rs).mp hr, hv⟩
  · rintro ⟨r, hr, hv⟩
    exact ⟨r, (mem_sortRanges r rs).mpr hr, hv⟩

/-- Witness of C13: three ranges given out of order, two of them overlapping. -/
theorem stored_ranges_witness :
    SamplesMask.new.setRanges [⟨3, 4⟩, ⟨1, 2⟩, ⟨3 / 2, 5 / 2⟩] = ⟨[⟨1, 5 / 2⟩, ⟨3, 4⟩]⟩ ∧
    rangesAscending [⟨1, 5 / 2⟩, ⟨3, 4⟩] :=
  ⟨by decide!,
    (stored_ranges_normalised (Except.ok ()) SamplesMask.new ⟨[⟨1, 5 / 2⟩, ⟨3, 4⟩]⟩
      [⟨3, 4⟩, ⟨1, 2⟩, ⟨3 / 2, 5 / 2⟩] (congrArg Except.ok (by decide!))).2.2.1⟩

/-- C14. `intersect` reports a hit exactly when the computed range has
`lower < upper`; a range with `lower = upper` or `lower > upper` is a miss, and
so is one with a NaN bound.  A hit writes the range to the ray, a miss leaves the
ray as it was. -/
theorem intersect_hit_iff (w : VolleyVolumeWrapper) (ray : WrapperRay) :
    ((w.intersect ray).1 = true ↔
      ∃ lo hi : ERat, w.vlyIntersectVolume ray.org ray.dir = (FloatVal.val lo, FloatVal.val hi)
        ∧ lo < hi) ∧
    (∀ lo hi : ERat, w.vlyIntersectVolume ray.org ray.dir = (FloatVal.val lo, FloatVal.val hi) →
      (lo = hi ∨ hi < lo) → (w.intersect ray).1 = false) ∧
    ((w.intersect ray).1 = true →
      (w.intersect ray).2 = { ray with t0 := (w.vlyIntersectVolume ray.org ray.dir).1,
                                       t := (w.vlyIntersectVolume ray.org ray.dir).2 }) ∧
    ((w.intersect ray).1 = false → (w.intersect ray).2 = ray) := by
  have key : (w.intersect ray).1 = FloatVal.lt (w.vlyIntersectVolume ray.org ray.dir).1
      (w.vlyIntersectVolume ray.org ray.dir).2 := by
    unfold VolleyVolumeWrapper.intersect
    dsimp only
    split <;> simp_all
  refine ⟨?_, ?_, ?_, ?_⟩
  · rw [key]
    rcases hr : w.vlyIntersectVolume ray.org ray.dir with ⟨a, b⟩
    cases a <;> cases b <;> simp [FloatVal.lt]
    rename_i x y
    exact ⟨fun h => ⟨x, y, ⟨rfl, rfl⟩, h⟩, fun ⟨_, _, ⟨h1, h2⟩, h⟩ => h1 ▸ h2 ▸ h⟩
  · intro lo hi hr hc
    rw [key, hr]
    simp only [FloatVal.lt, decide_eq_false_iff_not, not_lt]
    rcases hc with h | h
    · exact h ▸ le_refl _
    · exact le_of_lt h
  · intro h
    unfold VolleyVolumeWrapper.intersect at h ⊢
    dsimp only at h ⊢
    split at h
    · rename_i hc; simp only [if_pos hc]
    · exact absurd h (by simp)
  · intro h
    unfold VolleyVolumeWrapper.intersect at h ⊢
    dsimp only at h ⊢
    split at h
    · exact absurd h (by simp)
    · rename_i hc; simp only [if_neg hc]

/-- C15. `computeSamples` gives one value per point, in order, and the value for
a point is the one `computeSample` gives for that point. -/
theorem computeSamples_eq_map (w : VolleyVolumeWrapper) (garbage : ℚ) (ps : List (Vec3 ℚ)) :
    w.computeSamples ps = ps.map (w.computeSample garbage) ∧
    (w.computeSamples ps).length = ps.length := by
  have h1 : ∀ p, w.computeSample garbage p = w.sampler w.vlySamplingType p := by
    intro p
    simp [VolleyVolumeWrapper.computeSample, vlySampleVolume]
  have h2 : w.computeSamples ps = ps.map (w.sampler w.vlySamplingType) := by
    simp [VolleyVolumeWrapper.computeSamples, vlySampleVolume]
  refine ⟨?_, ?_⟩
  · rw [h2]
    exact List.map_congr_left fun p _ => (h1 p).symm
  · rw [h2, List.length_map]

/-- C16. The iterator state is 512 bytes aligned to 16 for width 4, 1024 bytes
aligned to 32 for width 8, 2048 bytes aligned to 64 for width 16, and 2048 bytes
aligned to 64 for the scalar iterator. -/
theorem iterator_state_layout :
    iteratorStateLayout 4 = some (512, 16) ∧ iteratorStateLayout 8 = some (1024, 32) ∧
    iteratorStateLayout 16 = some (2048, 64) ∧ iteratorStateLayout 1 = some (2048, 64) ∧
    (ITERATOR_INTERNAL_STATE_SIZE_4 = 512 ∧ ITERATOR_INTERNAL_STATE_ALIGNMENT_4 = 16) ∧
    (ITERATOR_INTERNAL_STATE_SIZE_8 = 1024 ∧ ITERATOR_INTERNAL_STATE_ALIGNMENT_8 = 32) ∧
    (ITERATOR_INTERNAL_STATE_SIZE_16 = 2048 ∧ ITERATOR_INTERNAL_STATE_ALIGNMENT_16 = 64) ∧
    (ITERATOR_INTERNAL_STATE_SIZE = 2048 ∧ ITERATOR_INTERNAL_STATE_ALIGNMENT = 64) := by
  decide

/-! ## Commit: the size of the voxel buffer -/

/-- For a buffer of fewer than `2 ^ 63` items the size test of `commit` is the
inequality of the item count and `longProduct`. -/
theorem sizeMismatch_iff (size : ℕ) (d : Vec3 ℤ) (h : size < 2 ^ 63) :
    sizeMismatch size d ↔ (size : ℤ) ≠ longProduct d := by
  unfold sizeMismatch longProduct
  generalize d.x * d.y * d.z = p
  have h2 : (size : ℤ) < 2 ^ 63 := by exact_mod_cast h
  constructor
  · intro hm he
    exact hm (by rw [he])
  · intro hn hm
    apply hn
    omega

/-- A product inside the signed 64-bit range is not changed by `longProduct`. -/
theorem longProduct_exact (d : Vec3 ℤ) (h1 : -2 ^ 63 ≤ d.x * d.y * d.z)
    (h2 : d.x * d.y * d.z < 2 ^ 63) : longProduct d = d.x * d.y * d.z := by
  unfold longProduct
  generalize d.x * d.y * d.z = p at h1 h2 ⊢
  omega

/-- The base-class commit promotes the staged dimensions. -/
theorem StructuredVolume_commit_dimensions {v v1 : StructuredRegularVolume}
    (h : StructuredVolume_commit v = Except.ok v1) :
    v.paramDimensions = some v1.dimensions := by
  unfold StructuredVolume_commit at h
  split at h
  · rename_i d o s h1 h2 h3
    injection h with h
    subst h
    exact h1
  · exact Except.noConfusion h

/-- The volume a commit without error leaves behind holds the staged buffer and
the dimensions the base-class commit promoted. -/
theorem commit_ok_fields (env : Ispc) (v v1 : StructuredRegularVolume) (d : Data)
    (hb : StructuredVolume_commit v = Except.ok v1) (hd : v.paramVoxelData = some d)
    (hok : (v.commit env).error = none) :
    ¬ sizeMismatch d.size v1.dimensions ∧ (v.commit env).volume.voxelData = some d ∧
      (v.commit env).volume.dimensions = v1.dimensions := by
  obtain ⟨hp, _, _⟩ := StructuredVolume_commit_keeps hb
  have hsome : v1.paramVoxelData = some d := by rw [hp, hd]
  unfold StructuredRegularVolume.commit at hok ⊢
  rw [hb] at hok ⊢
  dsimp only at hok ⊢
  simp only [hsome] at hok ⊢
  by_cases hm : sizeMismatch d.size v1.dimensions
  · simp [hm] at hok
  · refine ⟨hm, ?_⟩
    simp only [if_neg hm] at hok ⊢
    cases hi : v1.ispcEquivalent with
    | some handle =>
      simp only [hi, commitSet] at hok ⊢
      cases hs : env.setSucceeds <;> simp [hs] at hok ⊢
    | none =>
      simp only [hi] at hok ⊢
      cases hc : env.constructed with
      | none => simp [hc] at hok
      | some handle =>
        simp only [hc, commitSet] at hok ⊢
        cases hs : env.setSucceeds <;> simp [hs] at hok ⊢

/-- C11. For every volume on which `voxelData` is set (a buffer of fewer than
`2 ^ 63` items), `commit` ends with an error whenever the item count of the
buffer differs from the long product of the staged dimensions: the error is
"incorrect voxelData size for provided volume dimensions" once the base-class
commit has passed, and no call into the ISPC side is made.  Equivalently, after
every commit without error the stored buffer has `ux * uy * uz` items (the long
product, which is the plain product inside the signed 64-bit range). -/
theorem commit_size_check (env : Ispc) (v : StructuredRegularVolume) (d : Data)
    (hd : v.paramVoxelData = some d) (hsz : d.size < 2 ^ 63) :
    (∀ dims, v.paramDimensions = some dims → (d.size : ℤ) ≠ longProduct dims →
      (v.commit env).error ≠ none ∧ (v.commit env).calls = [] ∧
      (∀ v1, StructuredVolume_commit v = Except.ok v1 → (v.commit env).error =
        some "incorrect voxelData size for provided volume dimensions")) ∧
    ((v.commit env).error = none →
      (v.commit env).volume.voxelData = some d ∧
      (d.size : ℤ) = longProduct (v.commit env).volume.dimensions ∧
      v.paramDimensions = some (v.commit env).volume.dimensions) ∧
    (∀ dims : Vec3 ℤ, -2 ^ 63 ≤ dims.x * dims.y * dims.z → dims.x * dims.y * dims.z < 2 ^ 63 →
      longProduct dims = dims.x * dims.y * dims.z) := by
  refine ⟨?_, ?_, longProduct_exact⟩
  · intro dims hdims hne
    cases hb : StructuredVolume_commit v with
    | error e =>
      unfold StructuredRegularVolume.commit
      rw [hb]
      exact ⟨by simp, rfl, fun v1 h1 => Except.noConfusion h1⟩
    | ok v1 =>
      obtain ⟨hp, _, _⟩ := StructuredVolume_commit_keeps hb
      have hsome : v1.paramVoxelData = some d := by rw [hp, hd]
      have hdim : dims = v1.dimensions :=
        Option.some.inj (hdims.symm.trans (StructuredVolume_commit_dimensions hb))
      have hm : sizeMismatch d.size v1.dimensions :=
        (sizeMismatch_iff _ _ hsz).mpr (hdim ▸ hne)
      unfold StructuredRegularVolume.commit
      rw [hb]
      dsimp only
      simp only [hsome, if_pos hm]
      simp
  · intro hok
    cases hb : StructuredVolume_commit v with
    | error e =>
      unfold StructuredRegularVolume.commit at hok
      rw [hb] at hok
      simp at hok
    | ok v1 =>
      obtain ⟨hm, hv, hdim⟩ := commit_ok_fields env v v1 d hb hd hok
      refine ⟨hv, ?_, ?_⟩
      · rw [hdim]
        exact not_not.mp fun hne => hm ((sizeMismatch_iff _ _ hsz).mpr hne)
      · rw [hdim]
        exact StructuredVolume_commit_dimensions hb

/-- Witness of C11: seven items for dimensions `(2, 2, 2)` are refused, eight are
accepted. -/
theorem commit_size_check_witness :
    (shortDataVolume.paramVoxelData = some ⟨List.replicate 7 0, 0⟩ ∧
      (shortDataVolume.commit okIspc).error =
        some "incorrect voxelData size for provided volume dimensions" ∧
      (shortDataVolume.commit okIspc).error ≠ none) ∧
    (dataVolume.commit okIspc).error = none ∧
    (Data.size ⟨List.replicate 8 0, 0⟩ : ℤ) = longProduct (dataVolume.commit okIspc).volume.dimensions :=
  ⟨⟨rfl, by decide!,
    ((commit_size_check okIspc shortDataVolume ⟨List.replicate 7 0, 0⟩ rfl (by decide)).1
      ⟨2, 2, 2⟩ rfl (by decide)).1⟩,
    by decide!,
    ((commit_size_check okIspc dataVolume ⟨List.replicate 8 0, 0⟩ rfl (by decide)).2.1
      (by decide!)).2.1⟩

/-! ## Bounding box and rays that give no interval -/

/-- C17, counterexample. For 42 voxels per axis, origin 0 and spacing
`1.f / (42 - 1.f)`, single precision gives the upper corner
`41 * fl(1/41) = 16777215 / 16777216` (0.99999994), not 1: the bounding box is not
exactly the unit cube. -/
theorem bounding_box_float_counterexample :
    (unitGrid 42).Committed ∧ (unitGrid 42).dims = ⟨42, 42, 42⟩ ∧
    (unitGrid 42).origin = ⟨0, 0, 0⟩ ∧
    (unitGrid 42).spacing.x = float32 (1 / ((42 : ℚ) - 1)) ∧
    (unitGrid 42).bboxUpperF32 Axis.x = 16777215 / 16777216 ∧
    (unitGrid 42).bboxUpperF32 Axis.x ≠ 1 :=
  ⟨⟨List.length_replicate _ _, by decide!, by decide!, by decide!, by decide⟩, rfl, rfl, rfl,
    by decide!, by decide!⟩

/-- The bounding box of the test's grid in single precision. -/
theorem unitGrid_test_upper (a : Axis) :
    (unitGrid 128).bboxUpperF32 a = 1 ∧ (unitGrid 128).bboxLower a = 0 := by
  cases a <;> exact ⟨by decide!, rfl⟩

/-- C17, amended. The bounding box of a volume is
`[origin, origin + (dims - 1) * spacing]` componentwise.  For a committed volume
with dimensions `(N, N, N)`, origin `(0, 0, 0)` and spacing `1 / (N - 1)` it is
exactly the unit cube `[(0, 0, 0), (1, 1, 1)]` in exact arithmetic; in single
precision the upper corner is `(N - 1) * fl(1 / (N - 1))`, which is exactly 1 for
the 128 voxels per axis of the iterator test. -/
theorem bounding_box_extent (V : Volume) (N : ℕ) :
    V.boundingBox =
      (V.origin,
        ⟨V.origin.x + ((V.dims.x : ℚ) - 1) * V.spacing.x,
          V.origin.y + ((V.dims.y : ℚ) - 1) * V.spacing.y,
          V.origin.z + ((V.dims.z : ℚ) - 1) * V.spacing.z⟩) ∧
    (V.Committed → V.dims = ⟨N, N, N⟩ → V.origin = ⟨0, 0, 0⟩ →
      V.spacing = ⟨1 / ((N : ℚ) - 1), 1 / ((N : ℚ) - 1), 1 / ((N : ℚ) - 1)⟩ →
      V.boundingBox = (⟨0, 0, 0⟩, ⟨1, 1, 1⟩)) ∧
    (∀ a, (unitGrid 128).bboxUpperF32 a = 1 ∧ (unitGrid 128).bboxLower a = 0) := by
  refine ⟨rfl, fun hV hd ho hs => ?_, unitGrid_test_upper⟩
  have hpos : 0 < 1 / ((N : ℚ) - 1) := by
    have := hV.2.1
    rw [hs] at this
    exact this
  have hne : ((N : ℚ) - 1) ≠ 0 := by
    intro h0
    rw [h0] at hpos
    simp at hpos
  have h1 : ((N : ℚ) - 1) * (1 / ((N : ℚ) - 1)) = 1 := mul_one_div_cancel hne
  simp only [Volume.boundingBox, Volume.bboxLower, Volume.bboxUpper, Vec3.get, hd, ho, hs, h1,
    zero_add]

/-- Witness of C17: 5 voxels per axis with spacing 1/4. -/
theorem bounding_box_witness :
    cubeVolume.Committed ∧ cubeVolume.boundingBox = (⟨0, 0, 0⟩, ⟨1, 1, 1⟩) :=
  ⟨by decide!, (bounding_box_extent cubeVolume 5).2.1 (by decide!) rfl rfl (by decide!)⟩

/-- The ray of scenario S5 is outside the cube at every parameter. -/
theorem outsideRay_misses (t : ℚ) : ¬ cubeVolume.inBBox (outsideRay.pointAt t) := by
  intro hin
  have h2 : cubeVolume.bboxLower Axis.y ≤ (outsideRay.pointAt t).y := hin.2.1.1
  have hp : (outsideRay.pointAt t).y = -10 := by
    simp [Ray.pointAt, Ray.point, outsideRay, Vec3.get]
  have hy : cubeVolume.bboxLower Axis.y = 0 := rfl
  rw [hp, hy] at h2
  linarith

/-- A lane that is in the done state gets result 0 and no interval in every
later call. -/
theorem lane_done_silent (valid2 : List Bool) (st : IteratorState) (i : ℕ)
    (hdone : st.lanes.getD i LaneState.done = LaneState.done) (n : ℕ) :
    (∀ o ∈ iterateCalls valid2 n st,
      o.result.getD i 0 = 0 ∧ o.intervals.getD i none = none) ∧
    emitted (iterateCalls valid2 n st) i = [] := by
  have hl := iterateCalls_lane valid2 i n st
  rw [hdone, laneCalls_exhausted _ _ _ n LaneState.done rfl] at hl
  refine ⟨fun o ho => ?_, ?_⟩
  · have hm : (fun o : IterateOut => o.intervals.getD i none) o ∈
        List.replicate n (none : Option Interval) := by
      rw [← hl]
      exact List.mem_map_of_mem _ ho
    have hnone : o.intervals.getD i none = none := List.eq_of_mem_replicate hm
    refine ⟨?_, hnone⟩
    obtain ⟨st2, rfl⟩ := iterateCalls_mem valid2 n _ o ho
    exact (result_flag_getD
      (List.zipWith (iterateLane st2.volume st2.selector) valid2 st2.lanes) i).2.mpr hnone
  · rw [emitted_eq_lane, hdone, laneCalls_exhausted _ _ _ n LaneState.done rfl]
    exact filterMap_replicate_none n

/-- A ray whose range is reversed misses the box. -/
theorem intersect_bbox_reversed (V : Volume) (r : Ray) (h : r.t1 < r.t0) :
    intersect_bbox V r = none := by
  unfold intersect_bbox
  rw [if_neg]
  intro hc
  have h1 : r.t0 ≤ max r.t0 (V.tBoxEnter r) := le_max_left _ _
  have h2 : min r.t1 (V.tBoxExit r) ≤ r.t1 := min_le_left _ _
  exact absurd (lt_of_le_of_lt h1 (lt_of_lt_of_le hc h2)) (not_lt.mpr (le_of_lt h))

/-- A lane that `init` does not leave done has a parameter within the ray's
range at which the ray is inside the bounding box. -/
theorem initLane_not_done (V : Volume) (b : Bool) (r : Ray)
    (h : initLane V b r ≠ LaneState.done) :
    ¬(r.dir.x = 0 ∧ r.dir.y = 0 ∧ r.dir.z = 0) ∧ r.t0 < r.t1 ∧
    ∃ t : ℚ, r.t0 ≤ ((t : ℚ) : ERat) ∧ ((t : ℚ) : ERat) ≤ r.t1 ∧ V.inBBox (r.pointAt t) := by
  rcases initLane_cases V b r with hd | ⟨e, exit, _, hz, hi, _⟩
  · exact absurd hd h
  · obtain ⟨h1, h2, h3⟩ := intersect_bbox_some hi
    have a1 : r.t0 ≤ ((e : ℚ) : ERat) := h1 ▸ le_max_left _ _
    have a2 : V.tBoxEnter r ≤ ((e : ℚ) : ERat) := h1 ▸ le_max_right _ _
    have a3 : ((e : ℚ) : ERat) ≤ r.t1 := le_trans (le_of_lt h3) (h2 ▸ min_le_left _ _)
    have a4 : ((e : ℚ) : ERat) ≤ V.tBoxExit r := le_trans (le_of_lt h3) (h2 ▸ min_le_right _ _)
    have hin : ∀ a, V.bboxLower a ≤ r.point e a ∧ r.point e a ≤ V.bboxUpper a := fun a =>
      point_in_slab V r e a (le_trans (tBoxEnter_ge_slab V r a) a2)
        (le_trans a4 (tBoxExit_le_slab V r a))
    refine ⟨hz, lt_of_le_of_lt a1 (lt_of_lt_of_le h3 (h2 ▸ min_le_left _ _)), e, a1, a3, ?_⟩
    exact ⟨hin Axis.x, hin Axis.y, hin Axis.z⟩

/-- C18. A ray with zero direction, or with `t0 > t1`, leaves its lane exhausted
immediately after `init`, wherever its origin lies and whatever the volume is:
every later `iterate` call reports 0 for the lane and gives it no interval, so
no interval is ever emitted.  (Both operations are total: there is no error
outcome.) -/
theorem degenerate_ray_exhausted (V : Volume) (sel : Option ValueSelector)
    (valid valid2 : List Bool) (rays : List Ray) (i : ℕ) (b : Bool) (r : Ray)
    (hv : valid[i]? = some b) (hr : rays[i]? = some r)
    (hdeg : (r.dir.x = 0 ∧ r.dir.y = 0 ∧ r.dir.z = 0) ∨ r.t1 < r.t0) :
    (initIntervalIterator valid V rays sel).lanes.getD i LaneState.done = LaneState.done ∧
    (LaneState.done).exhausted = true ∧
    ∀ n, (∀ o ∈ iterateCalls valid2 n (initIntervalIterator valid V rays sel),
        o.result.getD i 0 = 0 ∧ o.intervals.getD i none = none) ∧
      emitted (iterateCalls valid2 n (initIntervalIterator valid V rays sel)) i = [] := by
  have hdone : (initIntervalIterator valid V rays sel).lanes.getD i LaneState.done =
      LaneState.done := by
    rw [init_lane_eq V sel valid rays i b r hv hr]
    by_contra hc
    obtain ⟨hz, ht, _⟩ := initLane_not_done V b r hc
    rcases hdeg with h | h
    · exact hz h
    · exact absurd ht (not_lt.mpr (le_of_lt h))
  exact ⟨hdone, rfl, fun n => lane_done_silent valid2 _ i hdone n⟩

/-- Witness of C18: the ray of scenario S4, with zero direction and its origin
inside the cube. -/
theorem degenerate_ray_witness :
    (zeroRay.dir.x = 0 ∧ zeroRay.dir.y = 0 ∧ zeroRay.dir.z = 0) ∧
    cubeVolume.inBBox zeroRay.org ∧
    emitted (iterateCalls [true] 3 (initIntervalIterator [true] cubeVolume [zeroRay] none)) 0
      = [] :=
  ⟨by decide!, by decide!,
    ((degenerate_ray_exhausted cubeVolume none [true] [true] [zeroRay] 0 true zeroRay rfl rfl
      (Or.inl (by decide!))).2.2 3).2⟩

/-- C19. A ray that is outside the bounding box at every parameter of its
t-range leaves its lane exhausted immediately after `init`: every later
`iterate` call reports 0 for the lane and no interval is ever emitted.  The ray
from `(-10, -10, -10)` along `(-1, 0, 0)` is such a ray for the unit cube,
whatever its t-range. -/
theorem missing_ray_exhausted (V : Volume) (sel : Option ValueSelector)
    (valid valid2 : List Bool) (rays : List Ray) (i : ℕ) (b : Bool) (r : Ray)
    (hv : valid[i]? = some b) (hr : rays[i]? = some r)
    (hmiss : ∀ t : ℚ, r.t0 ≤ ((t : ℚ) : ERat) → ((t : ℚ) : ERat) ≤ r.t1 →
      ¬ V.inBBox (r.pointAt t)) :
    ((initIntervalIterator valid V rays sel).lanes.getD i LaneState.done = LaneState.done ∧
      (LaneState.done).exhausted = true ∧
      ∀ n, (∀ o ∈ iterateCalls valid2 n (initIntervalIterator valid V rays sel),
          o.result.getD i 0 = 0 ∧ o.intervals.getD i none = none) ∧
        emitted (iterateCalls valid2 n (initIntervalIterator valid V rays sel)) i = []) ∧
    ∀ (U : Volume) (q : Ray), U.boundingBox = (⟨0, 0, 0⟩, ⟨1, 1, 1⟩) →
      q.org = ⟨-10, -10, -10⟩ → q.dir = ⟨-1, 0, 0⟩ → ∀ t : ℚ, ¬ U.inBBox (q.pointAt t) := by
  have hdone : (initIntervalIterator valid V rays sel).lanes.getD i LaneState.done =
      LaneState.done := by
    rw [init_lane_eq V sel valid rays i b r hv hr]
    by_contra hc
    obtain ⟨_, _, t, h1, h2, h3⟩ := initLane_not_done V b r hc
    exact hmiss t h1 h2 h3
  refine ⟨⟨hdone, rfl, fun n => lane_done_silent valid2 _ i hdone n⟩, ?_⟩
  intro U q hU ho hd t hin
  have hy : U.bboxLower Axis.y = 0 := by
    have := congrArg (fun p : Vec3 ℚ × Vec3 ℚ => p.1.y) hU
    simpa [Volume.boundingBox] using this
  have h2 := hin.2.1.1
  rw [hy] at h2
  have hp : (q.pointAt t).y = -10 := by
    simp [Ray.pointAt, Ray.point, ho, hd, Vec3.get]
  rw [hp] at h2
  linarith

/-- Witness of C19: the ray of scenario S5 against the unit cube. -/
theorem missing_ray_witness :
    cubeVolume.boundingBox = (⟨0, 0, 0⟩, ⟨1, 1, 1⟩) ∧
    (initIntervalIterator [true] cubeVolume [outsideRay] none).lanes.getD 0 LaneState.done
      = LaneState.done ∧
    emitted (iterateCalls [true] 3 (initIntervalIterator [true] cubeVolume [outsideRay] none)) 0
      = [] :=
  ⟨by decide!,
    (missing_ray_exhausted cubeVolume none [true] [true] [outsideRay] 0 true outsideRay rfl rfl
      (fun t _ _ => outsideRay_misses t)).1.1,
    ((missing_ray_exhausted cubeVolume none [true] [true] [outsideRay] 0 true outsideRay rfl rfl
      (fun t _ _ => outsideRay_misses t)).1.2.2 3).2⟩

/-! ## Commit, its build tasks and the ISPC-side object -/

/-- The five ways a commit can go. -/
theorem commit_cases (env : Ispc) (v : StructuredRegularVolume) :
    (∃ e, StructuredVolume_commit v = Except.error e ∧
      v.commit env = { error := some e, volume := v, calls := [] }) ∨
    (∃ v1, StructuredVolume_commit v = Except.ok v1 ∧ v1.paramVoxelData = none ∧
      v.commit env = { error := some "no voxelData set on volume"
                       volume := { v1 with voxelData := none }, calls := [] }) ∨
    (∃ v1 d, StructuredVolume_commit v = Except.ok v1 ∧ v1.paramVoxelData = some d ∧
      sizeMismatch d.size v1.dimensions ∧
      v.commit env = { error := some "incorrect voxelData size for provided volume dimensions"
                       volume := { v1 with voxelData := some d }, calls := [] }) ∨
    (∃ v1 d, StructuredVolume_commit v = Except.ok v1 ∧ v1.paramVoxelData = some d ∧
      ¬ sizeMismatch d.size v1.dimensions ∧ v1.ispcEquivalent = none ∧ env.constructed = none ∧
      v.commit env =
        { error := some "could not create ISPC-side object for StructuredRegularVolume"
          volume := { v1 with voxelData := some d }, calls := [IspcCall.construct none] }) ∨
    (∃ v1 d handle, StructuredVolume_commit v = Except.ok v1 ∧ v1.paramVoxelData = some d ∧
      ¬ sizeMismatch d.size v1.dimensions ∧ v1.ispcEquivalent = some handle ∧
      v.commit env =
        commitSet env { v1 with voxelData := some d, ispcEquivalent := some handle } d handle []) ∨
    (∃ v1 d handle, StructuredVolume_commit v = Except.ok v1 ∧ v1.paramVoxelData = some d ∧
      ¬ sizeMismatch d.size v1.dimensions ∧ v1.ispcEquivalent = none ∧
      env.constructed = some handle ∧
      v.commit env =
        commitSet env { v1 with voxelData := some d, ispcEquivalent := some handle } d handle
          [IspcCall.construct (some handle)]) := by
  unfold StructuredRegularVolume.commit
  cases hb : StructuredVolume_commit v with
  | error e => exact Or.inl ⟨e, rfl, rfl⟩
  | ok v1 =>
    right
    dsimp only
    cases hd : v1.paramVoxelData with
    | none => exact Or.inl ⟨v1, rfl, hd, by simp only [hd]⟩
    | some d =>
      right
      dsimp only
      by_cases hm : sizeMismatch d.size v1.dimensions
      · exact Or.inl ⟨v1, d, rfl, hd, hm, by simp only [hd, if_pos hm]⟩
      · right
        rw [if_neg hm]
        cases hi : v1.ispcEquivalent with
        | some handle =>
          exact Or.inr (Or.inl ⟨v1, d, handle, rfl, hd, hm, hi, by simp only [hd]⟩)
        | none =>
          dsimp only
          cases hc : env.constructed with
          | none => exact Or.inl ⟨v1, d, rfl, hd, hm, hi, rfl, by simp only [hd, hi]⟩
          | some handle =>
            exact Or.inr (Or.inr ⟨v1, d, handle, rfl, hd, hm, hi, rfl, by simp only [hd]⟩)

theorem wrapInt32_of_fits (n : ℤ) (h0 : 0 ≤ n) (h1 : n < 2 ^ 31) : wrapInt32 n = n := by
  unfold wrapInt32
  omega

theorem buildTasks_append (xs ys : List IspcCall) :
    buildTasks (xs ++ ys) = buildTasks xs ++ buildTasks ys := by
  induction xs with
  | nil => rfl
  | cons c cs ih =>
    cases c <;> simp [buildTasks, ih]

theorem buildTasks_map_build (l : List ℕ) : buildTasks (l.map IspcCall.build) = l := by
  induction l with
  | nil => rfl
  | cons k ks ih => simp [buildTasks, ih]

/-- The build tasks of `buildAccelerator` are the indices below `numTasks`, the
`int` product of the bricks per dimension. -/
theorem buildTasks_buildAccelerator (env : Ispc) (handle : ℕ) :
    buildTasks (buildAccelerator env handle) =
      List.range (wrapInt32 (wrapInt32 (env.bricksPerDimension.x * env.bricksPerDimension.y) *
        env.bricksPerDimension.z)).toNat := by
  unfold buildAccelerator
  simp only [buildTasks]
  exact buildTasks_map_build _

/-- The `int` product of bricks per dimension is their product when that fits
in 31 bits. -/
theorem numTasks_of_fits (b : Vec3 ℤ) (hx : 0 ≤ b.x) (hy : 0 ≤ b.y) (hz : 0 ≤ b.z)
    (hfit : b.x * b.y * b.z < 2 ^ 31) :
    wrapInt32 (wrapInt32 (b.x * b.y) * b.z) = b.x * b.y * b.z := by
  have hxy : 0 ≤ b.x * b.y := mul_nonneg hx hy
  rcases eq_or_lt_of_le hz with h0 | hpos
  · rw [← h0, mul_zero, mul_zero]
    rfl
  · have h1 : b.x * b.y ≤ b.x * b.y * b.z := by
      have : (1 : ℤ) ≤ b.z := hpos
      nlinarith
    rw [wrapInt32_of_fits _ hxy (lt_of_le_of_lt h1 hfit)]
    exact wrapInt32_of_fits _ (mul_nonneg hxy hz) hfit

/-- The calls of a commit that ends without error: calls with no build task,
followed by those of `buildAccelerator`. -/
theorem commit_ok_calls (env : Ispc) (v : StructuredRegularVolume)
    (hok : (v.commit env).error = none) :
    ∃ (pre : List IspcCall) (handle : ℕ),
      (v.commit env).calls = pre ++ buildAccelerator env handle ∧ buildTasks pre = [] ∧
      (v.commit env).volume.ispcEquivalent = some handle := by
  rcases commit_cases env v with ⟨e, _, h⟩ | ⟨v1, _, _, h⟩ | ⟨v1, d, _, _, _, h⟩ |
    ⟨v1, d, _, _, _, _, _, h⟩ | ⟨v1, d, handle, _, _, _, _, h⟩ | ⟨v1, d, handle, _, _, _, _, _, h⟩
  · rw [h] at hok; exact absurd hok (by simp)
  · rw [h] at hok; exact absurd hok (by simp)
  · rw [h] at hok; exact absurd hok (by simp)
  · rw [h] at hok; exact absurd hok (by simp)
  · rw [h] at hok ⊢
    unfold commitSet at hok ⊢
    cases hs : env.setSucceeds
    · simp [hs] at hok
    · simp only [hs, if_true]
      exact ⟨[IspcCall.set handle d v1.dimensions v1.gridOrigin v1.gridSpacing true],
        handle, rfl, rfl, rfl⟩
  · rw [h] at hok ⊢
    unfold commitSet at hok ⊢
    cases hs : env.setSucceeds
    · simp [hs] at hok
    · simp only [hs, if_true]
      exact ⟨[IspcCall.construct (some handle),
        IspcCall.set handle d v1.dimensions v1.gridOrigin v1.gridSpacing true],
        handle, rfl, rfl, rfl⟩

/-- C21, counterexample. For an accelerator with `65536 x 65536 x 1` macrocells
the `int` product `numTasks` is 0, not 4294967296: `buildAccelerator` creates the
accelerator and runs no build task. -/
theorem build_tasks_counterexample :
    wideIspc.bricksPerDimension.x * wideIspc.bricksPerDimension.y *
        wideIspc.bricksPerDimension.z = 4294967296 ∧
      buildAccelerator wideIspc 1 = [IspcCall.createAccelerator 1] ∧
      buildTasks (buildAccelerator wideIspc 1) = [] :=
  ⟨by decide, by decide, by decide⟩

/-- C21, amended. For every accelerator with `(bx, by, bz)` macrocells per
dimension whose product `bx * by * bz` is below `2 ^ 31` (it fits the `int` it is
computed in), `buildAccelerator` runs the per-cell build for the task indices
`0 .. bx*by*bz - 1`, each exactly once, and for no other index; a commit that
ends without error runs exactly these build tasks. -/
theorem build_tasks_once (env : Ispc) (handle : ℕ)
    (hx : 0 ≤ env.bricksPerDimension.x) (hy : 0 ≤ env.bricksPerDimension.y)
    (hz : 0 ≤ env.bricksPerDimension.z)
    (hfit : env.bricksPerDimension.x * env.bricksPerDimension.y * env.bricksPerDimension.z
      < 2 ^ 31) :
    buildTasks (buildAccelerator env handle) =
      List.range (env.bricksPerDimension.x * env.bricksPerDimension.y *
        env.bricksPerDimension.z).toNat ∧
    (∀ k : ℕ, (buildTasks (buildAccelerator env handle)).count k =
      if (k : ℤ) < env.bricksPerDimension.x * env.bricksPerDimension.y *
        env.bricksPerDimension.z then 1 else 0) ∧
    (∀ v : StructuredRegularVolume, (v.commit env).error = none →
      buildTasks (v.commit env).calls =
        List.range (env.bricksPerDimension.x * env.bricksPerDimension.y *
          env.bricksPerDimension.z).toNat) := by
  have hn := numTasks_of_fits env.bricksPerDimension hx hy hz hfit
  have h1 : ∀ h, buildTasks (buildAccelerator env h) =
      List.range (env.bricksPerDimension.x * env.bricksPerDimension.y *
        env.bricksPerDimension.z).toNat := by
    intro h
    rw [buildTasks_buildAccelerator, hn]
  have hnn : 0 ≤ env.bricksPerDimension.x * env.bricksPerDimension.y *
      env.bricksPerDimension.z := mul_nonneg (mul_nonneg hx hy) hz
  refine ⟨h1 handle, fun k => ?_, fun v hok => ?_⟩
  · rw [h1 handle]
    by_cases hk : (k : ℤ) < env.bricksPerDimension.x * env.bricksPerDimension.y *
        env.bricksPerDimension.z
    · rw [if_pos hk]
      have hmem : k ∈ List.range (env.bricksPerDimension.x * env.bricksPerDimension.y *
          env.bricksPerDimension.z).toNat := by
        rw [List.mem_range]
        omega
      exact List.count_eq_one_of_mem (List.nodup_range _) hmem
    · rw [if_neg hk]
      apply List.count_eq_zero_of_not_mem
      rw [List.mem_range]
      omega
  · obtain ⟨pre, h, hc, hp, _⟩ := commit_ok_calls env v hok
    rw [hc, buildTasks_append, hp, List.nil_append, h1 h]

/-- Witness of C21: one brick per dimension, one build task. -/
theorem build_tasks_witness :
    buildTasks (buildAccelerator okIspc 1) = [0] ∧
      buildTasks (dataVolume.commit okIspc).calls = [0] :=
  ⟨(build_tasks_once okIspc 1 (by decide) (by decide) (by decide) (by decide)).1,
    (build_tasks_once okIspc 1 (by decide) (by decide) (by decide) (by decide)).2.2
      dataVolume (by decide!)⟩

/-- C25. When the ISPC-side set step reports failure during a commit (the call
`SharedStructuredVolume_set` is in the commit's trace with result false), the
commit ends with the error "failed to commit StructuredRegularVolume", the
object's ISPC-side handle is null afterwards, the object the failed set was
called on has been destroyed, and neither `createAccelerator` nor any build task
is run. -/
theorem set_failure_resets_handle (env : Ispc) (v : StructuredRegularVolume)
    (handle : ℕ) (d : Data) (dims : Vec3 ℤ) (o s : Vec3 ℚ)
    (hset : IspcCall.set handle d dims o s false ∈ (v.commit env).calls) :
    (v.commit env).error = some "failed to commit StructuredRegularVolume" ∧
    (v.commit env).volume.ispcEquivalent = none ∧
    buildTasks (v.commit env).calls = [] ∧
    (∀ h, IspcCall.createAccelerator h ∉ (v.commit env).calls) ∧
    (v.commit env).calls.getLast? = some (IspcCall.destruct handle) := by
  rcases commit_cases env v with ⟨e, _, h⟩ | ⟨v1, _, _, h⟩ | ⟨v1, d1, _, _, _, h⟩ |
    ⟨v1, d1, _, _, _, _, _, h⟩ | ⟨v1, d1, h1, _, _, _, _, h⟩ | ⟨v1, d1, h1, _, _, _, _, _, h⟩
  · rw [h] at hset; simp at hset
  · rw [h] at hset; simp at hset
  · rw [h] at hset; simp at hset
  · rw [h] at hset; simp at hset
  · rw [h] at hset ⊢
    unfold commitSet at hset ⊢
    cases hs : env.setSucceeds
    · simp only [hs] at hset ⊢
      simp at hset
      obtain ⟨rfl, _⟩ := hset
      simp [buildTasks]
    · simp only [hs, if_true] at hset
      simp [buildAccelerator] at hset
  · rw [h] at hset ⊢
    unfold commitSet at hset ⊢
    cases hs : env.setSucceeds
    · simp only [hs] at hset ⊢
      simp at hset
      obtain ⟨rfl, _⟩ := hset
      simp [buildTasks]
    · simp only [hs, if_true] at hset
      simp [buildAccelerator] at hset

/-- Witness of C25: the first commit of a volume on an ISPC side whose set step
fails. -/
theorem set_failure_witness :
    dataVolume.commit failingSetIspc =
      { error := some "failed to commit StructuredRegularVolume"
        volume := { dataVolume with dimensions := ⟨2, 2, 2⟩, gridSpacing := ⟨1, 1, 1⟩,
                                    voxelData := some eightItems }
        calls := [IspcCall.construct (some 1),
          IspcCall.set 1 eightItems ⟨2, 2, 2⟩ ⟨0, 0, 0⟩ ⟨1, 1, 1⟩ false,
          IspcCall.destruct 1] } ∧
    (dataVolume.commit failingSetIspc).volume.ispcEquivalent = none :=
  ⟨by decide!,
    (set_failure_resets_handle failingSetIspc dataVolume 1 eightItems ⟨2, 2, 2⟩ ⟨0, 0, 0⟩
      ⟨1, 1, 1⟩ (by decide!)).2.1⟩

theorem StructuredVolume_commit_error {v : StructuredRegularVolume} {e : String}
    (h : StructuredVolume_commit v = Except.error e) : e = "missing required parameter" := by
  unfold StructuredVolume_commit at h
  split at h
  · exact Except.noConfusion h
  · injection h with h
    exact h.symm

/-- C24, counterexample. A committed volume holds eight items of voxel data and
an ISPC-side object.  Committing it again with seven items staged fails on the
size test, and committing it again with no voxel data staged fails on the null
test; in both cases the `voxelData` field is no longer what it was. -/
theorem failed_commit_counterexample :
    (committedVolume.voxelData = some eightItems ∧ committedVolume.ispcEquivalent = some 1) ∧
    (((committedVolume.stage ⟨some sevenItems, some ⟨2, 2, 2⟩, some ⟨0, 0, 0⟩,
          some ⟨1, 1, 1⟩⟩).commit okIspc).error =
        some "incorrect voxelData size for provided volume dimensions" ∧
      ((committedVolume.stage ⟨some sevenItems, some ⟨2, 2, 2⟩, some ⟨0, 0, 0⟩,
          some ⟨1, 1, 1⟩⟩).commit okIspc).volume.voxelData = some sevenItems) ∧
    ((committedVolume.stage ⟨none, some ⟨2, 2, 2⟩, some ⟨0, 0, 0⟩,
          some ⟨1, 1, 1⟩⟩).commit okIspc).error = some "no voxelData set on volume" ∧
      ((committedVolume.stage ⟨none, some ⟨2, 2, 2⟩, some ⟨0, 0, 0⟩,
          some ⟨1, 1, 1⟩⟩).commit okIspc).volume.voxelData = none :=
  ⟨⟨by decide!, by decide!⟩, ⟨by decide!, by decide!⟩, by decide!, by decide!⟩

/-- C24, amended. When a commit fails because `voxelData` is missing or its size
does not match the dimensions, no call into the ISPC side has been made (the
ISPC-side object and its accelerator are untouched) and the object's ISPC-side
handle is what it was; the `voxelData` field has been overwritten with the
staged parameter (null when it is missing). -/
theorem failed_commit_keeps_handle (env : Ispc) (v : StructuredRegularVolume)
    (hfail : (v.commit env).error = some "no voxelData set on volume" ∨
      (v.commit env).error = some "incorrect voxelData size for provided volume dimensions") :
    (v.commit env).calls = [] ∧
    (v.commit env).volume.ispcEquivalent = v.ispcEquivalent ∧
    (v.commit env).volume.voxelData = v.paramVoxelData := by
  rcases commit_cases env v with ⟨e, hb, h⟩ | ⟨v1, hb, hd, h⟩ | ⟨v1, d1, hb, hd, _, h⟩ |
    ⟨v1, d1, _, _, _, _, _, h⟩ | ⟨v1, d1, h1, _, _, _, _, h⟩ | ⟨v1, d1, h1, _, _, _, _, _, h⟩
  · rw [h] at hfail
    rw [StructuredVolume_commit_error hb] at hfail
    rcases hfail with hf | hf <;> simp at hf
  · obtain ⟨hp, hi, _⟩ := StructuredVolume_commit_keeps hb
    rw [h]
    exact ⟨rfl, hi, by rw [← hp, hd]⟩
  · obtain ⟨hp, hi, _⟩ := StructuredVolume_commit_keeps hb
    rw [h]
    exact ⟨rfl, hi, by rw [← hp, hd]⟩
  · rw [h] at hfail
    rcases hfail with hf | hf <;> simp at hf
  · rw [h] at hfail
    unfold commitSet at hfail
    cases hs : env.setSucceeds <;> simp [hs] at hfail
  · rw [h] at hfail
    unfold commitSet at hfail
    cases hs : env.setSucceeds <;> simp [hs] at hfail

/-- Witness of C24: the committed volume, committed again with seven items. -/
theorem failed_commit_witness :
    ((committedVolume.stage ⟨some sevenItems, some ⟨2, 2, 2⟩, some ⟨0, 0, 0⟩,
        some ⟨1, 1, 1⟩⟩).commit okIspc).calls = [] ∧
    ((committedVolume.stage ⟨some sevenItems, some ⟨2, 2, 2⟩, some ⟨0, 0, 0⟩,
        some ⟨1, 1, 1⟩⟩).commit okIspc).volume.ispcEquivalent = some 1 :=
  ⟨(failed_commit_keeps_handle okIspc (committedVolume.stage ⟨some sevenItems, some ⟨2, 2, 2⟩,
      some ⟨0, 0, 0⟩, some ⟨1, 1, 1⟩⟩) (Or.inr (by decide!))).1,
    (failed_commit_keeps_handle okIspc (committedVolume.stage ⟨some sevenItems, some ⟨2, 2, 2⟩,
      some ⟨0, 0, 0⟩, some ⟨1, 1, 1⟩⟩) (Or.inr (by decide!))).2.1.trans (by decide!)⟩

/-- C27. `intersect` never changes the ray's origin and direction; when it
returns false the ray is as it was, `t0` and `t` included; when it returns true
`t0` and `t` are the computed entry and exit parameters, and `t0 < t`. -/
theorem intersect_frame (w : VolleyVolumeWrapper) (ray : WrapperRay) :
    (w.intersect ray).2.org = ray.org ∧ (w.intersect ray).2.dir = ray.dir ∧
    ((w.intersect ray).1 = false →
      (w.intersect ray).2.t0 = ray.t0 ∧ (w.intersect ray).2.t = ray.t) ∧
    ((w.intersect ray).1 = true →
      (w.intersect ray).2.t0 = (w.vlyIntersectVolume ray.org ray.dir).1 ∧
      (w.intersect ray).2.t = (w.vlyIntersectVolume ray.org ray.dir).2 ∧
      FloatVal.lt (w.intersect ray).2.t0 (w.intersect ray).2.t = true) := by
  unfold VolleyVolumeWrapper.intersect
  dsimp only
  split
  · rename_i hc
    exact ⟨rfl, rfl, fun h => Bool.noConfusion h, fun _ => ⟨rfl, rfl, hc⟩⟩
  · exact ⟨rfl, rfl, fun _ => ⟨rfl, rfl⟩, fun h => Bool.noConfusion h⟩

theorem trackObjects_append (xs ys : List IspcCall) :
    ∀ live, trackObjects live (xs ++ ys) =
      (trackObjects live xs).bind fun l => trackObjects l ys := by
  induction xs with
  | nil => intro live; rfl
  | cons c cs ih =>
    intro live
    cases c with
    | construct r =>
      cases r with
      | none => exact ih live
      | some h =>
        simp only [List.cons_append, trackObjects]
        split
        · exact ih _
        · rfl
    | set h d dims o s b =>
      simp only [List.cons_append, trackObjects]
      split
      · exact ih _
      · rfl
    | destruct h =>
      simp only [List.cons_append, trackObjects]
      split
      · exact ih _
      · rfl
    | createAccelerator h =>
      simp only [List.cons_append, trackObjects]
      split
      · exact ih _
      · rfl
    | build k => exact ih live

theorem trackObjects_builds (live : Option ℕ) (l : List ℕ) :
    trackObjects live (l.map IspcCall.build) = some live := by
  induction l with
  | nil => rfl
  | cons k ks ih => exact ih

theorem trackObjects_buildAccelerator (env : Ispc) (handle : ℕ) :
    trackObjects (some handle) (buildAccelerator env handle) = some (some handle) := by
  unfold buildAccelerator
  simp only [trackObjects, if_true]
  exact trackObjects_builds _ _

theorem trackObjects_commitSet (env : Ispc) (v : StructuredRegularVolume) (d : Data)
    (handle : ℕ) (pre : List IspcCall) (live : Option ℕ)
    (hpre : trackObjects live pre = some (some handle))
    (hv : v.ispcEquivalent = some handle) :
    trackObjects live (commitSet env v d handle pre).calls =
      some (commitSet env v d handle pre).volume.ispcEquivalent := by
  unfold commitSet
  cases hs : env.setSucceeds
  · simp only [Bool.false_eq_true, if_false]
    rw [trackObjects_append, hpre]
    simp [trackObjects]
  · simp only [if_true]
    rw [trackObjects_append, hpre, hv]
    show (if some handle = some handle then
      trackObjects (some handle) (buildAccelerator env handle) else none) = _
    rw [if_pos rfl, trackObjects_buildAccelerator]

/-- A commit on an object whose ISPC-side handle is the object alive leaves the
handle on the object alive at its end. -/
theorem trackObjects_commit (env : Ispc) (v : StructuredRegularVolume) :
    trackObjects v.ispcEquivalent (v.commit env).calls =
      some (v.commit env).volume.ispcEquivalent := by
  rcases commit_cases env v with ⟨e, hb, h⟩ | ⟨v1, hb, hd, h⟩ | ⟨v1, d1, hb, hd, _, h⟩ |
    ⟨v1, d1, hb, _, _, hi, _, h⟩ | ⟨v1, d1, h1, hb, _, _, hi, h⟩ |
    ⟨v1, d1, h1, hb, _, _, hi, _, h⟩
  · rw [h]; rfl
  · rw [h, ← (StructuredVolume_commit_keeps hb).2.1]; rfl
  · rw [h, ← (StructuredVolume_commit_keeps hb).2.1]; rfl
  · rw [h, ← (StructuredVolume_commit_keeps hb).2.1]; rfl
  · rw [h, ← (StructuredVolume_commit_keeps hb).2.1, hi]
    exact trackObjects_commitSet env _ d1 h1 [] (some h1) rfl rfl
  · rw [h, ← (StructuredVolume_commit_keeps hb).2.1, hi]
    exact trackObjects_commitSet env _ d1 h1 [IspcCall.construct (some h1)] none rfl rfl

theorem trackObjects_lifecycle (steps : List (Staged × Ispc)) :
    ∀ v : StructuredRegularVolume, trackObjects v.ispcEquivalent (lifecycle steps v) = some none := by
  induction steps with
  | nil =>
    intro v
    unfold lifecycle StructuredRegularVolume.destroy
    cases hi : v.ispcEquivalent with
    | none => rfl
    | some h => simp [trackObjects]
  | cons st rest ih =>
    intro v
    obtain ⟨p, env⟩ := st
    unfold lifecycle
    rw [trackObjects_append]
    have hs : (v.stage p).ispcEquivalent = v.ispcEquivalent := rfl
    rw [← hs, trackObjects_commit]
    exact ih _

/-- In a trace that follows one object at a time, constructions and
destructions balance up to the objects alive at the start and at the end. -/
theorem trackObjects_balance (cs : List IspcCall) :
    ∀ live live2, trackObjects live cs = some live2 →
      constructions cs + (if live.isSome then 1 else 0) =
        destructions cs + (if live2.isSome then 1 else 0) := by
  induction cs with
  | nil =>
    intro live live2 h
    simp only [trackObjects, Option.some.injEq] at h
    subst h
    rfl
  | cons c cs ih =>
    intro live live2 h
    cases c with
    | construct r =>
      cases r with
      | none => exact ih live live2 h
      | some k =>
        simp only [trackObjects] at h
        split at h
        · rename_i hl
          have := ih _ _ h
          subst hl
          simp only [constructions, destructions] at this ⊢
          simp at this ⊢
          omega
        · exact Option.noConfusion h
    | set k d dims o s b =>
      simp only [trackObjects] at h
      split at h
      · exact ih _ _ h
      · exact Option.noConfusion h
    | destruct k =>
      simp only [trackObjects] at h
      split at h
      · rename_i hl
        have := ih _ _ h
        subst hl
        simp only [constructions, destructions] at this ⊢
        simp at this ⊢
        omega
      · exact Option.noConfusion h
    | createAccelerator k =>
      simp only [trackObjects] at h
      split at h
      · exact ih _ _ h
      · exact Option.noConfusion h
    | build k => exact ih live live2 h

theorem constructions_append (xs ys : List IspcCall) :
    constructions (xs ++ ys) = constructions xs + constructions ys := by
  induction xs with
  | nil => simp [constructions]
  | cons c cs ih =>
    cases c with
    | construct r =>
      cases r <;> simp [constructions, ih]
      omega
    | set k d dims o s b => simpa [constructions] using ih
    | destruct k => simpa [constructions] using ih
    | createAccelerator k => simpa [constructions] using ih
    | build k => simpa [constructions] using ih

theorem constructions_builds (l : List ℕ) : constructions (l.map IspcCall.build) = 0 := by
  induction l with
  | nil => rfl
  | cons k ks ih => simpa [constructions] using ih

/-- C26. Over every sequence of commit calls, succeeding or failing, followed
by the destructor of a new `StructuredRegularVolume`, the ISPC-side calls follow
one object at a time: an object is constructed only when none is alive, every
set, accelerator creation and destruction is on the object alive, and no object
is alive at the end; so every object constructed is destroyed exactly once, and
there are as many destructions as constructions.  A commit on an object that has
an ISPC-side object constructs no other, and if it ends without error the
handle is the same. -/
theorem ispc_object_lifetime (steps : List (Staged × Ispc)) :
    trackObjects none (lifecycle steps StructuredRegularVolume.new) = some none ∧
    constructions (lifecycle steps StructuredRegularVolume.new) =
      destructions (lifecycle steps StructuredRegularVolume.new) ∧
    ∀ (v : StructuredRegularVolume) (env : Ispc) (h : ℕ), v.ispcEquivalent = some h →
      constructions (v.commit env).calls = 0 ∧
      ((v.commit env).error = none → (v.commit env).volume.ispcEquivalent = some h) := by
  have h1 := trackObjects_lifecycle steps StructuredRegularVolume.new
  refine ⟨h1, ?_, ?_⟩
  · have := trackObjects_balance _ _ _ h1
    simpa using this
  · intro v env h hv
    rcases commit_cases env v with ⟨e, hb, hc⟩ | ⟨v1, hb, hd, hc⟩ | ⟨v1, d1, hb, hd, _, hc⟩ |
      ⟨v1, d1, hb, _, _, hi, _, hc⟩ | ⟨v1, d1, h2, hb, _, _, hi, hc⟩ |
      ⟨v1, d1, h2, hb, _, _, hi, _, hc⟩
    · rw [hc]; exact ⟨rfl, fun hn => Option.noConfusion hn⟩
    · rw [hc]; exact ⟨rfl, fun hn => Option.noConfusion hn⟩
    · rw [hc]; exact ⟨rfl, fun hn => Option.noConfusion hn⟩
    · rw [hc]; exact ⟨rfl, fun hn => Option.noConfusion hn⟩
    · have he : h2 = h := by
        have := (StructuredVolume_commit_keeps hb).2.1
        rw [hi, hv] at this
        exact Option.some.inj this
      subst he
      rw [hc]
      unfold commitSet
      cases hs : env.setSucceeds
      · simp [constructions]
      · refine ⟨?_, fun _ => ?_⟩
        · show constructions ([] ++ IspcCall.set _ _ _ _ _ _ :: buildAccelerator env h2) = 0
          unfold buildAccelerator
          simp only [List.nil_append, constructions]
          exact constructions_builds _
        · rfl
    · have := (StructuredVolume_commit_keeps hb).2.1
      rw [hi, hv] at this
      exact Option.noConfusion this

/-! ## Accelerator build: task order and cell counts -/

theorem foldl_runTask_bricks (V : Volume) (order : List ℕ) :
    ∀ A : Accelerator, (order.foldl (Accelerator.runTask V) A).bricksPerDimension =
      A.bricksPerDimension := by
  induction order with
  | nil => intro A; rfl
  | cons t ts ih => intro A; rw [List.foldl_cons, ih]; rfl

theorem foldl_runTask_length (V : Volume) (order : List ℕ) :
    ∀ A : Accelerator, (order.foldl (Accelerator.runTask V) A).cellValueRanges.length =
      A.cellValueRanges.length := by
  induction order with
  | nil => intro A; rfl
  | cons t ts ih =>
    intro A
    rw [List.foldl_cons, ih]
    simp [Accelerator.runTask]

/-- After the tasks of `order` have run, the slot of a task that ran holds the
range of its macrocell and every other slot is as it was. -/
theorem foldl_runTask_slot (V : Volume) (order : List ℕ) :
    ∀ (A : Accelerator) (k : ℕ), k < A.cellValueRanges.length →
      (order.foldl (Accelerator.runTask V) A).cellValueRanges[k]? =
        if k ∈ order then some (GridAccelerator_build V k) else A.cellValueRanges[k]? := by
  induction order with
  | nil => intro A k _; simp
  | cons t ts ih =>
    intro A k hk
    rw [List.foldl_cons]
    have hlen : k < (Accelerator.runTask V A t).cellValueRanges.length := by
      simpa [Accelerator.runTask] using hk
    rw [ih _ k hlen]
    by_cases hts : k ∈ ts
    · simp [hts]
    · simp only [hts, if_false, List.mem_cons, or_false]
      by_cases hkt : k = t
      · subst hkt
        simp [Accelerator.runTask, hk]
      · have : t ≠ k := fun h => hkt h.symm
        simp [Accelerator.runTask, hkt, List.getElem?_set_ne this]

/-- C22. The accelerator build is a function of the volume alone and does not
depend on the order of its tasks: whatever the slots hold before the build, and
in whatever order the per-cell build tasks run (any order in which every task
index below the number of macrocells occurs), the accelerator is the one that
holds for every macrocell the range of that macrocell's voxels. -/
theorem build_order_independent (V : Volume) (slots : List ValueRange) (order : List ℕ)
    (hslots : slots.length = V.numTasks)
    (horder : order.Perm (List.range V.numTasks)) :
    V.buildInOrder slots order = V.accelerator ∧
    ∀ (slots2 : List ValueRange) (order2 : List ℕ), slots2.length = V.numTasks →
      order2.Perm (List.range V.numTasks) →
      V.buildInOrder slots2 order2 = V.buildInOrder slots order := by
  have key : ∀ (sl : List ValueRange) (ord : List ℕ), sl.length = V.numTasks →
      ord.Perm (List.range V.numTasks) → V.buildInOrder sl ord = V.accelerator := by
    intro sl ord hsl hord
    unfold Volume.buildInOrder
    have hb := foldl_runTask_bricks V ord (V.createAccelerator sl)
    have hl := foldl_runTask_length V ord (V.createAccelerator sl)
    have hs := foldl_runTask_slot V ord (V.createAccelerator sl)
    generalize List.foldl (Accelerator.runTask V) (V.createAccelerator sl) ord = A at hb hl hs
    obtain ⟨b, cells⟩ := A
    have hcells : cells = (List.range V.numTasks).map (GridAccelerator_build V) := by
      apply List.ext_getElem?
      intro k
      by_cases hk : k < V.numTasks
      · have h1 := hs k (by simpa [Volume.createAccelerator, hsl] using hk)
        have hmem : k ∈ ord := hord.mem_iff.mpr (List.mem_range.mpr hk)
        simp only [hmem, if_true] at h1
        rw [h1]
        simp [hk]
      · have h2 : cells.length = V.numTasks := by
          simpa [Volume.createAccelerator, hsl] using hl
        rw [List.getElem?_eq_none (by omega), List.getElem?_eq_none (by simp; omega)]
    have hb2 : b = V.bricksPerDimension := hb
    rw [hcells, hb2]
    rfl
  exact ⟨key slots order hslots horder, fun sl2 ord2 h1 h2 =>
    (key sl2 ord2 h1 h2).trans (key slots order hslots horder).symm⟩

/-- Witness of C22: the eight tasks of the cube volume run in descending order. -/
theorem build_order_witness :
    cubeVolume.numTasks = 8 ∧
    cubeVolume.buildInOrder (List.replicate cubeVolume.numTasks ⟨0, 0⟩)
      (List.range cubeVolume.numTasks).reverse = cubeVolume.accelerator :=
  ⟨by decide!,
    (build_order_independent cubeVolume (List.replicate cubeVolume.numTasks ⟨0, 0⟩)
      (List.range cubeVolume.numTasks).reverse (List.length_replicate _ _)
      (List.reverse_perm _)).1⟩

theorem bricksPerDimension_get (V : Volume) (a : Axis) :
    V.accelerator.bricksPerDimension.get a = (V.cellCount a).toNat := by
  cases a <;> rfl

/-- C23, counterexample. With 2 voxels along an axis and macrocell side 1, which
divides 2, the accelerator has `ceil((2 - 1)/1) = 1` macrocell along the axis,
and `2 / 1 = 2`. -/
theorem cell_count_counterexample :
    unitSideVolume.dims.get Axis.x = 2 ∧ unitSideVolume.B ∣ unitSideVolume.dims.get Axis.x ∧
    unitSideVolume.accelerator.bricksPerDimension.get Axis.x = 1 ∧
    unitSideVolume.dims.get Axis.x / unitSideVolume.B = 2 :=
  ⟨rfl, by decide, by decide!, by decide⟩

/-- C23, amended. For every volume dimension `dim >= 2` along an axis and
macrocell side `B`, the accelerator has `ceil((dim - 1)/B)` macrocells along that
axis, 8 for `dim = 128` and `B = 16`; this equals `dim / B` whenever `B >= 2`
divides `dim`. -/
theorem cell_count_formula (V : Volume) (a : Axis) (hdim : 2 ≤ V.dims.get a) :
    ((V.accelerator.bricksPerDimension.get a : ℕ) : ℤ) =
      ⌈((V.dims.get a : ℚ) - 1) / (V.B : ℚ)⌉ ∧
    (V.dims.get a = 128 → V.B = 16 → V.accelerator.bricksPerDimension.get a = 8) ∧
    (2 ≤ V.B → V.B ∣ V.dims.get a →
      V.accelerator.bricksPerDimension.get a = V.dims.get a / V.B) := by
  have hnn : 0 ≤ V.cellCount a := by
    unfold Volume.cellCount
    apply Int.ceil_nonneg
    have h2 : (2 : ℚ) ≤ (V.dims.get a : ℚ) := by exact_mod_cast hdim
    exact div_nonneg (by linarith) (Nat.cast_nonneg _)
  have hdvd : 2 ≤ V.B → V.B ∣ V.dims.get a →
      V.accelerator.bricksPerDimension.get a = V.dims.get a / V.B := by
    intro hB hd
    rw [bricksPerDimension_get, cellCount_of_dvd V a hB hd (by omega)]
    exact Int.toNat_natCast _
  refine ⟨?_, fun h128 h16 => ?_, hdvd⟩
  · rw [bricksPerDimension_get, Int.toNat_of_nonneg hnn]
    rfl
  · rw [hdvd (by omega) (by rw [h128, h16]; decide), h128, h16]

/-- Witness of C23: 4 voxels per axis with macrocell side 2. -/
theorem cell_count_witness :
    evenVolume.accelerator.bricksPerDimension.get Axis.x = 4 / 2 :=
  (cell_count_formula evenVolume Axis.x (by decide)).2.2 (by decide) (by decide)

/-! ## Ray-marching renderer: sub-intervals and opacity -/

theorem accumulateFl_id (R : VolumeRenderer) (org dir : Vec3 ℚ) (s : Range1f) (color : Vec4) :
    R.accumulateFl id org dir s color = R.accumulate org dir s color := rfl

/-- With `fl = id` the rounded loop is the loop in exact arithmetic. -/
theorem subIntervalLoopFl_id (R : VolumeRenderer) (org dir : Vec3 ℚ) (dt hi : ℚ) :
    ∀ (fuel : ℕ) (s : Range1f) (color : Vec4),
      R.subIntervalLoopFl id org dir dt hi fuel s color =
        R.subIntervalLoop org dir dt hi fuel s color := by
  intro fuel
  induction fuel with
  | zero => intro s color; rfl
  | succ n ih =>
    intro s color
    unfold VolumeRenderer.subIntervalLoopFl VolumeRenderer.subIntervalLoop
    simp only [Range1f.sizeFl, Range1f.size, id, accumulateFl_id, ih]

theorem integrateIntervalFl_id (R : VolumeRenderer) (org dir : Vec3 ℚ) (fuel : ℕ)
    (I : RayInterval) (color : Vec4) :
    R.integrateIntervalFl id org dir fuel I color = R.integrateInterval org dir fuel I color :=
  subIntervalLoopFl_id R org dir _ _ fuel _ color

/-- With at least `ceil((hi - a)/dt)` iterations allowed, the inner loop started
at `a` ends, after at most that many iterations. -/
theorem subIntervalLoop_terminates (R : VolumeRenderer) (org dir : Vec3 ℚ) (dt hi : ℚ)
    (hdt : 0 < dt) :
    ∀ (fuel : ℕ) (a : ℚ) (color : Vec4), ⌈(hi - a) / dt⌉.toNat ≤ fuel →
      (R.subIntervalLoop org dir dt hi fuel ⟨a, min (a + dt) hi⟩ color).finished = true ∧
      (R.subIntervalLoop org dir dt hi fuel ⟨a, min (a + dt) hi⟩ color).steps.length
        ≤ ⌈(hi - a) / dt⌉.toNat := by
  intro fuel
  induction fuel with
  | zero =>
    intro a color hN
    simp only [VolumeRenderer.subIntervalLoop]
    refine ⟨?_, Nat.zero_le _⟩
    simp only [Bool.not_eq_true', decide_eq_false_iff_not, not_and]
    intro hsz
    exfalso
    have hsz2 : 0 < min (a + dt) hi - a := hsz
    have hlt : a < hi := by
      have := min_le_right (a + dt) hi
      linarith
    have hpos : 0 < ⌈(hi - a) / dt⌉ := Int.ceil_pos.mpr (div_pos (by linarith) hdt)
    omega
  | succ n ih =>
    intro a color hN
    unfold VolumeRenderer.subIntervalLoop
    by_cases hc : (Range1f.size ⟨a, min (a + dt) hi⟩ > 0 ∧ color.w < opaqueThreshold)
    · simp only [if_pos hc]
      have hsz2 : 0 < min (a + dt) hi - a := hc.1
      have hlt : a < hi := by
        have := min_le_right (a + dt) hi
        linarith
      have hpos : 0 < ⌈(hi - a) / dt⌉ := Int.ceil_pos.mpr (div_pos (by linarith) hdt)
      have hstep : ⌈(hi - min (a + dt) hi) / dt⌉ ≤ ⌈(hi - a) / dt⌉ - 1 := by
        rcases le_total (a + dt) hi with h | h
        · rw [min_eq_left h]
          have : (hi - (a + dt)) / dt = (hi - a) / dt - 1 := by
            field_simp
            ring
          rw [this, Int.ceil_sub_one]
        · rw [min_eq_right h, sub_self, zero_div, Int.ceil_zero]
          omega
      have hfuel : ⌈(hi - min (a + dt) hi) / dt⌉.toNat ≤ n := by omega
      obtain ⟨h1, h2⟩ := ih (min (a + dt) hi) (R.accumulate org dir ⟨a, min (a + dt) hi⟩ color)
        hfuel
      refine ⟨h1, ?_⟩
      simp only [List.length_cons]
      omega
    · simp only [if_neg hc]
      exact ⟨trivial, Nat.zero_le _⟩

/-- C29. For every ray interval `[lo, hi]` and every sampling step `dt > 0`, in
exact arithmetic, the inner sub-interval loop ends after at most
`ceil((hi - lo)/dt)` iterations: allowed that many iterations or more, it reaches
a state in which its condition is false, having integrated at most that many
sub-intervals. -/
theorem inner_loop_terminates (R : VolumeRenderer) (org dir : Vec3 ℚ) (fuel : ℕ)
    (rayInterval : RayInterval) (color : Vec4)
    (hdt : 0 < rayInterval.nominalDeltaT / R.samplingRate)
    (hfuel : ⌈(rayInterval.tRange.upper - rayInterval.tRange.lower) /
      (rayInterval.nominalDeltaT / R.samplingRate)⌉.toNat ≤ fuel) :
    (R.integrateInterval org dir fuel rayInterval color).finished = true ∧
    (R.integrateInterval org dir fuel rayInterval color).steps.length ≤
      ⌈(rayInterval.tRange.upper - rayInterval.tRange.lower) /
        (rayInterval.nominalDeltaT / R.samplingRate)⌉.toNat :=
  subIntervalLoop_terminates R org dir _ rayInterval.tRange.upper hdt fuel
    rayInterval.tRange.lower color hfuel

/-- Witness of C29: the interval `[1, 2]` with step 1/4, allowed four iterations. -/
theorem inner_loop_witness :
    ⌈(demoInterval.tRange.upper - demoInterval.tRange.lower) /
      (demoInterval.nominalDeltaT / demoRenderer.samplingRate)⌉.toNat = 4 ∧
    (demoRenderer.integrateInterval ⟨0, 0, 0⟩ ⟨0, 0, 1⟩ 4 demoInterval
      ⟨0, 0, 0, 0⟩).finished = true ∧
    (demoRenderer.integrateInterval ⟨0, 0, 0⟩ ⟨0, 0, 1⟩ 4 demoInterval
      ⟨0, 0, 0, 0⟩).steps.length = 4 :=
  ⟨by decide!,
    (inner_loop_terminates demoRenderer ⟨0, 0, 0⟩ ⟨0, 0, 1⟩ 4 demoInterval ⟨0, 0, 0, 0⟩
      (by decide!) (by decide!)).1,
    by decide!⟩

theorem accumulate_w (R : VolumeRenderer) (org dir : Vec3 ℚ) (s : Range1f) (color : Vec4)
    (hclamp : ∀ x, 0 ≤ R.clamp x ∧ R.clamp x ≤ 1) (h1 : color.w ≤ 1) :
    color.w ≤ (R.accumulate org dir s color).w ∧ (R.accumulate org dir s color).w ≤ 1 := by
  unfold VolumeRenderer.accumulate
  dsimp only
  obtain ⟨c0, c1⟩ := hclamp (10 * (R.getColorAndOpacity (R.computeSample
    ⟨org.x + s.center * dir.x, org.y + s.center * dir.y, org.z + s.center * dir.z⟩)).w * s.size)
  constructor <;> nlinarith

theorem Rising_append : ∀ (l1 l2 : List ℚ) (w0 w1 w2 : ℚ), Rising w0 l1 w1 → Rising w1 l2 w2 →
    Rising w0 (l1 ++ l2) w2
  | [], l2, w0, w1, w2, h1, h2 => by
    have : w1 = w0 := h1
    subst this
    exact h2
  | w :: ws, l2, w0, w1, w2, h1, h2 =>
    ⟨h1.1, h1.2.1, Rising_append ws l2 w w1 w2 h1.2.2 h2⟩

theorem Rising_end_le : ∀ (l : List ℚ) (w0 wend : ℚ), w0 ≤ 1 → Rising w0 l wend →
    w0 ≤ wend ∧ wend ≤ 1
  | [], w0, wend, h1, h => by
    have : wend = w0 := h
    subst this
    exact ⟨le_refl _, h1⟩
  | w :: ws, w0, wend, _, h => by
    obtain ⟨g1, g2⟩ := Rising_end_le ws w wend h.2.1 h.2.2
    exact ⟨le_trans h.1 g1, g2⟩

theorem Rising_chain : ∀ (l : List ℚ) (w0 wend : ℚ), 0 ≤ w0 → Rising w0 l wend →
    List.Chain (fun a b : ℚ => a ≤ b) w0 l ∧ ∀ w ∈ l, 0 ≤ w ∧ w ≤ 1
  | [], _, _, _, _ => ⟨List.Chain.nil, fun w hw => absurd hw (List.not_mem_nil w)⟩
  | v :: vs, w0, wend, h0, h => by
    obtain ⟨g1, g2⟩ := Rising_chain vs v wend (le_trans h0 h.1) h.2.2
    refine ⟨List.Chain.cons h.1 g1, fun w hw => ?_⟩
    rcases List.mem_cons.mp hw with rfl | hw
    · exact ⟨le_trans h0 h.1, h.2.1⟩
    · exact g2 w hw

theorem subIntervalLoop_rising (R : VolumeRenderer) (org dir : Vec3 ℚ) (dt hi : ℚ)
    (hclamp : ∀ x, 0 ≤ R.clamp x ∧ R.clamp x ≤ 1) :
    ∀ (fuel : ℕ) (s : Range1f) (color : Vec4), 0 ≤ color.w → color.w ≤ 1 →
      Rising color.w ((R.subIntervalLoop org dir dt hi fuel s color).steps.map fun p => p.2.w)
        (R.subIntervalLoop org dir dt hi fuel s color).color.w := by
  intro fuel
  induction fuel with
  | zero => intro s color _ _; rfl
  | succ n ih =>
    intro s color h0 h1
    unfold VolumeRenderer.subIntervalLoop
    by_cases hc : (s.size > 0 ∧ color.w < opaqueThreshold)
    · simp only [if_pos hc]
      obtain ⟨a1, a2⟩ := accumulate_w R org dir s color hclamp h1
      exact ⟨a1, a2, ih _ _ (le_trans h0 a1) a2⟩
    · simp only [if_neg hc]
      rfl

theorem integrateRay_rising (R : VolumeRenderer) (org dir : Vec3 ℚ) (fuel : ℕ)
    (hclamp : ∀ x, 0 ≤ R.clamp x ∧ R.clamp x ≤ 1) :
    ∀ (intervals : List RayInterval) (color : Vec4), 0 ≤ color.w → color.w ≤ 1 →
      Rising color.w ((R.integrateRay org dir fuel intervals color).steps.map fun p => p.2.w)
        (R.integrateRay org dir fuel intervals color).color.w := by
  intro intervals
  induction intervals with
  | nil => intro color _ _; rfl
  | cons I rest ih =>
    intro color h0 h1
    unfold VolumeRenderer.integrateRay
    have hin : Rising color.w ((R.integrateInterval org dir fuel I color).steps.map
        fun p => p.2.w) (R.integrateInterval org dir fuel I color).color.w :=
      subIntervalLoop_rising R org dir _ _ hclamp fuel _ color h0 h1
    by_cases hc : color.w < opaqueThreshold
    · simp only [if_pos hc]
      by_cases hf : (R.integrateInterval org dir fuel I color).finished = true
      · simp only [if_pos hf, List.map_append]
        obtain ⟨e0, e1⟩ := Rising_end_le _ _ _ h1 hin
        exact Rising_append _ _ _ _ _ hin (ih _ (le_trans h0 e0) e1)
      · simp only [if_neg hf]
        exact hin
    · simp only [if_neg hc]
      rfl

/-- C30. In the integration of a pixel the accumulated opacity `color.w` starts
at 0 and, whatever the samples, the transfer function and the sub-interval
lengths are (with `clamp` giving values in `[0, 1]`), it never decreases and it
is within `[0, 1]` after every accumulation step, however many iterations the
loops run for. -/
theorem opacity_monotone (R : VolumeRenderer) (org dir : Vec3 ℚ) (fuel : ℕ)
    (intervals : List RayInterval) (hclamp : ∀ x, 0 ≤ R.clamp x ∧ R.clamp x ≤ 1) :
    List.Chain (fun a b : ℚ => a ≤ b) 0
      ((R.renderPixel org dir fuel intervals).steps.map fun p => p.2.w) ∧
    (∀ w ∈ (R.renderPixel org dir fuel intervals).steps.map fun p => p.2.w, 0 ≤ w ∧ w ≤ 1) ∧
    (0 ≤ (R.renderPixel org dir fuel intervals).color.w ∧
      (R.renderPixel org dir fuel intervals).color.w ≤ 1) ∧
    (((R.renderPixel org dir fuel intervals).steps.map fun p => p.2.w).getLast?.getD 0 =
      (R.renderPixel org dir fuel intervals).color.w) := by
  have h := integrateRay_rising R org dir fuel hclamp intervals ⟨0, 0, 0, 0⟩ (le_refl _)
    (by norm_num)
  change Rising 0 ((R.renderPixel org dir fuel intervals).steps.map fun p => p.2.w)
    (R.renderPixel org dir fuel intervals).color.w at h
  obtain ⟨c1, c2⟩ := Rising_chain _ _ _ (le_refl _) h
  refine ⟨c1, c2, Rising_end_le _ _ _ (by norm_num) h, ?_⟩
  generalize (R.renderPixel org dir fuel intervals).steps.map (fun p => p.2.w) = ws at h
  generalize (R.renderPixel org dir fuel intervals).color.w = wend at h
  have key : ∀ (l : List ℚ) (w0 we : ℚ), Rising w0 l we → l.getLast?.getD w0 = we := by
    intro l
    induction l with
    | nil => intro w0 we hr; exact (show we = w0 from hr).symm
    | cons v vs ihl =>
      intro w0 we hr
      have := ihl v we hr.2.2
      cases vs with
      | nil => simpa using this
      | cons u us =>
        have hne : (u :: us) ≠ [] := List.cons_ne_nil _ _
        rw [List.getLast?_cons_cons, List.getLast?_eq_getLast _ hne]
        rw [List.getLast?_eq_getLast _ hne] at this
        exact this
  exact key ws 0 wend h

/-- Witness of C30: the demo renderer on the interval `[1, 2]`. -/
theorem opacity_witness :
    (demoRenderer.renderPixel ⟨0, 0, 0⟩ ⟨0, 0, 1⟩ 10 [demoInterval]).steps.length = 4 ∧
    List.Chain (fun a b : ℚ => a ≤ b) 0
      ((demoRenderer.renderPixel ⟨0, 0, 0⟩ ⟨0, 0, 1⟩ 10 [demoInterval]).steps.map
        fun p => p.2.w) :=
  ⟨by decide!,
    (opacity_monotone demoRenderer ⟨0, 0, 0⟩ ⟨0, 0, 1⟩ 10 [demoInterval]
      (fun x => ⟨le_max_left _ _, max_le (by norm_num) (min_le_right _ _)⟩)).1⟩

/-! ## Result flags and the order of the intervals -/

end OpenVKL
